import Mathlib

/-!
# Hummingbird: quorum dispatch, first-response racing, EC split/glue, gossip

A shallow embedding of the parts of `redbo/hummingbird` that decide the
specification's claims:

* `src/ec/gossip.go`      : `GossipState` and its operations;
* `src/client/directclient.go` : the tally of `quorumResponse` and the
  racing loop of `firstResponse`;
* `src/ec/util.go`        : `ECSplit` and `ECGlue`.

Conventions of the embedding.

* A Go `map[string]V` is an `AList` (an association list without duplicate
  keys).  `range` over a map visits the entries in an unspecified order; the
  embedding visits them in list order, and every loop embedded here computes
  the same map whatever the order.
* Go `int`/`int64` values are `Int`; where the source relies on 64-bit
  wrap-around the embedding applies `wrapInt64` explicitly.
* Goroutines and channels are replaced by the sequence of values the
  receiving loop takes from the channel, given as an explicit argument.
-/

namespace Hummingbird

/-! ## Go maps -/

/-- A Go `map[string]V`. -/
abbrev GoMap (V : Type) := AList (fun _ : String => V)

/-- Two's-complement reduction of an integer to the range of `int64`. -/
def wrapInt64 (x : Int) : Int := (x + 2 ^ 63) % 2 ^ 64 - 2 ^ 63

/-! ## `src/ec/gossip.go` -/

/-- `Server` (gossip.go:25): a peer taking part in leader election. -/
structure Server where
  Name : String
  Id : Int
deriving DecidableEq, Repr

/-- `Action` (gossip.go:31); the field `Type` is named `ActionType`, `Type`
being reserved. -/
structure Action where
  Name : String
  ActionType : String
  Partition : Nat
  Src : Nat
  Dst : Nat
deriving DecidableEq, Repr

/-- `GossipState` (gossip.go:40).  The mutex and the `status` back pointer
carry no data and are left out. -/
structure GossipState where
  Friends : GoMap Server
  Todo : GoMap Action
  Done : GoMap Int
  selfName : String
  selfId : Int

/-- `time.Second`, in nanoseconds. -/
def timeSecond : Int := 1000000000

/-- `actionTombstoneRemoval = time.Hour * 24 * 7` (gossip.go:20), in
nanoseconds. -/
def actionTombstoneRemoval : Int := 3600 * timeSecond * 24 * 7

/-- The test of gossip.go:68,
`time.Duration(now-completed)*time.Second > actionTombstoneRemoval`,
in `int64` arithmetic: the subtraction and the multiplication wrap. -/
def tombstoneExpired (now completed : Int) : Bool :=
  decide (wrapInt64 (wrapInt64 (now - completed) * timeSecond) > actionTombstoneRemoval)

/-- First loop of `MergeState` (gossip.go:54-56). -/
def mergeFriends (friends rgFriends : GoMap Server) : GoMap Server :=
  rgFriends.entries.foldl (fun acc e => acc.insert e.1 e.2) friends

/-- Second loop of `MergeState` (gossip.go:57-61): `done` is `g.Done` as it
is before the third loop runs. -/
def mergeTodo (done : GoMap Int) (todo rgTodo : GoMap Action) : GoMap Action :=
  rgTodo.entries.foldl
    (fun acc e => if (done.lookup e.1).isNone then acc.insert e.1 e.2 else acc) todo

/-- Third loop of `MergeState` (gossip.go:62-65), on the pair `(Done, Todo)`. -/
def mergeDone (done : GoMap Int) (todo : GoMap Action) (rgDone : GoMap Int) :
    GoMap Int × GoMap Action :=
  rgDone.entries.foldl (fun acc e => (acc.1.insert e.1 e.2, acc.2.erase e.1)) (done, todo)

/-- Fourth loop of `MergeState` (gossip.go:67-71): every entry of `Done`
whose completion time is older than the tombstone period is deleted. -/
def collectDone (now : Int) (done : GoMap Int) : GoMap Int :=
  done.entries.foldl
    (fun acc e => if tombstoneExpired now e.2 then acc.erase e.1 else acc) done

/-- `MergeState` (gossip.go:51) without its last loop: the state before the
garbage collection. -/
def mergeNoGC (g rg : GossipState) : GossipState :=
  let friends := mergeFriends g.Friends rg.Friends
  let todo := mergeTodo g.Done g.Todo rg.Todo
  let dt := mergeDone g.Done todo rg.Done
  { g with Friends := friends, Todo := dt.2, Done := dt.1 }

/-- `GossipState.MergeState` (gossip.go:51-72); `now` is `time.Now().Unix()`. -/
def MergeState (now : Int) (g rg : GossipState) : GossipState :=
  let s := mergeNoGC g rg
  { s with Done := collectDone now s.Done }

/-- `GossipState.MarkDone` (gossip.go:93-100); `now` is `time.Now().Unix()`. -/
def MarkDone (now : Int) (g : GossipState) (action : String) : GossipState :=
  if action ≠ "" then
    { g with Todo := g.Todo.erase action, Done := g.Done.insert action now }
  else g

/-- `GossipState.IsLeader` (gossip.go:103-116). -/
def IsLeader (g : GossipState) : Bool :=
  match g.Friends.lookup g.selfName with
  | none => false
  | some lookingFor => g.Friends.entries.all (fun f => !decide (f.2.Id > lookingFor.Id))

/-- `GossipState.StartElection` (gossip.go:118-127); `rnd` is the value of
`rand.Int63()`. -/
def StartElection (rnd : Int) (g : GossipState) : GossipState :=
  { g with Friends := AList.singleton g.selfName { Name := g.selfName, Id := rnd } }

/-- One lower-case hexadecimal digit. -/
def hexDigit (n : Nat) : Char :=
  if n < 10 then Char.ofNat (48 + n) else Char.ofNat (87 + n)

/-- `fmt.Sprintf("%016x", v)` for a non-negative `v` below `16^16`. -/
def hex16 (v : Nat) : String :=
  String.mk ((List.range 16).reverse.map (fun i => hexDigit (v / 16 ^ i % 16)))

/-- `NewGossipState` (gossip.go:147-155); `rnd` is the value of
`rand.Int63()`. -/
def NewGossipState (rnd : Nat) : GossipState :=
  { Friends := ∅, Todo := ∅, Done := ∅, selfName := hex16 rnd, selfId := 0 }

/-- The invariant of the data model: no action id is a key of both `Todo`
and `Done`. -/
abbrev TodoDoneDisjoint (g : GossipState) : Prop :=
  ∀ id ∈ g.Todo.keys, id ∉ g.Done.keys

/-- The ids whose `Done` entry the garbage collection of
`MergeState now s t` removes. -/
def gcRemoved (now : Int) (s t : GossipState) (id : String) : Prop :=
  ∃ c, (mergeNoGC s t).Done.lookup id = some c ∧ tombstoneExpired now c = true

/-- Two peers that drew the same election id. -/
def tiedFriends : GoMap Server :=
  AList.insert "a" { Name := "a", Id := 5 } (AList.insert "b" { Name := "b", Id := 5 } ∅)

/-- The peer named `name` holding the map `tiedFriends`. -/
def tiedPeer (name : String) : GossipState :=
  { Friends := tiedFriends, Todo := ∅, Done := ∅, selfName := name, selfId := 0 }

/-- The election of the specification's scenario: ids 100, 200 and 150. -/
def scenarioFriends : GoMap Server :=
  AList.insert "p1" { Name := "p1", Id := 100 }
    (AList.insert "p2" { Name := "p2", Id := 200 }
      (AList.insert "p3" { Name := "p3", Id := 150 } ∅))

/-- A state with one pending action `x`. -/
def pendingState : GossipState :=
  { Friends := ∅, Todo := AList.insert "x" { Name := "x", ActionType := "copy", Partition := 0, Src := 1, Dst := 2 } ∅,
    Done := ∅, selfName := "s", selfId := 0 }

/-- A peer state that records `x` as done at time 0. -/
def staleDoneState : GossipState :=
  { Friends := ∅, Todo := ∅, Done := AList.insert "x" 0 ∅, selfName := "t", selfId := 0 }

end Hummingbird
namespace Hummingbird

/-! ## `src/client/directclient.go` -/

/-- `http.Header`: a map from canonical header names to their values. -/
abbrev Header := GoMap (List String)

/-- `Header.Get` for a key already in canonical form (as `Etag` is): the first
value stored under the key, or the empty string. -/
def HeaderGet (h : Header) (key : String) : String :=
  match h.lookup key with
  | some (v :: _) => v
  | _ => ""

/-- `Header.Set` for a key already in canonical form (as `Etag` and
`Accept-Ranges` are): the key is bound to the single value. -/
def HeaderSet (h : Header) (key value : String) : Header :=
  h.insert key [value]

/-- `http.Response`, reduced to the fields the dispatchers read or write;
`Detail` is the reason a stub response carries. -/
structure Response where
  StatusCode : Int
  Header : Header
  Body : String
  Detail : String

/-- Modelled from the spec: `nectarutil.ResponseStub` of the package
`github.com/troubling/nectar/nectarutil`, which is not under `src/`.  "A stub
response is a synthetic response used to signal errors without a backend
round-trip"; "Stub responses have an empty body and the textual reason stored
as a detail field." -/
def ResponseStub (status : Int) (detail : String) : Response :=
  { StatusCode := status, Header := ∅, Body := "", Detail := detail }

/-- `ring.Device` of `common/ring`, reduced to the fields read under `src/`. -/
structure Device where
  Id : Int
  Scheme : String
  Ip : String
  Port : Int
  Device : String
deriving DecidableEq, Repr

/-- What a call of a dispatcher ends in. -/
inductive Outcome (α : Type) where
  | returned (a : α)
  | panicked
  | blocked

/-- `quorum := int(math.Ceil(float64(r.ReplicaCount()) / 2.0))`
(directclient.go:178).  The conversion to `float64` is exact below `2^53`,
far above any replica count for which the slice of primaries exists. -/
def quorumOf (replicaCount : Nat) : Nat := (replicaCount + 1) / 2

/-- The status class `resp.StatusCode/100`; Go's integer division truncates
towards zero. -/
def statusClass (r : Response) : Int := r.StatusCode.tdiv 100

/-- The tally loop of `quorumResponse` (directclient.go:179-195).

* `counts` is `responseClassCounts`, a slice of length 6: an index outside
  `0..5` is a run-time panic.
* `n` is the number of iterations left, `int(r.ReplicaCount()) - i`.
* `arrivals` are the values received from `responsec`, in order; when the
  loop waits for a value that never comes it blocks.

Once a class count reaches the quorum, lines 183-192 wait for the other
workers for at most 100 ms and return `resp` either way. -/
def tallyLoop (quorum : Nat) : (Nat → Nat) → Nat → List (Option Response) → Outcome Response
  | _, 0, _ => .returned (ResponseStub 503 "Unknown State")
  | _, _ + 1, [] => .blocked
  | counts, n + 1, none :: rest => tallyLoop quorum counts n rest
  | counts, n + 1, some resp :: rest =>
    if 0 ≤ statusClass resp ∧ statusClass resp < 6 then
      let cls := (statusClass resp).toNat
      let counts' := Function.update counts cls (counts cls + 1)
      if counts' cls ≥ quorum then .returned resp
      else tallyLoop quorum counts' n rest
    else .panicked

/-- The tally of `quorumResponse` (directclient.go:177-196) for a ring with
`replicaCount` replicas and the given sequence of worker results. -/
def quorumTally (replicaCount : Nat) (arrivals : List (Option Response)) : Outcome Response :=
  tallyLoop (quorumOf replicaCount) (fun _ => 0) replicaCount arrivals

/-- Number of responses of `rs` in status class `c`. -/
def classCount (c : Int) (rs : List Response) : Nat :=
  rs.countP (fun r => decide (statusClass r = c))

/-- `strings.Trim(s, "\"")`: all leading and trailing double quotes removed. -/
def trimQuotes (s : String) : String :=
  String.mk ((s.data.dropWhile (fun c => c == Char.ofNat 34)).rdropWhile
    (fun c => c == Char.ofNat 34))

/-- The test of directclient.go:216-217: status 2xx, 412, 304 or 416. -/
def acceptableStatus (status : Int) : Bool :=
  status.tdiv 100 == 2 || status == 412 || status == 304 || status == 416

/-- The counters `notFounds` and `internalErrors` of `firstResponse`. -/
structure Counters where
  notFounds : Int
  internalErrors : Int
deriving DecidableEq, Repr

/-- The closure `interpretResponse` of `firstResponse`
(directclient.go:215-235); the counters it captures are passed and returned.
`none` is the nil response pointer. -/
def interpretResponse (resp : Option Response) (c : Counters) : Option Response × Counters :=
  match resp with
  | some r =>
    if acceptableStatus r.StatusCode then
      let h := HeaderSet r.Header "Accept-Ranges" "bytes"
      let etag := HeaderGet h "Etag"
      let h' := if etag ≠ "" then HeaderSet h "Etag" (trimQuotes etag) else h
      (some { r with Header := h' }, c)
    else if r.StatusCode = 404 then
      (none, { c with notFounds := c.notFounds + 1 })
    else
      (none, { c with internalErrors := c.internalErrors + 1 })
  | none => (none, { c with internalErrors := c.internalErrors + 1 })

/-- What happens during a run of `firstResponse`, in order. -/
inductive FREvent where
  | builderError (dev : Device)
  | launched (dev : Device)
  | received (resp : Option Response)
  | staggerTimeout
  | gaveUp (pending : Nat)

/-- The collaborators of `firstResponse`: the request builder `devToRequest`
(an error is `Except.error`) and the backend reached through `c.client.Do`
(`none` is a transport error, for which the goroutine sends nil). -/
structure FREnv (Req : Type) where
  devToRequest : Device → Except String Req
  clientDo : Req → Option Response

/-- The local state of `firstResponse`.  `pending` holds the results of the
goroutines that have not been received yet, in launch order; the counter
`requestsPending` of the source is its length. -/
structure FRState where
  more : List Device
  pending : List (Option Response)
  counters : Counters
  log : List FREvent

/-- The result of `firstResponse`, with the final values of its counters and
the trace of the run. -/
structure FRResult where
  resp : Response
  counters : Counters
  log : List FREvent

/-- Lines 298-301 of directclient.go. -/
def frFinish (st : FRState) : FRResult :=
  { resp := if st.counters.notFounds > st.counters.internalErrors then ResponseStub 404 ""
            else ResponseStub 503 ""
    counters := st.counters, log := st.log }

/-- The receive case of both `select` statements (lines 275-280 and 287-292):
the `j`-th pending result is taken from `success` and interpreted.  The left
result is a return from `firstResponse`. -/
def frReceive (st : FRState) (j : Nat) : FRResult ⊕ FRState :=
  let k := j % st.pending.length
  let r := (st.pending.get? k).join
  let st' := { st with pending := st.pending.eraseIdx k, log := st.log ++ [FREvent.received r] }
  match interpretResponse r st.counters with
  | (some resp, c) => .inl { resp := resp, counters := c, log := st'.log }
  | (none, c) => .inr { st' with counters := c }

/-- The final loop of `firstResponse` (directclient.go:284-297).  Each element
of the schedule is one `select`: `some j` receives the `j`-th pending result,
`none` is the 30 s give-up timer; when the schedule is over nothing arrives
any more and the timer fires. -/
def frFinalLoop : FRState → List (Option Nat) → FRResult
  | st, some j :: sched =>
    if 0 < st.pending.length then
      match frReceive st j with
      | .inl res => res
      | .inr st' => frFinalLoop st' sched
    else frFinish st
  | st, _ =>
    if 0 < st.pending.length then
      frFinish { st with
        counters := { st.counters with
          internalErrors := st.counters.internalErrors + st.pending.length }
        pending := []
        log := st.log ++ [FREvent.gaveUp st.pending.length] }
    else frFinish st

/-- The launch loop of `firstResponse` (directclient.go:238-283), followed by
the final loop.  `n` is the number of iterations left,
`maxRequests - requestCount`.  Each element of the schedule is one `select`:
`some j` receives the `j`-th pending result, `none` is the one-second timer;
when the schedule is over only timers fire. -/
def frLaunchLoop {Req : Type} (env : FREnv Req) (devs : List Device) :
    Nat → Nat → FRState → List (Option Nat) → FRResult
  | 0, _, st, sched => frFinalLoop st sched
  | n + 1, requestCount, st, sched =>
    let next : Option (Device × List Device) :=
      if requestCount < devs.length then (devs.get? requestCount).map (fun d => (d, st.more))
      else match st.more with
        | [] => none
        | d :: m => some (d, m)
    match next with
    | none => frFinalLoop st sched
    | some (dev, more') =>
      match env.devToRequest dev with
      | .error _ =>
        frLaunchLoop env devs n (requestCount + 1)
          { st with
            more := more'
            counters := { st.counters with internalErrors := st.counters.internalErrors + 1 }
            log := st.log ++ [FREvent.builderError dev] } sched
      | .ok req =>
        let st1 : FRState :=
          { st with
            more := more'
            pending := st.pending ++ [env.clientDo req]
            log := st.log ++ [FREvent.launched dev] }
        match sched with
        | some j :: rest =>
          match frReceive st1 j with
          | .inl res => res
          | .inr st2 => frLaunchLoop env devs n (requestCount + 1) st2 rest
        | none :: rest =>
          frLaunchLoop env devs n (requestCount + 1)
            { st1 with log := st1.log ++ [FREvent.staggerTimeout] } rest
        | [] =>
          frLaunchLoop env devs n (requestCount + 1)
            { st1 with log := st1.log ++ [FREvent.staggerTimeout] } []

/-- The shuffle of directclient.go:208-211, `n` steps starting at index `i`:
`devs[i]` and `devs[j]` are swapped, `j = rand.Intn(i+1)` being
`rnd i % (i+1)`.  An index outside the slice is a run-time panic (`none`). -/
def frShuffle (rnd : Nat → Nat) : Nat → Nat → List Device → Option (List Device)
  | 0, _, devs => some devs
  | n + 1, i, devs =>
    match devs.get? i, devs.get? (rnd i % (i + 1)) with
    | some di, some dj =>
      frShuffle rnd n (i + 1) ((devs.set i dj).set (rnd i % (i + 1)) di)
    | _, _ => none

/-- `ProxyDirectClient.firstResponse` (directclient.go:203-302).

* `replicaCount` is `r.ReplicaCount()`, `devs` is `r.GetNodes(partition)` and
  `more` lists what the iterator `r.GetMoreNodes(partition)` yields before nil;
* `rnd i` is the random number drawn in step `i` of the shuffle;
* `sched` is the sequence of outcomes of the `select` statements.

The result is `none` when the shuffle indexes outside `devs`. -/
def firstResponse {Req : Type} (env : FREnv Req) (replicaCount : Nat) (deviceLimit : Int)
    (devs more : List Device) (rnd : Nat → Nat) (sched : List (Option Nat)) :
    Option FRResult :=
  let primaries := if deviceLimit > 0 then deviceLimit.toNat else replicaCount
  match frShuffle rnd primaries 0 devs with
  | none => none
  | some devs' =>
    some (frLaunchLoop env devs' (primaries * 2) 0
      { more := more, pending := [], counters := { notFounds := 0, internalErrors := 0 },
        log := [] } sched)

/-- Number of 404 responses received during a run. -/
def count404 : List FREvent → Int
  | [] => 0
  | .received (some r) :: evs => (if r.StatusCode = 404 then 1 else 0) + count404 evs
  | _ :: evs => count404 evs

/-- Number of internal errors of a run: request-builder errors, transport
errors, responses that are neither acceptable nor 404, and the requests still
pending when the give-up timer fires. -/
def countInternal : List FREvent → Int
  | [] => 0
  | .builderError _ :: evs => 1 + countInternal evs
  | .received none :: evs => 1 + countInternal evs
  | .received (some r) :: evs =>
    (if acceptableStatus r.StatusCode = false ∧ r.StatusCode ≠ 404 then 1 else 0)
      + countInternal evs
  | .gaveUp k :: evs => (k : Int) + countInternal evs
  | _ :: evs => countInternal evs

/-- An acceptable response was received during the run. -/
def receivedAcceptable : List FREvent → Bool
  | [] => false
  | .received (some r) :: evs => acceptableStatus r.StatusCode || receivedAcceptable evs
  | _ :: evs => receivedAcceptable evs

/-- Number of requests launched during a run. -/
def countLaunched : List FREvent → Nat
  | [] => 0
  | .launched _ :: evs => 1 + countLaunched evs
  | _ :: evs => countLaunched evs

/-- Every request launched during the run was answered with status 404: the
trace holds no builder error and no give-up, and every result received is a
response with status 404. -/
def all404Run : List FREvent → Bool
  | [] => true
  | .launched _ :: evs => all404Run evs
  | .staggerTimeout :: evs => all404Run evs
  | .received (some r) :: evs => decide (r.StatusCode = 404) && all404Run evs
  | _ :: _ => false

/-- A response with the given status and no header. -/
def plainResponse (status : Int) : Response :=
  { StatusCode := status, Header := ∅, Body := "", Detail := "" }

/-- A device of the test ring. -/
def testDevice (id : Int) : Device :=
  { Id := id, Scheme := "http", Ip := "127.0.0.1", Port := 6000 + id, Device := "sda" }

/-- A backend on which every device answers 404. -/
def notFoundEnv : FREnv Device :=
  { devToRequest := fun d => .ok d, clientDo := fun _ => some (plainResponse 404) }

/-- A backend on which device 1 cannot be reached, the builder fails for
device 2, and every other device answers 404. -/
def mixedEnv : FREnv Device :=
  { devToRequest := fun d => if d.Id = 2 then .error "no request" else .ok d
    clientDo := fun d => if d.Id = 1 then none else some (plainResponse 404) }

/-- The worker results of the specification's first scenario: 201, 201, 500. -/
def scenarioArrivals : List Response :=
  [plainResponse 201, plainResponse 201, plainResponse 500]

/-- A 200 response carrying a quoted `Etag`. -/
def quotedEtagResponse : Response :=
  { StatusCode := 200, Header := AList.insert "Etag" ["\"abc\""] ∅, Body := "", Detail := "" }

/-- Number of results received during a run. -/
def countReceived : List FREvent → Nat
  | [] => 0
  | .received _ :: evs => 1 + countReceived evs
  | _ :: evs => countReceived evs

/-! ## `src/ec/util.go` -/

/-- The interface `reedsolomon.Encoder` of the library
`github.com/klauspost/reedsolomon`, reduced to the two methods `ECSplit` and
`ECGlue` call.  A shard is a list of bytes; a nil or empty shard is a missing
one.  The Go methods update the shards in place and return an error; here
they return the updated shards. -/
structure Encoder where
  Encode : List (List Nat) → Except String (List (List Nat))
  Reconstruct : List (List Nat) → Except String (List (List Nat))

/-- What `ECSplit` returns and what it wrote to each of the `k+m` writers. -/
structure SplitResult where
  err : Option String
  written : List (List Nat)
deriving DecidableEq, Repr

/-- What `ECGlue` returns and what it wrote to the destination. -/
structure GlueResult where
  err : Option String
  out : List Nat
deriving DecidableEq, Repr

/-- The padding loop of util.go:77-80: `read` rounded up to a multiple of
`dataChunks`. -/
def paddedLength (dataChunks read : Nat) : Nat :=
  read + (dataChunks - read % dataChunks) % dataChunks

/-- The shards `data[i] = databuf[i*size : (i+1)*size]` for `i < n`
(util.go:82-84). -/
def sliceShards (databuf : List Nat) (n size : Nat) : List (List Nat) :=
  (List.range n).map (fun i => (databuf.drop (i * size)).take size)

/-- One window of `ECSplit` (util.go:77-87): the bytes read are padded with
zeros in `databuf`, `data[i]` is cut out of `databuf` for every `i`, and the
encoder fills the parity shards, which lie in `databuf`.  The result is the
shards and the buffer after the call. -/
def splitWindow (enc : Encoder) (dataChunks parityChunks : Nat) (window databuf : List Nat) :
    Except String (List (List Nat) × List Nat) :=
  let read := window.length
  let padded := paddedLength dataChunks read
  let databuf' := window ++ List.replicate (padded - read) 0 ++ databuf.drop padded
  let thisChunkSize := padded / dataChunks
  let data := sliceShards databuf' (dataChunks + parityChunks) thisChunkSize
  match enc.Encode data with
  | .error e => .error e
  | .ok data' => .ok (data', data'.flatten ++ databuf'.drop data'.flatten.length)

/-- The loop of `ECSplit` (util.go:67-96).  `fuel` bounds the number of
iterations; `fp` is what the reader still yields.  The writers receive
`data[i]` of this window followed by what the later windows write. -/
def splitLoop (enc : Encoder) (dataChunks parityChunks chunkSize : Nat) (contentLength : Int) :
    Nat → List Nat → List Nat → Int → SplitResult
  | 0, _, _, totalRead =>
    { err := if totalRead < contentLength then some "iteration bound reached" else none
      written := List.replicate (dataChunks + parityChunks) [] }
  | fuel + 1, fp, databuf, totalRead =>
    if totalRead < contentLength then
      let expectedRead : Nat :=
        if contentLength - totalRead < ((dataChunks * chunkSize : Nat) : Int) then
          (contentLength - totalRead).toNat
        else dataChunks * chunkSize
      let window := fp.take expectedRead
      if window.length = 0 then
        { err := some "Short read", written := List.replicate (dataChunks + parityChunks) [] }
      else
        match splitWindow enc dataChunks parityChunks window databuf with
        | .error e =>
          { err := some e, written := List.replicate (dataChunks + parityChunks) [] }
        | .ok (data, databuf') =>
          let rest := splitLoop enc dataChunks parityChunks chunkSize contentLength fuel
            (fp.drop window.length) databuf' (totalRead + window.length)
          { err := rest.err, written := List.zipWith (fun a b => a ++ b) data rest.written }
    else
      { err := none, written := List.replicate (dataChunks + parityChunks) [] }

/-- `ECSplit` (util.go:55-98).  `newEncoder` is `reedsolomon.New`; `fp` is the
sequence of bytes the reader yields before end of file; `writers` has
`dataChunks + parityChunks` elements, as at every call site, and errors of
`Write` are ignored as in the source.  Every iteration reads at least one
byte or returns, so `contentLength` iterations are enough. -/
def ECSplit (newEncoder : Nat → Nat → Except String Encoder) (dataChunks parityChunks : Nat)
    (fp : List Nat) (chunkSize : Nat) (contentLength : Int) : SplitResult :=
  match newEncoder dataChunks parityChunks with
  | .error e => { err := some e, written := List.replicate (dataChunks + parityChunks) [] }
  | .ok enc =>
    splitLoop enc dataChunks parityChunks chunkSize contentLength contentLength.toNat fp
      (List.replicate ((dataChunks + parityChunks) * chunkSize) 0) 0

/-- Lines 118-135 of util.go for one reader: a non-nil body gets a buffer of
`size` bytes and `io.ReadFull` fills it; when the body ends before, the shard
and the body become nil.  A nil body leaves `data[i]` as it is. -/
def readShard (size : Nat) (body : Option (List Nat)) (shard : List Nat) :
    Option (List Nat) × List Nat :=
  match body with
  | none => (none, shard)
  | some s => if size ≤ s.length then (some (s.drop size), s.take size) else (none, [])

/-- Lines 118-135 of util.go for all readers. -/
def readShards (size : Nat) (bodies : List (Option (List Nat))) (data : List (List Nat)) :
    List (Option (List Nat) × List Nat) :=
  List.zipWith (readShard size) bodies data

/-- Lines 139-152 of util.go on the data shards: each is cut to what is still
to be written, written, and counted.  The result is the shards as cut, the
bytes written and the new `totalWritten`. -/
def writeShards (contentLength : Int) :
    List (List Nat) → Int → List (List Nat) × List Nat × Int
  | [], totalWritten => ([], [], totalWritten)
  | shard :: shards, totalWritten =>
    let shard' :=
      if contentLength - totalWritten < (shard.length : Int) then
        shard.take (contentLength - totalWritten).toNat
      else shard
    let r := writeShards contentLength shards (totalWritten + shard'.length)
    (shard' :: r.1, shard' ++ r.2.1, r.2.2)

/-- `expectedChunkSize` of util.go:111-117; `remaining` is
`contentLength - totalWritten`, which is positive inside the loop. -/
def expectedChunkSize (dataChunks chunkSize : Nat) (remaining : Int) : Nat :=
  if remaining < ((chunkSize * dataChunks : Nat) : Int) then
    (remaining / (dataChunks : Int)).toNat
      + (if remaining % (dataChunks : Int) ≠ 0 then 1 else 0)
  else chunkSize

/-- The loop of `ECGlue` (util.go:110-153).  `fuel` bounds the number of
iterations; `bodies` are the bytes the readers still yield (`none` for a nil
reader); `data` is the slice of shards, which lives across the iterations. -/
def glueLoop (enc : Encoder) (dataChunks chunkSize : Nat) (contentLength : Int) :
    Nat → List (Option (List Nat)) → List (List Nat) → Int → GlueResult
  | 0, _, _, totalWritten =>
    { err := if totalWritten < contentLength then some "iteration bound reached" else none
      out := [] }
  | fuel + 1, bodies, data, totalWritten =>
    if totalWritten < contentLength then
      let rd := readShards
        (expectedChunkSize dataChunks chunkSize (contentLength - totalWritten)) bodies data
      match enc.Reconstruct (rd.map Prod.snd) with
      | .error e => { err := some e, out := [] }
      | .ok data' =>
        let w := writeShards contentLength (data'.take dataChunks) totalWritten
        let rest := glueLoop enc dataChunks chunkSize contentLength fuel (rd.map Prod.fst)
          (w.1 ++ data'.drop dataChunks) w.2.2
        { err := rest.err, out := w.2.1 ++ rest.out }
    else { err := none, out := [] }

/-- `ECGlue` (util.go:101-155) with one destination writer.  `bodies` has
`dataChunks + parityChunks` elements, as at every call site; `data` starts
as a slice of nil shards.  The iteration bound is reached only if an
iteration writes nothing. -/
def ECGlue (newEncoder : Nat → Nat → Except String Encoder) (dataChunks parityChunks : Nat)
    (bodies : List (Option (List Nat))) (chunkSize : Nat) (contentLength : Int) : GlueResult :=
  match newEncoder dataChunks parityChunks with
  | .error e => { err := some e, out := [] }
  | .ok enc =>
    glueLoop enc dataChunks chunkSize contentLength contentLength.toNat bodies
      (List.replicate (dataChunks + parityChunks) []) 0

/-- Replaces by nil the readers whose index is in `missing`. -/
def dropReaders (missing : List Nat) (frags : List (List Nat)) : List (Option (List Nat)) :=
  (List.range frags.length).zipWith
    (fun i f => if i ∈ missing then none else some f) frags

/-! ### A reference encoder

The Reed-Solomon code of the library over GF(2^8): the field with the
polynomial `x^8 + x^4 + x^3 + x^2 + 1`, the coding matrix obtained from the
Vandermonde matrix by making its top square the identity, and the checks on
the shards `Encode` and `Reconstruct` perform. -/

/-- Multiplication in GF(2^8), `n` steps of shift and add. -/
def gfMulAux : Nat → Nat → Nat → Nat → Nat
  | 0, _, _, acc => acc
  | n + 1, a, b, acc =>
    let acc' := if b % 2 = 1 then acc ^^^ a else acc
    let a2 := a * 2
    let a' := if a2 ≥ 256 then a2 ^^^ 285 else a2
    gfMulAux n a' (b / 2) acc'

/-- Multiplication in GF(2^8). -/
def gfMul (a b : Nat) : Nat := gfMulAux 8 a b 0

/-- Power in GF(2^8). -/
def gfPow (a : Nat) : Nat → Nat
  | 0 => 1
  | n + 1 => gfMul a (gfPow a n)

/-- Inverse in GF(2^8): `a^254`, the product of `a^2`, `a^4`, ..., `a^128`. -/
def gfInv (a : Nat) : Nat :=
  let a2 := gfMul a a
  let a4 := gfMul a2 a2
  let a8 := gfMul a4 a4
  let a16 := gfMul a8 a8
  let a32 := gfMul a16 a16
  let a64 := gfMul a32 a32
  let a128 := gfMul a64 a64
  gfMul a2 (gfMul a4 (gfMul a8 (gfMul a16 (gfMul a32 (gfMul a64 a128)))))

/-- Dot product of two rows over GF(2^8). -/
def gfDot (r v : List Nat) : Nat :=
  (List.zipWith gfMul r v).foldl (fun x y => x ^^^ y) 0

/-- Product of two matrices over GF(2^8); `b` is given by its rows. -/
def gfMatMul (a b : List (List Nat)) : List (List Nat) :=
  a.map (fun row => (List.range (b.headD []).length).map
    (fun c => gfDot row (b.map (fun br => br.getD c 0))))

/-- One step of Gauss-Jordan elimination on column `c` of an augmented
matrix; `none` when the column has no pivot. -/
def gfEliminate (mat : List (List Nat)) (c : Nat) : Option (List (List Nat)) :=
  match (mat.drop c).find? (fun row => row.getD c 0 ≠ 0) with
  | none => none
  | some prow =>
    let p := prow.map (gfMul (gfInv (prow.getD c 0)))
    let others := (mat.take c) ++ ((mat.drop c).eraseP (fun row => row.getD c 0 ≠ 0))
    let cleared := others.map (fun row =>
      List.zipWith (fun x y => x ^^^ gfMul (row.getD c 0) y) row p)
    some (cleared.take c ++ [p] ++ cleared.drop c)

/-- Gauss-Jordan elimination on the columns `c, c+1, ...`, `n` of them. -/
def gfGaussJordan : Nat → Nat → List (List Nat) → Option (List (List Nat))
  | 0, _, mat => some mat
  | n + 1, c, mat =>
    match gfEliminate mat c with
    | none => none
    | some mat' => gfGaussJordan n (c + 1) mat'

/-- Inverse of a square matrix over GF(2^8), `none` when it is singular. -/
def gfMatInv (mat : List (List Nat)) : Option (List (List Nat)) :=
  let n := mat.length
  let aug := (List.range n).zipWith
    (fun i row => row ++ (List.range n).map (fun j => if i = j then 1 else 0)) mat
  (gfGaussJordan n 0 aug).map (fun res => res.map (fun row => row.drop n))

/-- The coding matrix of the library: `k+m` rows and `k` columns, the top
square being the identity. -/
def rsMatrix (k m : Nat) : List (List Nat) :=
  let vm := (List.range (k + m)).map (fun r => (List.range k).map (fun c => gfPow r c))
  match gfMatInv (vm.take k) with
  | none => []
  | some inv => gfMatMul vm inv

/-- A row of the coding matrix applied to the shards `src`, byte by byte. -/
def rsCodeRow (size : Nat) (row : List Nat) (src : List (List Nat)) : List Nat :=
  (List.range size).map (fun b => gfDot row (src.map (fun s => s.getD b 0)))

/-- The size of the first non-empty shard, 0 if there is none (`shardSize`
of the library). -/
def rsShardSize (shards : List (List Nat)) : Nat :=
  ((shards.find? (fun s => s.length ≠ 0)).map List.length).getD 0

/-- `Encode` of the reference encoder: the shards must be `k+m`, non-empty
and of one size; the parity shards are overwritten with the code of the data
shards, which stay as they are. -/
def rsEncode (k m : Nat) (shards : List (List Nat)) : Except String (List (List Nat)) :=
  if shards.length ≠ k + m then .error "too few shards given"
  else if rsShardSize shards = 0 then .error "no shard data"
  else if shards.any (fun s => s.length ≠ rsShardSize shards) then .error "shard sizes do not match"
  else
    .ok (shards.take k ++
      ((rsMatrix k m).drop k).map (fun row => rsCodeRow (rsShardSize shards) row (shards.take k)))

/-- `Reconstruct` of the reference encoder: the non-empty shards must be of
one size; when none is missing nothing is done; with fewer than `k` of them
the call fails; otherwise the data shards are decoded from the first `k`
shards present and every missing shard is filled in. -/
def rsReconstruct (k m : Nat) (shards : List (List Nat)) : Except String (List (List Nat)) :=
  if shards.length ≠ k + m then .error "too few shards given"
  else if rsShardSize shards = 0 then .error "no shard data"
  else if shards.any (fun s => s.length ≠ 0 ∧ s.length ≠ rsShardSize shards) then
    .error "shard sizes do not match"
  else if shards.all (fun s => s.length ≠ 0) then .ok shards
  else if (shards.filter (fun s => s.length ≠ 0)).length < k then
    .error "too few shards given"
  else
    let present := ((List.range (k + m)).zip shards).filter (fun p => p.2.length ≠ 0)
    let sub := (present.take k).map (fun p => (rsMatrix k m).getD p.1 [])
    match gfMatInv sub with
    | none => .error "matrix is singular"
    | some inv =>
      let dataShards := inv.map (fun row =>
        rsCodeRow (rsShardSize shards) row ((present.take k).map Prod.snd))
      .ok ((List.range (k + m)).zipWith
        (fun i s =>
          if s.length ≠ 0 then s
          else rsCodeRow (rsShardSize shards) ((rsMatrix k m).getD i []) dataShards)
        shards)

/-- `reedsolomon.New` of the reference encoder. -/
def rsNew (k m : Nat) : Except String Encoder :=
  if k = 0 ∨ m = 0 then .error "cannot create Encoder with zero or less data/parity shards"
  else if k + m > 256 then .error "cannot create Encoder with more than 256 data+parity shards"
  else .ok { Encode := rsEncode k m, Reconstruct := rsReconstruct k m }

/-- The bytes of `ABCDEFGHIJKLMNOPQRSTUVWXYZ`. -/
def alphabet : List Nat := (List.range 26).map (fun i => 65 + i)

/-! ## Contracts and invariants -/

/-- What `ECSplit` and `ECGlue` rely on from the encoder for `k` data and `m`
parity shards, as the library documents it: `Encode` leaves the data shards
as they are and fills the parity shards, all of one size; `Reconstruct` does
nothing when no shard is missing, and fails with fewer than `k` shards. -/
structure EncoderContract (k m : Nat) (enc : Encoder) : Prop where
  encode_ok : ∀ (shards : List (List Nat)) (n : Nat), shards.length = k + m → 0 < n →
    (∀ s ∈ shards, s.length = n) →
    ∃ parity, enc.Encode shards = .ok (shards.take k ++ parity) ∧ parity.length = m ∧
      ∀ p ∈ parity, p.length = n
  reconstruct_present : ∀ (shards : List (List Nat)) (n : Nat), shards.length = k + m →
    0 < n → (∀ s ∈ shards, s.length = n) → enc.Reconstruct shards = .ok shards
  reconstruct_few : ∀ shards : List (List Nat),
    (shards.filter (fun s => s.length ≠ 0)).length < k →
    ∃ e, enc.Reconstruct shards = .error e

/-- What `firstResponse` maintains between two iterations: the counters agree
with the trace, no acceptable response has been received, and the results
received together with those still pending are the requests launched. -/
structure FRInv (st : FRState) : Prop where
  nf : st.counters.notFounds = count404 st.log
  ie : st.counters.internalErrors = countInternal st.log
  acc : receivedAcceptable st.log = false
  pend : st.pending.length + countReceived st.log = countLaunched st.log

/-- What holds of every result of `firstResponse`. -/
structure FRGood (res : FRResult) : Prop where
  nf : res.counters.notFounds = count404 res.log
  ie : res.counters.internalErrors = countInternal res.log
  stub : receivedAcceptable res.log = false →
    res.resp = if count404 res.log > countInternal res.log then ResponseStub 404 ""
               else ResponseStub 503 ""
  recv : countReceived res.log ≤ countLaunched res.log
  full : all404Run res.log = true → countReceived res.log = countLaunched res.log

/-! ## Concrete runs -/

/-- The primaries of the test ring. -/
def testPrimaries : List Device := [testDevice 1, testDevice 2, testDevice 3]

/-- A run of `firstResponse` on `mixedEnv` with three primaries and one
handoff, every result being received right after the launch. -/
def mixedRun : Option FRResult :=
  firstResponse mixedEnv 3 0 testPrimaries [testDevice 4] (fun _ => 0)
    [some 0, some 0, some 0, some 0]

/-- A run of `firstResponse` on `notFoundEnv` with three primaries and three
handoffs: the first result is received after the second launch. -/
def notFoundRun : Option FRResult :=
  firstResponse notFoundEnv 3 0 testPrimaries [testDevice 4, testDevice 5, testDevice 6]
    (fun i => i) [none, some 1, some 0, some 0, some 0, some 0, some 0]

/-- Ten readers of which the first five are nil. -/
def fiveMissing : List (Option (List Nat)) :=
  [none, none, none, none, none, some [1], some [2], some [3], some [4], some [5]]

/-! ## Concrete gossip states of the second group of claims -/

/-- A peer state whose `Done` entry for `x` was completed
9223372037 seconds (more than 292 years) before the time 1700000000. -/
def ancientDoneState : GossipState :=
  { Friends := ∅, Todo := ∅, Done := AList.insert "x" (-7523372037) ∅, selfName := "t",
    selfId := 0 }

/-- A state with nothing in it. -/
def emptyState : GossipState :=
  { Friends := ∅, Todo := ∅, Done := ∅, selfName := "s", selfId := 0 }

/-! ## `quorumResponse`: the workers -/

/-- The test of directclient.go:159, `resp.StatusCode >= 200 &&
resp.StatusCode < 500`. -/
def commitsWorker (r : Response) : Bool :=
  decide (r.StatusCode ≥ 200) && decide (r.StatusCode < 500)

/-- The loop of a `quorumResponse` worker (directclient.go:146-162) on the
variables `resp` and `firstResp`.  `results` are the values `resp` takes for
the devices the worker visits, its primary first, then every device
`more.Next()` yields to it until the iterator is exhausted: the stub 500 of a
builder or transport error, or the stubbed backend response. -/
def workerLoop : Option Response → Option Response → List Response →
    Option Response × Option Response
  | resp, firstResp, [] => (resp, firstResp)
  | _, firstResp, r :: rest =>
    let firstResp' := match firstResp with
      | none => some r
      | some f => some f
    if commitsWorker r then (some r, firstResp')
    else workerLoop (some r) firstResp' rest

/-- A `quorumResponse` worker (directclient.go:143-175): what it sends on
`responsec`.  With no device at all (`devs[index]` nil) `resp` is nil and
line 167 panics. -/
def quorumWorker (results : List Response) : Outcome (Option Response) :=
  match workerLoop none none results with
  | (none, _) => .panicked
  | (some resp, firstResp) =>
    if resp.StatusCode = 404 then .returned firstResp else .returned (some resp)

/-! ## `addUpdateHeaders` -/

/-- The decimal digits of a natural number, `fuel` bounding their number. -/
def decimalDigits : Nat → Nat → List Char
  | 0, n => [Char.ofNat (48 + n % 10)]
  | fuel + 1, n =>
    (if n < 10 then [] else decimalDigits fuel (n / 10)) ++ [Char.ofNat (48 + n % 10)]

/-- The verb `%d` of `fmt.Sprintf` on an `int`. -/
def formatInt (v : Int) : String :=
  String.mk ((if v < 0 then [Char.ofNat 45] else []) ++ decimalDigits v.natAbs v.natAbs)

/-- `strings.TrimRight(s, ",")`: all trailing commas removed. -/
def trimRightCommas (s : String) : String :=
  String.mk (s.data.rdropWhile (fun c => c == Char.ofNat 44))

/-- The host of a device as `addUpdateHeaders` writes it,
`fmt.Sprintf("%s:%d", Ip, Port)`. -/
def hostOf (d : Device) : String := d.Ip ++ ":" ++ formatInt d.Port

/-- The loop of `addUpdateHeaders` (directclient.go:36-40) on the strings
`host`, `device` and `scheme`.  `fuel` bounds the number of iterations; with
`replicas = 0` the loop of the source never ends (`none`). -/
def updateHeadersLoop (devices : List Device) (replicas : Nat) :
    Nat → Nat → String × String × String → Option (String × String × String)
  | 0, i, acc => if i < devices.length then none else some acc
  | fuel + 1, i, acc =>
    match devices.get? i with
    | none => some acc
    | some d =>
      updateHeadersLoop devices replicas fuel (i + replicas)
        (acc.1 ++ (hostOf d ++ ","), acc.2.1 ++ (d.Device ++ ","), acc.2.2 ++ (d.Scheme ++ ","))

/-- `addUpdateHeaders` (directclient.go:31-45); `pfx` is the argument `prefix`
and `canonicalKey` is the canonical form `Header.Set` gives to a key.  `i` and
`replicas` are non-negative; the result is the header map after the call,
`none` when the loop never ends. -/
def addUpdateHeaders (canonicalKey : String → String) (pfx : String) (headers : Header)
    (devices : List Device) (i replicas : Nat) : Option Header :=
  if i < devices.length then
    match updateHeadersLoop devices replicas devices.length i ("", "", "") with
    | none => none
    | some acc =>
      some (HeaderSet
        (HeaderSet
          (HeaderSet headers (canonicalKey (pfx ++ "-Scheme")) (trimRightCommas acc.2.2))
          (canonicalKey (pfx ++ "-Host")) (trimRightCommas acc.1))
        (canonicalKey (pfx ++ "-Device")) (trimRightCommas acc.2.1))
  else some headers

/-- The strings of a list joined by commas. -/
def joinComma : List String → String
  | [] => ""
  | [x] => x
  | x :: y :: rest => x ++ "," ++ joinComma (y :: rest)

/-- The strings of a list one after the other. -/
def concatAll : List String → String
  | [] => ""
  | x :: xs => x ++ concatAll xs

/-- The indices `i, i+n, i+2n, ...` below `len`, in that order. -/
def stripeIndices (len i n : Nat) : List Nat :=
  (List.range len).filterMap (fun p => if i + p * n < len then some (i + p * n) else none)

/-- The devices `i, i+n, i+2n, ...` of a list, in that order. -/
def stripeOf (devices : List Device) (i n : Nat) : List Device :=
  (stripeIndices devices.length i n).filterMap devices.get?

/-- A string is not empty and holds no comma. -/
abbrev commaFree (s : String) : Prop := s ≠ "" ∧ Char.ofNat 44 ∉ s.data

/-- The account devices of a ring with five devices. -/
def fiveDevices : List Device :=
  [testDevice 0, testDevice 1, testDevice 2, testDevice 3, testDevice 4]

/-! ## Paths: the gossip route and the nursery directory -/

/-- A string cut at every occurrence of the character `sep`, as a list of
pieces (`strings.Split` with a one-character separator). -/
def splitOnChar (sep : Char) : List Char → List (List Char)
  | [] => [[]]
  | c :: cs =>
    if c = sep then [] :: splitOnChar sep cs
    else match splitOnChar sep cs with
      | [] => [[c]]
      | piece :: pieces => (c :: piece) :: pieces

/-- The path of the URL to which `Gossip` posts (gossip.go:142). -/
def gossipPostPath : String := "/gossip"

/-- The URL of `Gossip` (gossip.go:142),
`fmt.Sprintf("http://%s:%d/gossip", host, port)`. -/
def gossipURL (host : String) (port : Int) : String :=
  "http://" ++ host ++ ":" ++ formatInt port ++ gossipPostPath

/-- The calls of `addRoute` in `RegisterHandlers` (objeng.go:200-206):
method, path and name of the handler. -/
def registeredRoutes : List (String × String × String) :=
  [("GET", "/ec-frag/:device/:hash", "ecChunkGetHandler"),
   ("PUT", "/ec-frag/:device/:hash", "ecChunkPutHandler"),
   ("DELETE", "/ec-frag/:device/:hash", "ecChunkDeleteHandler"),
   ("POST", "/ec-nursery/:device", "ecNurseryHandler"),
   ("POST", "/ec-gossip", "gossipHandler")]

/-- A segment of a route matches a segment of a path when it is a variable
(it starts with a colon) or the two are equal. -/
def segmentMatches (pat seg : List Char) : Bool :=
  match pat with
  | c :: _ => if c = Char.ofNat 58 then true else decide (pat = seg)
  | [] => decide (seg = [])

/-- Modelled from the spec: the router behind `addRoute`, which is not under
`src/`.  The routes of the specification (`/ec-frag/<device>/<object-hash>`,
`/gossip`) are paths whose segments are literal or variable; a path matches a
route when both have the same number of segments and every segment matches. -/
def routeMatches (route path : String) : Bool :=
  let rs := splitOnChar (Char.ofNat 47) route.data
  let ps := splitOnChar (Char.ofNat 47) path.data
  decide (rs.length = ps.length) && (List.zipWith segmentMatches rs ps).all id

/-- The handler to which a request is routed, if any. -/
def routeFor (method path : String) : Option String :=
  (registeredRoutes.find? (fun r => decide (r.1 = method) && routeMatches r.2.1 path)).map
    (fun r => r.2.2)

/-- The elements of a path joined by `/`. -/
def joinPath : List String → String
  | [] => ""
  | [x] => x
  | x :: y :: rest => x ++ "/" ++ joinPath (y :: rest)

/-- `filepath.Join` on elements that are clean (no `.` or `..` component, no
doubled or trailing separator), for which the final `Clean` changes nothing:
the non-empty elements joined by `/`. -/
def filepathJoin (elems : List String) : String :=
  joinPath (elems.filter (fun e => e ≠ ""))

/-- `nurseryPath` of a `HeckObject` (objeng.go:64), the directory `Commit`
creates and renames the staged file into (obj.go:179-184). -/
def nurseryPathOf (driveRoot device hash : String) : String :=
  filepathJoin [driveRoot, device, "ec", "nursery", hash]

/-- The name of the file `Commit` creates (obj.go:179). -/
def commitFileName (nurseryPath timestamp workingClass : String) : String :=
  filepathJoin [nurseryPath, timestamp ++ "." ++ workingClass]

/-- `nurseryPath` of `ecNurseryHandler` (nursery.go:142), the directory whose
entries with a name of 32 characters it enumerates (nursery.go:148). -/
def nurseryDirEnumerated (driveRoot device : String) : String :=
  filepathJoin [driveRoot, device, "nursery"]

/-! ## The container-info cache -/

/-- `ContainerInfo` of the package `client`, declared outside `src/`, with the
fields `SetContainerInfo` fills. -/
structure ContainerInfo where
  ObjectCount : Int
  ObjectBytes : Int
  ReadACL : String
  WriteACL : String
  SyncKey : String
  Metadata : GoMap String
  SysMetadata : GoMap String
  StoragePolicyIndex : Int

/-- A value of the process-local map `lc`: a pointer to a `ContainerInfo`,
which may be the pointer `NilContainerInfo` (directclient.go:576). -/
inductive LocalEntry where
  | nilContainerInfo
  | info (ci : ContainerInfo)

/-- The two tiers of the cache, `c.lc` and `c.mc`; `none` is a nil map or a
nil `MemcacheRing`.

Modelled from the spec: `ring.MemcacheRing` of `common/ring`, which is not
under `src/`, is the "optional external shared key-value cache": a map that
`Set` binds, `Delete` unbinds and `GetStructured` reads, failing on a missing
key.  The expiry of an entry is a removal by the environment between two
calls. -/
structure CacheState where
  lc : Option (GoMap LocalEntry)
  mc : Option (GoMap ContainerInfo)

/-- The key `fmt.Sprintf("container/%s/%s", account, container)`. -/
def containerKey (account container : String) : String :=
  "container/" ++ account ++ "/" ++ container

/-- `proxyClient.invalidateContainerInfo` (directclient.go:317-325). -/
def invalidateContainerInfo (c : CacheState) (account container : String) : CacheState :=
  { lc := c.lc.map (fun lc => lc.erase (containerKey account container))
    mc := c.mc.map (fun mc => mc.erase (containerKey account container)) }

/-- `proxyClient.PutContainer` (directclient.go:342-345): `backend` is what
`c.pdc.PutContainer` returns, which touches no cache; the deferred
invalidation runs before the return. -/
def proxyPutContainer (backend : Response) (c : CacheState) (account container : String) :
    Response × CacheState :=
  (backend, invalidateContainerInfo c account container)

/-- `proxyClient.PostContainer` (directclient.go:346-349). -/
def proxyPostContainer (backend : Response) (c : CacheState) (account container : String) :
    Response × CacheState :=
  (backend, invalidateContainerInfo c account container)

/-- `proxyClient.DeleteContainer` (directclient.go:362-365). -/
def proxyDeleteContainer (backend : Response) (c : CacheState) (account container : String) :
    Response × CacheState :=
  (backend, invalidateContainerInfo c account container)

/-- The value of a non-empty string of decimal digits. -/
def parseDigits (cs : List Char) : Option Nat :=
  if cs = [] then none
  else if cs.all (fun c => decide (48 ≤ c.toNat ∧ c.toNat ≤ 57)) then
    some (cs.foldl (fun acc c => 10 * acc + (c.toNat - 48)) 0)
  else none

/-- `strconv.ParseInt(s, 10, 64)`, and `strconv.Atoi(s)` where `int` has 64
bits: an optional sign, then decimal digits, the value being in the range of
`int64`; `none` is an error. -/
def parseInt64 (s : String) : Option Int :=
  match s.data with
  | [] => none
  | c :: cs =>
    if c = Char.ofNat 45 then
      (parseDigits cs).bind (fun v => if v ≤ 2 ^ 63 then some (-(v : Int)) else none)
    else if c = Char.ofNat 43 then
      (parseDigits cs).bind (fun v => if v < 2 ^ 63 then some (v : Int) else none)
    else
      (parseDigits (c :: cs)).bind (fun v => if v < 2 ^ 63 then some (v : Int) else none)

/-- One iteration of the loop over the keys of the response header in
`SetContainerInfo` (directclient.go:551-563).  The keys are ASCII, so the
byte offsets 17 and 20 are character offsets. -/
def setInfoHeader (h : Header) (ci : ContainerInfo) (k : String) : ContainerInfo :=
  if List.isPrefixOf "X-Container-Meta-".data k.data then
    { ci with Metadata := ci.Metadata.insert (String.mk (k.data.drop 17)) (HeaderGet h k) }
  else if List.isPrefixOf "X-Container-Sysmeta-".data k.data then
    { ci with SysMetadata := ci.SysMetadata.insert (String.mk (k.data.drop 20)) (HeaderGet h k) }
  else if k = "X-Container-Read" then { ci with ReadACL := HeaderGet h k }
  else if k = "X-Container-Write" then { ci with WriteACL := HeaderGet h k }
  else if k = "X-Container-Sync-Key" then { ci with SyncKey := HeaderGet h k }
  else ci

/-- `ProxyDirectClient.SetContainerInfo` (directclient.go:535-573): the info
parsed from the response and the caches after the call, or the error. -/
def SetContainerInfo (c : CacheState) (account container : String) (resp : Response) :
    Except String (ContainerInfo × CacheState) :=
  match parseInt64 (HeaderGet resp.Header "X-Container-Object-Count") with
  | none => .error "Error retrieving X-Container-Object-Count"
  | some objectCount =>
    match parseInt64 (HeaderGet resp.Header "X-Container-Bytes-Used") with
    | none => .error "Error retrieving X-Container-Bytes-Used"
    | some objectBytes =>
      match parseInt64 (HeaderGet resp.Header "X-Backend-Storage-Policy-Index") with
      | none => .error "Error retrieving X-Backend-Storage-Policy-Index"
      | some policyIndex =>
        let ci0 : ContainerInfo :=
          { ObjectCount := objectCount, ObjectBytes := objectBytes, ReadACL := "",
            WriteACL := "", SyncKey := "", Metadata := ∅, SysMetadata := ∅,
            StoragePolicyIndex := policyIndex }
        let ci := resp.Header.keys.foldl (setInfoHeader resp.Header) ci0
        .ok (ci,
          { lc := c.lc.map (fun lc => lc.insert (containerKey account container) (.info ci))
            mc := c.mc.map (fun mc => mc.insert (containerKey account container) ci) })

/-- What `GetContainerInfo` returns, the caches after the call, and whether
it sent a HEAD request to the backend. -/
structure GetInfoResult where
  info : Except String ContainerInfo
  cache : CacheState
  headSent : Bool

/-- `ProxyDirectClient.GetContainerInfo` (directclient.go:578-606);
`headContainer` is the response of `c.HeadContainer`. -/
def GetContainerInfo (headContainer : String → String → Response) (c : CacheState)
    (account container : String) : GetInfoResult :=
  let key := containerKey account container
  let ci : Option LocalEntry := c.lc.bind (fun lc => lc.lookup key)
  let ci' : Option LocalEntry :=
    match ci with
    | some e => some e
    | none => c.mc.bind (fun mc => (mc.lookup key).map LocalEntry.info)
  match ci' with
  | none =>
    let resp := headContainer account container
    if resp.StatusCode.tdiv 100 ≠ 2 then
      { info := .error "error retrieving info for container", cache := c, headSent := true }
    else
      match SetContainerInfo c account container resp with
      | .error e => { info := .error e, cache := c, headSent := true }
      | .ok (info, c') => { info := .ok info, cache := c', headSent := true }
  | some .nilContainerInfo =>
    { info := .error "No container info for testing", cache := c, headSent := false }
  | some (.info info) => { info := .ok info, cache := c, headSent := false }

/-- What the process-local map holds under a key; `none` also for a nil map. -/
def localLookup (c : CacheState) (key : String) : Option LocalEntry :=
  c.lc.bind (fun lc => lc.lookup key)

/-- What the shared cache holds under a key; `none` also without a shared
cache. -/
def sharedLookup (c : CacheState) (key : String) : Option ContainerInfo :=
  c.mc.bind (fun mc => mc.lookup key)

/-- The info of a container with two objects of 10 bytes in all. -/
def cachedInfo : ContainerInfo :=
  { ObjectCount := 2, ObjectBytes := 10, ReadACL := "", WriteACL := "", SyncKey := "",
    Metadata := ∅, SysMetadata := ∅, StoragePolicyIndex := 0 }

/-- A cache holding the containers `c` and `d` of the account `a` in both
tiers. -/
def warmCache : CacheState :=
  { lc := some (AList.insert (containerKey "a" "c") (.info cachedInfo)
      (AList.insert (containerKey "a" "d") (.info cachedInfo) ∅))
    mc := some (AList.insert (containerKey "a" "c") cachedInfo
      (AList.insert (containerKey "a" "d") cachedInfo ∅)) }

/-- A backend that answers every HEAD on a container with 404. -/
def headGone : String → String → Response := fun _ _ => plainResponse 404

/-! ## `src/tools/quarantinerepairman.go` -/

/-- The part of the interface `ring.Ring` (package `common/ring`, outside
`src/`) that `repairObject` calls. -/
structure Ring where
  GetPartition : String → String → String → Nat
  GetNodes : Nat → List Device
  ReplicaCount : Nat

/-- A request that `repairObject` sends: the method and the URL. -/
abbrev Request := String × String

/-- The HTTP side of `repairObject`: whether `http.NewRequest` succeeds on a
method and a URL, and what `qr.aa.client.Do` answers (`none` is an error).
The answer may depend on the requests sent before. -/
structure RepairEnv where
  newRequest : String → String → Bool
  clientDo : List Request → Request → Option Response

/-- What a call of `repairObject` returns and the requests it sent, in
order. -/
structure RepairResult where
  handled : Bool
  requests : List Request
deriving DecidableEq, Repr

/-- The first piece of a string cut at the first `/`, and the rest after
that `/` if there is one. -/
def cutSlash : List Char → List Char × Option (List Char)
  | [] => ([], none)
  | c :: cs =>
    if c = Char.ofNat 47 then ([], some cs)
    else ((cutSlash cs).1.cons c, (cutSlash cs).2)

/-- `strings.SplitN(s, "/", n)` for `n > 0`: at most `n` pieces, the last
one being the unsplit remainder. -/
def splitN : Nat → List Char → List String
  | 0, _ => []
  | 1, s => [String.mk s]
  | n + 2, s =>
    match cutSlash s with
    | (a, none) => [String.mk a]
    | (a, some rest) => String.mk a :: splitN (n + 1) rest
termination_by n _ => n

/-- The URL of an item on a device (quarantinerepairman.go:197-203, and the
same text at 233-239 and 257-263). -/
def itemURL (device : Device) (partition : Nat) (account container object : String) : String :=
  let url := device.Scheme ++ "://" ++ device.Ip ++ ":" ++ formatInt device.Port ++ "/"
    ++ device.Device ++ "/" ++ formatInt partition ++ "/" ++ account
  if container ≠ "" then
    let url := url ++ "/" ++ container
    if object ≠ "" then url ++ "/" ++ object else url
  else url

/-- The three lists that the HEAD loop of `repairObject` fills. -/
structure HeadTally where
  have_ : List Device
  notfound : List Device
  unsure : List Device

/-- The loop over `ringg.GetNodes(partition)` of `repairObject`
(quarantinerepairman.go:196-224): `none` is a `return false` from inside the
loop; the second component is the log of the requests sent. -/
def headLoop (env : RepairEnv) (partition : Nat) (account container object : String) :
    List Device → HeadTally → List Request → Option HeadTally × List Request
  | [], t, log => (some t, log)
  | device :: rest, t, log =>
    let url := itemURL device partition account container object
    if env.newRequest "HEAD" url = false then (none, log)
    else
      match env.clientDo log ("HEAD", url) with
      | none => (none, log ++ [("HEAD", url)])
      | some resp =>
        let log' := log ++ [("HEAD", url)]
        if resp.StatusCode.tdiv 100 = 2 then
          headLoop env partition account container object rest
            { t with have_ := t.have_ ++ [device] } log'
        else if resp.StatusCode = 404 then
          headLoop env partition account container object rest
            { t with notfound := t.notfound ++ [device] } log'
        else
          headLoop env partition account container object rest
            { t with unsure := t.unsure ++ [device] } log'

/-- The closure `putCopy` of `repairObject` (quarantinerepairman.go:241-282):
a GET from `fromURL`, then a PUT of its body to `toURL`. -/
def putCopy (env : RepairEnv) (fromURL toURL : String) (log : List Request) :
    Bool × List Request :=
  if env.newRequest "GET" fromURL = false then (false, log)
  else
    match env.clientDo log ("GET", fromURL) with
    | none => (false, log ++ [("GET", fromURL)])
    | some fromResp =>
      let log' := log ++ [("GET", fromURL)]
      if fromResp.StatusCode.tdiv 100 ≠ 2 then (false, log')
      else if env.newRequest "PUT" toURL = false then (false, log')
      else
        match env.clientDo log' ("PUT", toURL) with
        | none => (false, log' ++ [("PUT", toURL)])
        | some toResp =>
          (decide (toResp.StatusCode.tdiv 100 = 2), log' ++ [("PUT", toURL)])

/-- One of the two loops that call `putCopy` (quarantinerepairman.go:283-292):
`false` as soon as a copy fails. -/
def putCopies (env : RepairEnv) (fromURL : String) (toURL : Device → String) :
    List Device → List Request → Bool × List Request
  | [], log => (true, log)
  | device :: rest, log =>
    match putCopy env fromURL (toURL device) log with
    | (false, log') => (false, log')
    | (true, log') => putCopies env fromURL toURL rest log'

/-- `quarantineRepairman.repairObject` (quarantinerepairman.go:154-294).  The
logger and the argument `policy`, which the body does not read, are left
out. -/
def repairObject (env : RepairEnv) (typ : String) (ringg : Ring) (entryNameInURL : String) :
    RepairResult :=
  let parts := splitN 4 entryNameInURL.data
  let names : Option (String × String × String) :=
    match parts with
    | [_, a] => some (a, "", "")
    | [_, a, c] => some (a, c, "")
    | [_, a, c, o] => some (a, c, o)
    | _ => none
  match names with
  | none => { handled := true, requests := [] }
  | some (account, container, object) =>
    if account = "" ∨ (container = "" ∧ object ≠ "") then { handled := true, requests := [] }
    else if typ = "account" ∧ (container ≠ "" ∨ object ≠ "") then
      { handled := false, requests := [] }
    else if typ = "container" ∧ (container = "" ∨ object ≠ "") then
      { handled := false, requests := [] }
    else if typ = "object" ∧ (container = "" ∨ object = "") then
      { handled := false, requests := [] }
    else
      let partition := ringg.GetPartition account container object
      match headLoop env partition account container object (ringg.GetNodes partition)
          { have_ := [], notfound := [], unsure := [] } [] with
      | (none, log) => { handled := false, requests := log }
      | (some t, log) =>
        if t.notfound.length = ringg.ReplicaCount then { handled := true, requests := log }
        else
          match t.have_ with
          | [] => { handled := false, requests := log }
          | source :: _ =>
            let fromURL := itemURL source partition account container object
            let toURL := fun d => itemURL d partition account container object
            match putCopies env fromURL toURL t.notfound log with
            | (false, log') => { handled := false, requests := log' }
            | (true, log') =>
              match putCopies env fromURL toURL t.unsure log' with
              | (ok, log'') => { handled := ok, requests := log'' }

/-- A ring with three replicas whose primaries are `testPrimaries`. -/
def testRing : Ring :=
  { GetPartition := fun _ _ _ => 7, GetNodes := fun _ => testPrimaries, ReplicaCount := 3 }

/-- A cluster on which every request is answered with 404. -/
def gone404Env : RepairEnv :=
  { newRequest := fun _ _ => true, clientDo := fun _ _ => some (plainResponse 404) }

/-- A cluster on which the first primary has the item and the others answer
404. -/
def oneHasEnv : RepairEnv :=
  { newRequest := fun _ _ => true
    clientDo := fun log _ => some (plainResponse (if log.length = 1 ∨ log.length = 2 then 404 else 200)) }

/-! ## `ParseAddress` -/

/-- The address of a node as `Gossip`, `HeckObject.Copy` and the nursery pass
it to `ParseAddress`: `<host>:<port>/<device>`. -/
def nodeAddress (host : String) (port : Int) (device : String) : String :=
  host ++ ":" ++ formatInt port ++ "/" ++ device

/-- `ParseAddress` (util.go:18-31).  Both calls of `strings.Split` are on
`address`; `strconv.Atoi` is `parseInt64`. -/
def ParseAddress (address : String) : Except String (String × Int × String) :=
  match splitOnChar (Char.ofNat 47) address.data with
  | [_, device] =>
    match splitOnChar (Char.ofNat 58) address.data with
    | [host, portText] =>
      match parseInt64 (String.mk portText) with
      | some port => .ok (String.mk host, port, String.mk device)
      | none => .error "Invalid node address"
    | _ => .error "Invalid node address"
  | _ => .error "Invalid node address"

/-! ## The partition of an object hash -/

/-- The value of a hexadecimal digit, in either case. -/
def hexValue (c : Char) : Option Nat :=
  if 48 ≤ c.toNat ∧ c.toNat ≤ 57 then some (c.toNat - 48)
  else if 97 ≤ c.toNat ∧ c.toNat ≤ 102 then some (c.toNat - 87)
  else if 65 ≤ c.toNat ∧ c.toNat ≤ 70 then some (c.toNat - 55)
  else none

/-- The digits of `strconv.ParseUint(s, 16, 64)`, most significant first,
added to `acc`. -/
def parseHexAux : Nat → List Char → Option Nat
  | acc, [] => some acc
  | acc, c :: cs =>
    match hexValue c with
    | none => none
    | some d => parseHexAux (16 * acc + d) cs

/-- `strconv.ParseUint(s, 16, 64)`: `none` is an error (no digit, a character
that is no hexadecimal digit, or a value that does not fit in 64 bits). -/
def parseUintHex (cs : List Char) : Option Nat :=
  if cs = [] then none
  else match parseHexAux 0 cs with
    | some v => if v < 2 ^ 64 then some v else none
    | none => none

/-- `uint32(val >> (64 - bits))` (nursery.go:161, obj.go:100) for a bit count
`bits ≤ 64`, the range in which the subtraction does not leave the type of
`PartitionBitCount()`, declared outside `src/`. -/
def partitionOf (val bits : Nat) : Nat :=
  (val / 2 ^ (64 - bits)) % 2 ^ 32

/-- The partition of an object hash as `ecNurseryHandler` (nursery.go:155-161)
and `HeckObject.Copy` (obj.go:96-100) compute it.  `hash[0:8]` on a shorter
hash is a run-time panic; `returned none` is the parse error, on which the
handler skips the entry and `Copy` returns an error. -/
def hashPartition (hash : String) (bits : Nat) : Outcome (Option Nat) :=
  if hash.data.length < 8 then .panicked
  else match parseUintHex (hash.data.take 8) with
    | none => .returned none
    | some val => .returned (some (partitionOf val bits))

/-- The top `bits` bits of a 32-bit number, `floor(v / 2^(32-bits))`. -/
def topBits (v bits : Nat) : Nat := v / 2 ^ (32 - bits)

/-! ## `doActions` -/

/-- How a run of `doActions` ends: it returns when the stop signal is
received, or the process panics on `actionList[len(actionList)-1]` with an
empty list. -/
inductive DoActionsEnd where
  | stopped
  | indexPanic
deriving DecidableEq, Repr

/-- A run of `doActions`: how it ends and the sends it started, in order,
each with the node id of the queue (`none` when `actionQueues` has no channel
for the node, a send that blocks for ever). -/
structure DoActionsRun where
  ending : DoActionsEnd
  handed : List (Option Nat × Action)
deriving DecidableEq, Repr

/-- The channel `actionQueues[id]` (objeng.go:163-180): there is one for every
node of the ring that is source or destination of an action. -/
def actionQueue (nodes : List Nat) (actionList : List Action) (id : Nat) : Option Nat :=
  if id ∈ nodes ∧ (actionList.any (fun a => a.Src == id || a.Dst == id)) = true then some id
  else none

/-- The dispatch loop of `doActions` (objeng.go:181-197).  `stack` is the
remaining `actionList`, last element first; `i` counts the iterations and
`stopAt` is the iteration at which the stop signal is there (`none`: it never
arrives).  The `default` case reads the last element without a test on the
length. -/
def dispatchLoop (queue : Nat → Option Nat) (stopAt : Option Nat) :
    Nat → List Action → List (Option Nat × Action) → DoActionsRun
  | i, [], handed =>
    if stopAt = some i then { ending := .stopped, handed := handed }
    else { ending := .indexPanic, handed := handed }
  | i, action :: rest, handed =>
    if stopAt = some i then { ending := .stopped, handed := handed }
    else dispatchLoop queue stopAt (i + 1) rest (handed ++ [(queue action.Src, action)])

/-- `HeckObjectFactory.doActions` (objeng.go:159-198) on the snapshot
`actionList` and the ids `nodes` of the ring's nodes. -/
def doActions (nodes : List Nat) (actionList : List Action) (stopAt : Option Nat) :
    DoActionsRun :=
  dispatchLoop (actionQueue nodes actionList) stopAt 0 actionList.reverse []

/-- An action that moves a partition from node 1 to node 2. -/
def moveAction (name : String) : Action :=
  { Name := name, ActionType := "move", Partition := 0, Src := 1, Dst := 2 }

/-! ## `NewProxyDirectClient` and the object clients -/

/-- `conf.Policy` of the package `common/conf`, reduced to the fields read
under `src/`; the field `Type` is named `PolicyType`. -/
structure Policy where
  Index : Int
  PolicyType : String
  Config : GoMap String

/-- `conf.PolicyList`: `none` is the nil list; the policies are listed in the
order in which `range` visits them. -/
abbrev PolicyList := Option (List Policy)

/-- What `NewProxyDirectClient` calls outside `src/`: the methods of
`srv.ConfigLoader`, `common.NewClientTLSConfig` and
`http2.ConfigureTransport`.  A ring is known by its name and policy index. -/
structure ClientEnv where
  GetPolicies : Except String PolicyList
  GetHashPrefixAndSuffix : Except String (String × String)
  GetRing : String → String → String → Int → Except String (String × Int)
  NewClientTLSConfig : String → String → Except String Unit
  ConfigureTransport : Except String Unit

/-- `standardObjectClient` (the fields set at directclient.go:116-123). -/
structure ObjectClient where
  policy : Int
  objectRing : String × Int
  deviceLimit : Int
deriving DecidableEq, Repr

/-- `ProxyDirectClient` (directclient.go:47-55), without the HTTP client, the
mutex and the logger. -/
structure ProxyDirectClient where
  policyList : PolicyList
  ContainerRing : String × Int
  AccountRing : String × Int
  objectClients : AList (fun _ : Int => ObjectClient)

/-- The device limit of the client of a policy (directclient.go:117-123). -/
def policyDeviceLimit (policy : Policy) : Int :=
  if policy.PolicyType = "hec" then
    match parseInt64 ((policy.Config.lookup "nursery_replicas").getD "") with
    | some replicas => if replicas > 0 then replicas else 3
    | none => 3
  else 0

/-- The loop of directclient.go:109-125 over the policies of a list. -/
def registerClients (env : ClientEnv) (hashPathPrefix hashPathSuffix : String) :
    List Policy → AList (fun _ : Int => ObjectClient) →
      Except String (AList (fun _ : Int => ObjectClient))
  | [], objectClients => .ok objectClients
  | policy :: rest, objectClients =>
    match env.GetRing "object" hashPathPrefix hashPathSuffix policy.Index with
    | .error e => .error e
    | .ok ring =>
      registerClients env hashPathPrefix hashPathSuffix rest
        (objectClients.insert policy.Index
          { policy := policy.Index, objectRing := ring, deviceLimit := policyDeviceLimit policy })

/-- `NewProxyDirectClient` (directclient.go:57-127).  The list loaded from the
configuration at line 90 is bound to a new variable `policyList`, local to
the `if`, and stored in `c.policyList`; the loop of line 109 ranges over the
argument `policyList`. -/
def NewProxyDirectClient (policyList : PolicyList) (env : ClientEnv)
    (certFile keyFile : String) : Except String ProxyDirectClient :=
  let tls : Except String Unit :=
    if certFile ≠ "" ∧ keyFile ≠ "" then
      match env.NewClientTLSConfig certFile keyFile with
      | .error e => .error e
      | .ok _ => env.ConfigureTransport
    else .ok ()
  match tls with
  | .error e => .error e
  | .ok _ =>
    let loaded : Except String PolicyList :=
      match policyList with
      | none => env.GetPolicies
      | some l => .ok (some l)
    match loaded with
    | .error e => .error e
    | .ok cPolicyList =>
      match env.GetHashPrefixAndSuffix with
      | .error e => .error e
      | .ok (hashPathPrefix, hashPathSuffix) =>
        match env.GetRing "container" hashPathPrefix hashPathSuffix 0 with
        | .error e => .error e
        | .ok containerRing =>
          match env.GetRing "account" hashPathPrefix hashPathSuffix 0 with
          | .error e => .error e
          | .ok accountRing =>
            match registerClients env hashPathPrefix hashPathSuffix (policyList.getD []) ∅ with
            | .error e => .error e
            | .ok objectClients =>
              .ok { policyList := cPolicyList, ContainerRing := containerRing,
                    AccountRing := accountRing, objectClients := objectClients }

/-- What `getObjectClient` returns: an `erroringObjectClient`, a registered
client, or the nil value of a missing map entry. -/
inductive ObjectClientRef where
  | erroring (msg : String)
  | standard (oc : ObjectClient)
  | nilClient
deriving DecidableEq, Repr

/-- `ProxyDirectClient.getObjectClient` (directclient.go:645-651). -/
def getObjectClient (c : ProxyDirectClient) (headContainer : String → String → Response)
    (cache : CacheState) (account container : String) : ObjectClientRef :=
  match (GetContainerInfo headContainer cache account container).info with
  | .error e => .erroring e
  | .ok ci =>
    match c.objectClients.lookup ci.StoragePolicyIndex with
    | some oc => .standard oc
    | none => .nilClient

/-- A configuration with the single policy 0 and a ring for every name. -/
def onePolicyEnv : ClientEnv :=
  { GetPolicies := .ok (some [{ Index := 0, PolicyType := "replication", Config := ∅ }])
    GetHashPrefixAndSuffix := .ok ("", "")
    GetRing := fun name _ _ index => .ok (name, index)
    NewClientTLSConfig := fun _ _ => .ok ()
    ConfigureTransport := .ok () }

/-- The policy indices of a list. -/
def policyIndices (l : PolicyList) : List Int := (l.getD []).map (fun p => p.Index)

/-- The client that `NewProxyDirectClient` builds from `onePolicyEnv` when no
list is passed. -/
def nilListClient : ProxyDirectClient :=
  { policyList := some [{ Index := 0, PolicyType := "replication", Config := ∅ }]
    ContainerRing := ("container", 0)
    AccountRing := ("account", 0)
    objectClients := ∅ }

/-- The client that `NewProxyDirectClient` builds from `onePolicyEnv` when the
list with the policy 0 is passed. -/
def passedListClient : ProxyDirectClient :=
  { policyList := some [{ Index := 0, PolicyType := "replication", Config := ∅ }]
    ContainerRing := ("container", 0)
    AccountRing := ("account", 0)
    objectClients := AList.insert 0 { policy := 0, objectRing := ("object", 0), deviceLimit := 0 } ∅ }

/-! ## `quarantineRepairman.runOnce` -/

/-- `entryInstance`: an entry of a quarantine report. -/
structure Entry where
  NameOnDevice : String
  NameInURL : String
deriving DecidableEq, Repr

/-- What `runOnce` does for the entries of a report, in order. -/
inductive RepairCall where
  | weirdType (typ device : String)
  | repairObject (typ : String) (policy : Int) (nameInURL : String)
  | queuePartitionReplication (typ : String) (policy : Int) (deviceID : Int)
      (nameOnDevice : String)
  | clearQuarantine (device typ : String) (policy : Int) (nameOnDevice : String)
deriving DecidableEq, Repr

/-- What `runOnce` calls: `getRing("", typ, policy).AllDevices()` and the
results of `repairObject` and `queuePartitionReplication`. -/
structure RepairmanEnv where
  allDevices : String → Int → List Device
  repairObject : String → Int → String → Bool
  queuePartitionReplication : String → Int → Int → String → Bool

/-- Lines 42-60 of quarantinerepairman.go on the variable `typ`: the new value
of `typ` and the policy, or `none` for a `continue`, which leaves `typ` as it
is. -/
def singularType (typ : String) : Option (String × Int) :=
  if typ = "accounts" then some ("account", 0)
  else if typ = "containers" then some ("container", 0)
  else if typ = "objects" then some ("object", 0)
  else if List.isPrefixOf "objects-".data typ.data then
    match parseInt64 (String.mk (typ.data.drop 8)) with
    | some policy => some ("object", policy)
    | none => none
  else none

/-- The loop over `entries` (quarantinerepairman.go:70-81). -/
def runEntries (env : RepairmanEnv) (typ : String) (policy deviceID : Int) (device : String) :
    List Entry → List RepairCall
  | [] => []
  | entry :: rest =>
    (if typ = "object" ∧ entry.NameInURL ≠ "" then
      RepairCall.repairObject typ policy entry.NameInURL ::
        (if env.repairObject typ policy entry.NameInURL then
          [RepairCall.clearQuarantine device typ policy entry.NameOnDevice]
        else [])
    else
      RepairCall.queuePartitionReplication typ policy deviceID entry.NameOnDevice ::
        (if env.queuePartitionReplication typ policy deviceID entry.NameOnDevice then
          [RepairCall.clearQuarantine device typ policy entry.NameOnDevice]
        else [])) ++ runEntries env typ policy deviceID device rest

/-- The device id looked up at quarantinerepairman.go:62-68. -/
def findDeviceID (devices : List Device) (ip : String) (port : Int) (device : String) : Int :=
  match devices.find? (fun dev => dev.Ip == ip && dev.Port == port && dev.Device == device) with
  | some dev => dev.Id
  | none => -1

/-- The loop over the devices of one type key (quarantinerepairman.go:41-82).
The variable `typ` is the one of the enclosing `for typ, deviceToEntries`
statement: an assignment to it stays in force for the devices that follow. -/
def runDevices (env : RepairmanEnv) (ip : String) (port : Int) :
    String → List (String × List Entry) → List RepairCall
  | _, [] => []
  | typ, (device, entries) :: rest =>
    match singularType typ with
    | none => RepairCall.weirdType typ device :: runDevices env ip port typ rest
    | some (typ', policy) =>
      runEntries env typ' policy (findDeviceID (env.allDevices typ' policy) ip port device)
          device entries
        ++ runDevices env ip port typ' rest

/-- The loop over the type keys of the report of one server
(quarantinerepairman.go:40-83); the keys and the devices are listed in the
order in which `range` visits them. -/
def runReport (env : RepairmanEnv) (ip : String) (port : Int)
    (report : List (String × List (String × List Entry))) : List RepairCall :=
  (report.map (fun td => runDevices env ip port td.1 td.2)).flatten

/-- A repairman for which every repair succeeds. -/
def easyRepairs : RepairmanEnv :=
  { allDevices := fun _ _ => testPrimaries
    repairObject := fun _ _ _ => true
    queuePartitionReplication := fun _ _ _ _ => true }

/-- A report with one object entry on each of the devices `sda` and `sdb`. -/
def twoDeviceReport : List (String × List (String × List Entry)) :=
  [("objects-1", [("sda", [{ NameOnDevice := "h1", NameInURL := "/a/c/o1" }]),
                  ("sdb", [{ NameOnDevice := "h2", NameInURL := "/a/c/o2" }])])]

/-! ## The workers, device by device -/

/-- What a worker gets from one device: an error of the request builder
`devToRequest`, an error of `client.Do`, or the response of the backend. -/
inductive Attempt where
  | buildError (msg : String)
  | transportError (msg : String)
  | answered (r : Response)

/-- Modelled from the spec: `nectarutil.StubResponse`, which is not under
`src/`, turns the response of a backend into a response that holds no
connection; status, headers and body are those of the backend. -/
def StubResponse (r : Response) : Response := r

/-- The value a worker gives to `resp` for one device (directclient.go:147-156
and 822-829): the stub 500 carrying the error text, or the stubbed response
of the backend. -/
def attemptResponse : Attempt → Response
  | .buildError msg => ResponseStub 500 msg
  | .transportError msg => ResponseStub 500 msg
  | .answered r => StubResponse r

/-- The loop of a `putObject` worker (directclient.go:821-839) on the variable
`resp`, over the devices it visits until `more.Next()` returns nil; the
`break` is taken only for a backend response with a status in `[200,500)`.
The worker is not cancelled. -/
def putWorkerLoop : Option Response → List Attempt → Option Response
  | resp, [] => resp
  | _, .answered r :: rest =>
    if 200 ≤ r.StatusCode ∧ r.StatusCode < 500 then some (StubResponse r)
    else putWorkerLoop (some (StubResponse r)) rest
  | _, .buildError msg :: rest => putWorkerLoop (some (ResponseStub 500 msg)) rest
  | _, .transportError msg :: rest => putWorkerLoop (some (ResponseStub 500 msg)) rest

/-- A `putObject` worker (directclient.go:819-850): what it sends on
`responsec`.  The stub "no more nodes to try" is sent when `resp` is still
nil after the loop. -/
def putWorker (attempts : List Attempt) : Response :=
  match putWorkerLoop none attempts with
  | none => ResponseStub 500 "no more nodes to try"
  | some resp => resp

/-- The status is outside `[200,500)`. -/
abbrev retryStatus (r : Response) : Prop := ¬ (200 ≤ r.StatusCode ∧ r.StatusCode < 500)

/-! ## `putObject`: the event loop -/

/-- What the `select` of the event loop of `putObject` receives
(directclient.go:859-883): a value from `responsec` (`none` is a nil
response) or a write-end from `ready`. -/
inductive PutEvent where
  | response (resp : Option Response)
  | ready

/-- The local variables of the event loop: `responseClassCounts`,
`len(writers)`, `responseCount` and `written`; `copies` records, for every
call of `common.CopyQuorum`, the values of `len(writers)` and `responseCount`
at the call. -/
structure PutState where
  counts : Nat → Nat
  writers : Nat
  responseCount : Nat
  written : Bool
  copies : List (Nat × Nat)

/-- A run of the event loop: how it ends (`blocked`: the events are over and
the loop waits in its `select`) and the state then. -/
structure PutRun where
  outcome : Outcome Response
  state : PutState

/-- Lines 884-892 of directclient.go, after either case of the `select`:
the left result is the return of the 503 stub when `CopyQuorum` fails, which
`copyOk` tells for each call. -/
def putCopyStep (replicaCount : Nat) (copyOk : Nat → Bool) (st : PutState) :
    PutRun ⊕ PutState :=
  if st.written = false ∧ st.writers ≥ quorumOf replicaCount
      ∧ st.writers + st.responseCount = replicaCount then
    let st' := { st with written := true,
                         copies := st.copies ++ [(st.writers, st.responseCount)] }
    if copyOk st.copies.length then .inr st'
    else .inl { outcome := .returned (ResponseStub 503 "The service is currently unavailable."),
                state := st' }
  else .inr st

/-- The event loop of `putObject` (directclient.go:858-893) for
`objectReplicaCount = replicaCount`.  Once a class count reaches the quorum,
lines 865-874 wait for the other responses for at most 100 ms and return
`resp` either way.  An index outside `responseClassCounts` is a run-time
panic. -/
def putEventLoop (replicaCount : Nat) (copyOk : Nat → Bool) :
    PutState → List PutEvent → PutRun
  | st, [] => { outcome := .blocked, state := st }
  | st, .ready :: rest =>
    match putCopyStep replicaCount copyOk { st with writers := st.writers + 1 } with
    | .inl run => run
    | .inr st' => putEventLoop replicaCount copyOk st' rest
  | st, .response none :: rest =>
    match putCopyStep replicaCount copyOk { st with responseCount := st.responseCount + 1 } with
    | .inl run => run
    | .inr st' => putEventLoop replicaCount copyOk st' rest
  | st, .response (some resp) :: rest =>
    let st1 := { st with responseCount := st.responseCount + 1 }
    if 0 ≤ statusClass resp ∧ statusClass resp < 6 then
      let cls := (statusClass resp).toNat
      let st2 := { st1 with counts := Function.update st1.counts cls (st1.counts cls + 1) }
      if st2.counts cls ≥ quorumOf replicaCount then { outcome := .returned resp, state := st2 }
      else if st2.responseCount = replicaCount then
        { outcome := .returned (ResponseStub 503 "The service is currently unavailable."),
          state := st2 }
      else
        match putCopyStep replicaCount copyOk st2 with
        | .inl run => run
        | .inr st' => putEventLoop replicaCount copyOk st' rest
    else { outcome := .panicked, state := st1 }

/-- The event loop of `putObject` from its initial state
(directclient.go:852-857). -/
def putObjectEvents (replicaCount : Nat) (copyOk : Nat → Bool) (events : List PutEvent) :
    PutRun :=
  putEventLoop replicaCount copyOk
    { counts := fun _ => 0, writers := 0, responseCount := 0, written := false, copies := [] }
    events

/-- The invariant of the event loop on the calls of `CopyQuorum`: there is at
most one, none while `written` is false, and each was made with at least
`ceil(R/2)` write-ends, the write-ends and the responses adding up to `R`. -/
structure PutInv (replicaCount : Nat) (st : PutState) : Prop where
  once : st.copies.length ≤ 1
  unwritten : st.written = false → st.copies = []
  guarded : ∀ c ∈ st.copies, quorumOf replicaCount ≤ c.1 ∧ c.1 + c.2 = replicaCount

/-- Three replicas: one commits a write-end, one answers 500, one answers
404. -/
def splitVoteEvents : List PutEvent :=
  [.ready, .response (some (plainResponse 500)), .response (some (plainResponse 404))]

/-! ## `SetContainerInfo`: the caches after the call -/

/-- The two caches after a call of `SetContainerInfo`: an error is returned
before any of them is written (directclient.go:542-550). -/
def cacheAfterSet (c : CacheState) (account container : String) (resp : Response) :
    CacheState :=
  match SetContainerInfo c account container resp with
  | .error _ => c
  | .ok (_, c') => c'

/-- The value of the headers whose name is `pfx` followed by `s`, as a map
from `s`: what the specification calls the headers `X-Container-Meta-*`. -/
def headerFamily (h : Header) (pfx s : String) : Option String :=
  if pfx ++ s ∈ h.keys then some (HeaderGet h (pfx ++ s)) else none

/-- A HEAD response of a container with two objects, a metadata header and a
system metadata header. -/
def containerHeadResponse : Response :=
  { StatusCode := 204
    Header := AList.insert "X-Container-Object-Count" ["2"]
      (AList.insert "X-Container-Bytes-Used" ["10"]
        (AList.insert "X-Backend-Storage-Policy-Index" ["1"]
          (AList.insert "X-Container-Meta-Color" ["blue"]
            (AList.insert "X-Container-Sysmeta-Shard" ["7"] ∅))))
    Body := "", Detail := "" }

/-- A HEAD response whose object count is no number. -/
def brokenHeadResponse : Response :=
  { StatusCode := 204
    Header := AList.insert "X-Container-Object-Count" ["two"]
      (AList.insert "X-Container-Bytes-Used" ["10"]
        (AList.insert "X-Backend-Storage-Policy-Index" ["1"] ∅))
    Body := "", Detail := "" }

/-! ## `firstResponse`: the devices tried -/

/-- The number `primaries` of `firstResponse` (directclient.go:207-210): the
device limit when it is positive, the replica count otherwise. -/
def primariesOf (replicaCount : Nat) (deviceLimit : Int) : Nat :=
  if deviceLimit > 0 then deviceLimit.toNat else replicaCount

/-- The devices for which a run called `devToRequest`, in order: those a
request was launched against and those for which the builder failed. -/
def triedDevices : List FREvent → List Device
  | [] => []
  | .launched dev :: evs => dev :: triedDevices evs
  | .builderError dev :: evs => dev :: triedDevices evs
  | _ :: evs => triedDevices evs

/-- The devices against which a run launched a request, in order. -/
def launchedDevices : List FREvent → List Device
  | [] => []
  | .launched dev :: evs => dev :: launchedDevices evs
  | _ :: evs => launchedDevices evs

/-- The devices tried by a run are the first `k` devices of `full`, for some
`k` up to `bound`. -/
def TriedFirst (full : List Device) (bound : Nat) (res : FRResult) : Prop :=
  ∃ k, k ≤ bound ∧ triedDevices res.log = full.take k

/-! # Theorems -/

/-! ## Gossip: lookups after each loop of `MergeState` -/

theorem foldl_insert_lookup {V : Type} (l : List (Σ _ : String, V)) (hn : l.NodupKeys)
    (acc : GoMap V) (k : String) :
    (l.foldl (fun acc e => acc.insert e.1 e.2) acc).lookup k
      = (List.dlookup k l).or (acc.lookup k) := by
  induction l generalizing acc with
  | nil => simp
  | cons e t ih =>
    obtain ⟨a, b⟩ := e
    rw [List.nodupKeys_cons] at hn
    rw [List.foldl_cons, ih hn.2]
    by_cases h : k = a
    · subst h
      have : List.dlookup k t = none := List.dlookup_eq_none.mpr hn.1
      simp [this, AList.lookup_insert, List.dlookup_cons_eq]
    · simp [List.dlookup_cons_ne t ⟨a, b⟩ h, AList.lookup_insert_ne h]

theorem lookup_mergeFriends (f r : GoMap Server) (k : String) :
    (mergeFriends f r).lookup k = (r.lookup k).or (f.lookup k) :=
  foldl_insert_lookup r.entries r.nodupKeys f k

theorem foldl_todo_lookup (done : GoMap Int) (l : List (Σ _ : String, Action))
    (hn : l.NodupKeys) (acc : GoMap Action) (k : String) :
    (l.foldl (fun acc e => if (done.lookup e.1).isNone then acc.insert e.1 e.2 else acc) acc).lookup k
      = if (done.lookup k).isNone then (List.dlookup k l).or (acc.lookup k) else acc.lookup k := by
  induction l generalizing acc with
  | nil => simp
  | cons e t ih =>
    obtain ⟨a, b⟩ := e
    rw [List.nodupKeys_cons] at hn
    rw [List.foldl_cons, ih hn.2]
    by_cases h : k = a
    · subst h
      have : List.dlookup k t = none := List.dlookup_eq_none.mpr hn.1
      by_cases hd : (done.lookup k).isNone <;>
        simp [hd, this, AList.lookup_insert, List.dlookup_cons_eq]
    · by_cases hd : (done.lookup a).isNone <;>
        simp [hd, List.dlookup_cons_ne t ⟨a, b⟩ h, AList.lookup_insert_ne h]

theorem lookup_mergeTodo (done : GoMap Int) (t r : GoMap Action) (k : String) :
    (mergeTodo done t r).lookup k
      = if (done.lookup k).isNone then (r.lookup k).or (t.lookup k) else t.lookup k :=
  foldl_todo_lookup done r.entries r.nodupKeys t k

theorem foldl_done_lookup (l : List (Σ _ : String, Int)) (hn : l.NodupKeys)
    (acc : GoMap Int × GoMap Action) (k : String) :
    ((l.foldl (fun acc e => (acc.1.insert e.1 e.2, acc.2.erase e.1)) acc).1.lookup k
        = (List.dlookup k l).or (acc.1.lookup k)) ∧
    ((l.foldl (fun acc e => (acc.1.insert e.1 e.2, acc.2.erase e.1)) acc).2.lookup k
        = if (List.dlookup k l).isSome then none else acc.2.lookup k) := by
  induction l generalizing acc with
  | nil => simp
  | cons e t ih =>
    obtain ⟨a, b⟩ := e
    rw [List.nodupKeys_cons] at hn
    rw [List.foldl_cons]
    obtain ⟨ih1, ih2⟩ := ih hn.2 (acc.1.insert a b, acc.2.erase a)
    rw [ih1, ih2]
    by_cases h : k = a
    · subst h
      have : List.dlookup k t = none := List.dlookup_eq_none.mpr hn.1
      simp [this, AList.lookup_insert, AList.lookup_erase, List.dlookup_cons_eq]
    · simp [List.dlookup_cons_ne t ⟨a, b⟩ h, AList.lookup_insert_ne h, AList.lookup_erase_ne h]

theorem lookup_mergeDone_fst (d : GoMap Int) (t : GoMap Action) (r : GoMap Int) (k : String) :
    (mergeDone d t r).1.lookup k = (r.lookup k).or (d.lookup k) :=
  (foldl_done_lookup r.entries r.nodupKeys (d, t) k).1

theorem lookup_mergeDone_snd (d : GoMap Int) (t : GoMap Action) (r : GoMap Int) (k : String) :
    (mergeDone d t r).2.lookup k = if (r.lookup k).isSome then none else t.lookup k :=
  (foldl_done_lookup r.entries r.nodupKeys (d, t) k).2

theorem foldl_collect_lookup (now : Int) (l : List (Σ _ : String, Int)) (hn : l.NodupKeys)
    (acc : GoMap Int) (k : String) :
    (l.foldl (fun acc e => if tombstoneExpired now e.2 then acc.erase e.1 else acc) acc).lookup k
      = match List.dlookup k l with
        | some c => if tombstoneExpired now c then none else acc.lookup k
        | none => acc.lookup k := by
  induction l generalizing acc with
  | nil => simp
  | cons e t ih =>
    obtain ⟨a, b⟩ := e
    rw [List.nodupKeys_cons] at hn
    rw [List.foldl_cons, ih hn.2]
    by_cases h : k = a
    · subst h
      have : List.dlookup k t = none := List.dlookup_eq_none.mpr hn.1
      by_cases hx : tombstoneExpired now b <;>
        simp [hx, this, AList.lookup_erase, List.dlookup_cons_eq]
    · by_cases hx : tombstoneExpired now b <;>
        simp [hx, List.dlookup_cons_ne t ⟨a, b⟩ h, AList.lookup_erase_ne h]

theorem lookup_collectDone (now : Int) (d : GoMap Int) (k : String) :
    (collectDone now d).lookup k
      = match d.lookup k with
        | some c => if tombstoneExpired now c then none else some c
        | none => none := by
  have h := foldl_collect_lookup now d.entries d.nodupKeys d k
  unfold collectDone
  rw [h]
  show (match d.lookup k with
        | some c => if tombstoneExpired now c then none else d.lookup k
        | none => d.lookup k) = _
  cases hd : d.lookup k <;> simp


theorem mem_keys_iff_lookup {V : Type} (m : GoMap V) (k : String) :
    k ∈ m.keys ↔ (m.lookup k).isSome = true := by
  rw [AList.lookup_isSome]; exact Iff.rfl

theorem not_mem_keys_iff_lookup {V : Type} (m : GoMap V) (k : String) :
    k ∉ m.keys ↔ m.lookup k = none := by
  rw [mem_keys_iff_lookup]; cases m.lookup k <;> simp

theorem todoDoneDisjoint_iff (g : GossipState) :
    TodoDoneDisjoint g ↔ ∀ id, g.Done.lookup id ≠ none → g.Todo.lookup id = none := by
  unfold TodoDoneDisjoint
  constructor
  · intro h id hd
    by_contra ht
    have h1 : id ∈ g.Todo.keys := by
      rw [mem_keys_iff_lookup]; cases hx : g.Todo.lookup id <;> simp_all
    exact hd ((not_mem_keys_iff_lookup _ _).mp (h id h1))
  · intro h id hid
    rw [not_mem_keys_iff_lookup]
    by_contra hd
    have := h id hd
    rw [mem_keys_iff_lookup, this] at hid
    simp at hid

theorem lookup_MergeState_Todo (now : Int) (g rg : GossipState) (k : String) :
    (MergeState now g rg).Todo.lookup k
      = if (rg.Done.lookup k).isSome then none
        else if (g.Done.lookup k).isNone then (rg.Todo.lookup k).or (g.Todo.lookup k)
        else g.Todo.lookup k := by
  show (mergeDone g.Done (mergeTodo g.Done g.Todo rg.Todo) rg.Done).2.lookup k = _
  rw [lookup_mergeDone_snd, lookup_mergeTodo]

theorem lookup_mergeNoGC_Done (g rg : GossipState) (k : String) :
    (mergeNoGC g rg).Done.lookup k = (rg.Done.lookup k).or (g.Done.lookup k) := by
  show (mergeDone g.Done (mergeTodo g.Done g.Todo rg.Todo) rg.Done).1.lookup k = _
  rw [lookup_mergeDone_fst]

theorem lookup_MergeState_Done (now : Int) (g rg : GossipState) (k : String) :
    (MergeState now g rg).Done.lookup k
      = match (rg.Done.lookup k).or (g.Done.lookup k) with
        | some c => if tombstoneExpired now c then none else some c
        | none => none := by
  show (collectDone now (mergeNoGC g rg).Done).lookup k = _
  rw [lookup_collectDone, lookup_mergeNoGC_Done]

theorem lookup_MergeState_Friends (now : Int) (g rg : GossipState) (k : String) :
    (MergeState now g rg).Friends.lookup k = (rg.Friends.lookup k).or (g.Friends.lookup k) := by
  show (mergeFriends g.Friends rg.Friends).lookup k = _
  rw [lookup_mergeFriends]

/-- C10: the predicate "no action id is a key of both Todo and Done" holds for the
state built by `NewGossipState` and is preserved by `MergeState` (whatever the
peer state), by `MarkDone` (whatever the action name) and by `StartElection`. -/
theorem todoDoneDisjoint_invariant :
    (∀ rnd, TodoDoneDisjoint (NewGossipState rnd)) ∧
    (∀ now g rg, TodoDoneDisjoint g → TodoDoneDisjoint (MergeState now g rg)) ∧
    (∀ now g action, TodoDoneDisjoint g → TodoDoneDisjoint (MarkDone now g action)) ∧
    (∀ rnd g, TodoDoneDisjoint g → TodoDoneDisjoint (StartElection rnd g)) := by
  refine ⟨?_, ?_, ?_, ?_⟩
  · intro rnd id hid
    simp [NewGossipState] at hid
  · intro now g rg hg
    rw [todoDoneDisjoint_iff] at hg ⊢
    intro id hd
    rw [lookup_MergeState_Done] at hd
    rw [lookup_MergeState_Todo]
    cases hr : rg.Done.lookup id with
    | some c => simp
    | none =>
      rw [hr] at hd
      simp only [Option.none_or] at hd
      cases hgd : g.Done.lookup id with
      | none => rw [hgd] at hd; simp at hd
      | some c => simp [hg id (by rw [hgd]; simp)]
  · intro now g action hg
    unfold MarkDone
    by_cases ha : action ≠ ""
    · rw [if_pos ha]
      rw [todoDoneDisjoint_iff] at hg ⊢
      intro id hd
      by_cases hid : id = action
      · subst hid; exact AList.lookup_erase _ _
      · rw [AList.lookup_erase_ne hid]
        rw [AList.lookup_insert_ne hid] at hd
        exact hg id hd
    · rw [if_neg ha]; exact hg
  · intro rnd g hg
    exact hg


/-- C9 (counterexample): two states without any id in both Todo and Done for which
merging twice differs from merging once on `Todo`: the peer's `Done` entry for
`x` is older than seven days, so the first merge deletes `x` from `Todo` and
then collects the tombstone; the second merge takes `x` back into `Todo`. -/
theorem MergeState_not_idempotent_on_Todo :
    TodoDoneDisjoint pendingState ∧ TodoDoneDisjoint staleDoneState ∧
    (MergeState 1000000 pendingState staleDoneState).Todo.lookup "x" = none ∧
    (MergeState 1000000 pendingState
        (MergeState 1000000 pendingState staleDoneState)).Todo.lookup "x" ≠ none := by
  decide

/-- C9 (amended): at a fixed clock, for every state `s` without an id in both Todo
and Done and every peer state `t`, merging `merge(s, t)` into `s` gives the
same `Friends` as `merge(s, t)`, and the same `Todo` and `Done` entry at every
id other than those whose `Done` entry the garbage collection removed during
`merge(s, t)`. -/
theorem MergeState_idempotent_off_gc (now : Int) (s t : GossipState)
    (hs : TodoDoneDisjoint s) :
    (∀ k, (MergeState now s (MergeState now s t)).Friends.lookup k
        = (MergeState now s t).Friends.lookup k) ∧
    (∀ id, ¬ gcRemoved now s t id →
      (MergeState now s (MergeState now s t)).Todo.lookup id
        = (MergeState now s t).Todo.lookup id ∧
      (MergeState now s (MergeState now s t)).Done.lookup id
        = (MergeState now s t).Done.lookup id) := by
  rw [todoDoneDisjoint_iff] at hs
  constructor
  · intro k
    rw [lookup_MergeState_Friends, lookup_MergeState_Friends]
    cases t.Friends.lookup k <;> cases s.Friends.lookup k <;> simp
  · intro id hgc
    unfold gcRemoved at hgc
    rw [lookup_mergeNoGC_Done] at hgc
    rw [lookup_MergeState_Todo now s (MergeState now s t),
      lookup_MergeState_Done now s (MergeState now s t)]
    simp only [lookup_MergeState_Todo now s t, lookup_MergeState_Done now s t]
    have hs' := hs id
    cases htd : t.Done.lookup id with
    | some c =>
      have hc : tombstoneExpired now c = false := by
        cases hx : tombstoneExpired now c
        · rfl
        · exact absurd ⟨c, by simp [htd], hx⟩ hgc
      simp [hc]
    | none =>
      cases hsd : s.Done.lookup id with
      | some c =>
        have hc : tombstoneExpired now c = false := by
          cases hx : tombstoneExpired now c
          · rfl
          · exact absurd ⟨c, by simp [htd, hsd], hx⟩ hgc
        have := hs' (by rw [hsd]; simp)
        simp [hc, this]
      | none =>
        cases t.Todo.lookup id <;> cases s.Todo.lookup id <;> simp

/-- C9 (amended), applied: the peer's tombstone is fresh, nothing is collected
at `x`, and merging twice agrees with merging once there. -/
theorem MergeState_idempotent_off_gc_witness :
    TodoDoneDisjoint pendingState ∧
    ((MergeState 100 pendingState (MergeState 100 pendingState staleDoneState)).Todo.lookup "x"
        = (MergeState 100 pendingState staleDoneState).Todo.lookup "x" ∧
     (MergeState 100 pendingState (MergeState 100 pendingState staleDoneState)).Done.lookup "x"
        = (MergeState 100 pendingState staleDoneState).Done.lookup "x") :=
  ⟨by decide,
   (MergeState_idempotent_off_gc 100 pendingState staleDoneState (by decide)).2 "x"
     (by rintro ⟨c, h1, h2⟩; revert h2; revert h1; revert c; decide)⟩


theorem IsLeader_iff (g : GossipState) :
    IsLeader g = true ↔
      ∃ s, g.Friends.lookup g.selfName = some s ∧
        ∀ e ∈ g.Friends.entries, e.2.Id ≤ s.Id := by
  unfold IsLeader
  cases h : g.Friends.lookup g.selfName with
  | none => simp
  | some s =>
    simp only [List.all_eq_true, Bool.not_eq_true', decide_eq_false_iff_not, not_lt,
      Option.some.injEq, exists_eq_left']

/-- C8 (counterexample): two peers hold the same Friends map, each under its own
name, and drew the same id; `IsLeader` is true for both. -/
theorem IsLeader_two_leaders_on_tie :
    (tiedPeer "a").Friends = (tiedPeer "b").Friends ∧
    (tiedPeer "a").selfName ∈ (tiedPeer "a").Friends.keys ∧
    (tiedPeer "b").selfName ∈ (tiedPeer "b").Friends.keys ∧
    (tiedPeer "a").selfName ≠ (tiedPeer "b").selfName ∧
    IsLeader (tiedPeer "a") = true ∧ IsLeader (tiedPeer "b") = true :=
  ⟨rfl, by decide, by decide, by decide, by decide, by decide⟩

/-- C8 (amended): for every non-empty Friends map whose ids are pairwise distinct
there is exactly one friend name, the one holding the maximum id, such that a
peer holding this map and present in it under its own selfName is leader if
and only if its selfName is that name. -/
theorem IsLeader_unique_of_distinct_ids (F : GoMap Server) (hne : F.entries ≠ [])
    (hids : (F.entries.map (fun e => e.2.Id)).Nodup) :
    ∃ leader sl, F.lookup leader = some sl ∧
      (∀ e ∈ F.entries, e.2.Id ≤ sl.Id) ∧
      ∀ g : GossipState, g.Friends = F → g.selfName ∈ F.keys →
        (IsLeader g = true ↔ g.selfName = leader) := by
  have hmax : ∃ x ∈ F.entries, ∀ y ∈ F.entries, y.2.Id ≤ x.2.Id := by
    have hn : F.entries.toFinset.Nonempty := by
      rw [List.toFinset_nonempty_iff]; exact hne
    obtain ⟨x, hx, hx2⟩ := Finset.exists_max_image F.entries.toFinset (fun e => e.2.Id) hn
    exact ⟨x, List.mem_toFinset.mp hx, fun y hy => hx2 y (List.mem_toFinset.mpr hy)⟩
  obtain ⟨⟨ln, ls⟩, hx, hx2⟩ := hmax
  have hl : F.lookup ln = some ls := AList.mem_lookup_iff.mpr hx
  refine ⟨ln, ls, hl, hx2, ?_⟩
  intro g hg hself
  rw [IsLeader_iff, hg]
  constructor
  · rintro ⟨s, hs, hs2⟩
    have hmem : (⟨g.selfName, s⟩ : Σ _ : String, Server) ∈ F.entries :=
      AList.mem_lookup_iff.mp hs
    have h1 : ls.Id ≤ s.Id := hs2 _ hx
    have h2 : s.Id ≤ ls.Id := hx2 _ hmem
    have h3 : (⟨g.selfName, s⟩ : Σ _ : String, Server) = ⟨ln, ls⟩ :=
      List.inj_on_of_nodup_map hids hmem hx (le_antisymm h2 h1)
    exact congrArg Sigma.fst h3
  · intro h
    rw [h]
    exact ⟨ls, hl, hx2⟩

/-- C8 (amended), applied to the election with ids 100, 200 and 150: the peer
with id 200 is leader and the two others are not. -/
theorem IsLeader_unique_of_distinct_ids_witness :
    scenarioFriends.entries ≠ [] ∧
    (scenarioFriends.entries.map (fun e => e.2.Id)).Nodup ∧
    (∃ leader sl, scenarioFriends.lookup leader = some sl ∧
      (∀ e ∈ scenarioFriends.entries, e.2.Id ≤ sl.Id) ∧
      ∀ g : GossipState, g.Friends = scenarioFriends → g.selfName ∈ scenarioFriends.keys →
        (IsLeader g = true ↔ g.selfName = leader)) :=
  ⟨by decide, by decide,
   IsLeader_unique_of_distinct_ids scenarioFriends (by decide) (by decide)⟩

/-! ## Quorum tally -/

theorem classCount_append_singleton (c : Int) (pre : List Response) (r : Response) :
    classCount c (pre ++ [r]) = classCount c pre + (if statusClass r = c then 1 else 0) := by
  unfold classCount
  rw [List.countP_append]
  by_cases h : statusClass r = c <;> simp [h, List.countP_cons]

theorem classCount_take_le (c : Int) (rs : List Response) (n : Nat) :
    classCount c (rs.take n) ≤ classCount c rs :=
  List.Sublist.countP_le _ (List.take_sublist n rs)

theorem tallyLoop_spec (q : Nat) (rest : List Response) :
    ∀ (pre : List Response) (counts : Nat → Nat),
      (∀ i : Nat, counts i = classCount (i : Int) pre) →
      (∀ r ∈ rest, 0 ≤ statusClass r ∧ statusClass r < 6) →
      (∀ c, classCount c pre < q) →
      (tallyLoop q counts rest.length (rest.map some)
            = .returned (ResponseStub 503 "Unknown State") ∧
          ∀ c, classCount c (pre ++ rest) < q) ∨
      (∃ n r, rest.get? n = some r ∧
          tallyLoop q counts rest.length (rest.map some) = .returned r ∧
          classCount (statusClass r) (pre ++ rest.take (n + 1)) = q ∧
          ∀ c, classCount c (pre ++ rest.take n) < q) := by
  induction rest with
  | nil =>
    intro pre counts _ _ hlt
    left
    exact ⟨rfl, by simpa using hlt⟩
  | cons r rest ih =>
    intro pre counts hcounts hcls hlt
    have hr := hcls r (List.mem_cons_self _ _)
    have hcast : (((statusClass r).toNat : Nat) : Int) = statusClass r :=
      Int.toNat_of_nonneg hr.1
    have hnew : Function.update counts (statusClass r).toNat
          (counts (statusClass r).toNat + 1) (statusClass r).toNat
        = classCount (statusClass r) (pre ++ [r]) := by
      rw [Function.update_same, classCount_append_singleton, hcounts, hcast]
      simp
    simp only [List.length_cons, List.map_cons, tallyLoop, hr, and_self, if_true]
    by_cases hq : q ≤ Function.update counts (statusClass r).toNat
        (counts (statusClass r).toNat + 1) (statusClass r).toNat
    · right
      refine ⟨0, r, rfl, ?_, ?_, ?_⟩
      · simp only [ge_iff_le, hq, if_true]
      · rw [hnew] at hq
        have h1 := hlt (statusClass r)
        have h2 := classCount_append_singleton (statusClass r) pre r
        simp only [if_true] at h2
        simp only [List.take_succ_cons, List.take_zero]
        omega
      · simpa using hlt
    · simp only [ge_iff_le, hq, if_false]
      have hcounts' : ∀ i : Nat, Function.update counts (statusClass r).toNat
            (counts (statusClass r).toNat + 1) i = classCount (i : Int) (pre ++ [r]) := by
        intro i
        by_cases hi : i = (statusClass r).toNat
        · subst hi
          rw [hnew, hcast]
        · rw [Function.update_noteq hi, classCount_append_singleton, hcounts]
          have : statusClass r ≠ (i : Int) := by
            intro h
            apply hi
            rw [h]
            simp
          simp [this]
      have hlt' : ∀ c, classCount c (pre ++ [r]) < q := by
        intro c
        by_cases hc : statusClass r = c
        · subst hc
          rw [← hnew]
          omega
        · rw [classCount_append_singleton]
          simp only [hc, if_false, add_zero]
          exact hlt c
      rcases ih (pre ++ [r]) _ hcounts'
          (fun x hx => hcls x (List.mem_cons_of_mem _ hx)) hlt' with h | ⟨n, x, h1, h2, h3, h4⟩
      · left
        refine ⟨h.1, ?_⟩
        intro c
        have := h.2 c
        simpa using this
      · right
        refine ⟨n + 1, x, by simpa using h1, h2, ?_, ?_⟩
        · simpa using h3
        · intro c
          have := h4 c
          simpa using this

/-- C1: for every replica count `R ≥ 1` and every arrival order of the `R` worker
responses with status classes in 2..5, the tally of `quorumResponse` returns,
when some class holds at least `ceil(R/2)` of the responses, the response whose
arrival first brings a class count to the quorum (so a response of a class
holding at least `ceil(R/2)` responses), and returns the stub with status 503
when no class reaches `ceil(R/2)`. -/
theorem quorumTally_spec (R : Nat) (hR : 1 ≤ R) (arrivals : List Response)
    (hlen : arrivals.length = R)
    (hcls : ∀ r ∈ arrivals, 2 ≤ statusClass r ∧ statusClass r ≤ 5) :
    ((∃ c, quorumOf R ≤ classCount c arrivals) →
      ∃ n r, arrivals.get? n = some r ∧
        quorumTally R (arrivals.map some) = .returned r ∧
        quorumOf R ≤ classCount (statusClass r) arrivals ∧
        classCount (statusClass r) (arrivals.take (n + 1)) = quorumOf R ∧
        ∀ c, classCount c (arrivals.take n) < quorumOf R) ∧
    ((∀ c, classCount c arrivals < quorumOf R) →
      quorumTally R (arrivals.map some) = .returned (ResponseStub 503 "Unknown State") ∧
      (ResponseStub 503 "Unknown State").StatusCode = 503) := by
  have hq : 1 ≤ quorumOf R := by unfold quorumOf; omega
  have hmain := tallyLoop_spec (quorumOf R) arrivals [] (fun _ => 0)
    (fun i => by simp [classCount])
    (fun r hr => ⟨by have := hcls r hr; omega, by have := hcls r hr; omega⟩)
    (fun c => by simp [classCount]; omega)
  rw [hlen] at hmain
  simp only [List.nil_append] at hmain
  constructor
  · rintro ⟨c, hc⟩
    rcases hmain with h | ⟨n, r, h1, h2, h3, h4⟩
    · exact absurd hc (by have := h.2 c; omega)
    · refine ⟨n, r, h1, h2, ?_, h3, h4⟩
      rw [← h3]
      exact classCount_take_le _ _ _
  · intro hall
    rcases hmain with h | ⟨n, r, _, _, h3, _⟩
    · exact ⟨h.1, rfl⟩
    · have h5 := classCount_take_le (statusClass r) arrivals (n + 1)
      have := hall (statusClass r)
      omega

/-! ## `firstResponse`: interpretation of a response -/

theorem trimQuotes_head (s : String) (c : Char)
    (h : (trimQuotes s).data.head? = some c) : c ≠ Char.ofNat 34 := by
  unfold trimQuotes at h
  simp only at h
  set X := s.data.dropWhile (fun c => c == Char.ofNat 34) with hX
  have hpre : X.rdropWhile (fun c => c == Char.ofNat 34) <+: X := List.rdropWhile_prefix _ _
  obtain ⟨t, ht⟩ := hpre
  have hhead : X.head? = some c := by
    rw [← ht]
    cases hr : X.rdropWhile (fun c => c == Char.ofNat 34) with
    | nil => rw [hr] at h; simp at h
    | cons a l => rw [hr] at h; simpa using h
  have hnot := List.head?_dropWhile_not (fun c => c == Char.ofNat 34) s.data
  rw [← hX, hhead] at hnot
  simpa using hnot

theorem trimQuotes_last (s : String) (c : Char)
    (h : (trimQuotes s).data.getLast? = some c) : c ≠ Char.ofNat 34 := by
  unfold trimQuotes at h
  simp only at h
  set X := s.data.dropWhile (fun c => c == Char.ofNat 34) with hX
  have hne : X.rdropWhile (fun c => c == Char.ofNat 34) ≠ [] := by
    intro h0; rw [h0] at h; simp at h
  have hnot := List.rdropWhile_last_not (fun c => c == Char.ofNat 34) X hne
  rw [List.getLast?_eq_getLast _ hne] at h
  have : (X.rdropWhile (fun c => c == Char.ofNat 34)).getLast hne = c := by
    simpa using h
  rw [this] at hnot
  simpa using hnot

theorem acceptableStatus_iff (status : Int) :
    acceptableStatus status = true ↔
      status.tdiv 100 = 2 ∨ status = 412 ∨ status = 304 ∨ status = 416 := by
  simp only [acceptableStatus, Bool.or_eq_true, beq_iff_eq]
  tauto

theorem interpretResponse_of_acceptable (resp : Response) (c : Counters)
    (h : acceptableStatus resp.StatusCode = true) :
    interpretResponse (some resp) c =
      (some
        { resp with
          Header :=
            if HeaderGet resp.Header "Etag" ≠ "" then
              HeaderSet (HeaderSet resp.Header "Accept-Ranges" "bytes") "Etag"
                (trimQuotes (HeaderGet resp.Header "Etag"))
            else HeaderSet resp.Header "Accept-Ranges" "bytes" }, c) := by
  have hk : ("Etag" : String) ≠ "Accept-Ranges" := by decide
  have hget : HeaderGet (HeaderSet resp.Header "Accept-Ranges" "bytes") "Etag"
      = HeaderGet resp.Header "Etag" := by
    unfold HeaderGet HeaderSet
    rw [AList.lookup_insert_ne hk]
  simp only [interpretResponse, h, if_true, hget]

theorem interpretResponse_none_of_not_acceptable (r : Option Response) (c : Counters)
    (h : ∀ resp, r = some resp → acceptableStatus resp.StatusCode = false) :
    (interpretResponse r c).1 = none := by
  cases r with
  | none => rfl
  | some resp =>
    have := h resp rfl
    unfold interpretResponse
    simp only [this]
    by_cases h4 : resp.StatusCode = 404 <;> simp [h4]

/-- C7: `interpretResponse` returns the response iff it is non-nil with status 2xx,
304, 412 or 416; the returned response then has `Accept-Ranges: bytes`, its
`Etag` (when it carried a non-empty one) is the original value with the
surrounding double quotes removed, beginning and ending with no double quote,
every other header, the status and the body being unchanged; and both loops
of `firstResponse` return it as soon as they receive it. -/
theorem interpretResponse_spec (r : Option Response) (c : Counters) :
    ((interpretResponse r c).1 ≠ none ↔
      ∃ resp, r = some resp ∧
        (resp.StatusCode.tdiv 100 = 2 ∨ resp.StatusCode = 304 ∨ resp.StatusCode = 412 ∨
          resp.StatusCode = 416)) ∧
    (∀ out, (interpretResponse r c).1 = some out →
      ∃ resp, r = some resp ∧
        out.StatusCode = resp.StatusCode ∧ out.Body = resp.Body ∧ out.Detail = resp.Detail ∧
        HeaderGet out.Header "Accept-Ranges" = "bytes" ∧
        (HeaderGet resp.Header "Etag" ≠ "" →
          HeaderGet out.Header "Etag" = trimQuotes (HeaderGet resp.Header "Etag") ∧
          (∀ ch, (HeaderGet out.Header "Etag").data.head? = some ch → ch ≠ Char.ofNat 34) ∧
          (∀ ch, (HeaderGet out.Header "Etag").data.getLast? = some ch → ch ≠ Char.ofNat 34)) ∧
        (HeaderGet resp.Header "Etag" = "" →
          out.Header.lookup "Etag" = resp.Header.lookup "Etag") ∧
        (∀ k, k ≠ "Accept-Ranges" → k ≠ "Etag" →
          out.Header.lookup k = resp.Header.lookup k) ∧
        (∀ (st : FRState) (j : Nat) (sched : List (Option Nat)),
          (st.pending.get? (j % st.pending.length)).join = r → st.counters = c →
          0 < st.pending.length →
          (frFinalLoop st (some j :: sched)).resp = out) ∧
        (∀ (Req : Type) (env : FREnv Req) (devs : List Device) (n requestCount : Nat)
          (st : FRState) (dev : Device) (req : Req) (j : Nat) (sched : List (Option Nat)),
          requestCount < devs.length → devs.get? requestCount = some dev →
          env.devToRequest dev = .ok req → st.counters = c →
          ((st.pending ++ [env.clientDo req]).get?
            (j % (st.pending ++ [env.clientDo req]).length)).join = r →
          (frLaunchLoop env devs (n + 1) requestCount st (some j :: sched)).resp = out)) := by
  constructor
  · constructor
    · intro h
      cases r with
      | none => exact absurd rfl h
      | some resp =>
        refine ⟨resp, rfl, ?_⟩
        by_contra hna
        apply h
        apply interpretResponse_none_of_not_acceptable
        intro resp' hr
        cases hr
        cases hacc : acceptableStatus resp.StatusCode
        · rfl
        · rw [acceptableStatus_iff] at hacc
          exact absurd (by tauto) hna
    · rintro ⟨resp, rfl, hst⟩
      have hacc : acceptableStatus resp.StatusCode = true := by
        rw [acceptableStatus_iff]; tauto
      rw [interpretResponse_of_acceptable resp c hacc]
      simp
  · intro out hout
    cases r with
    | none => simp [interpretResponse] at hout
    | some resp =>
      have hacc : acceptableStatus resp.StatusCode = true := by
        cases hacc : acceptableStatus resp.StatusCode
        · have := interpretResponse_none_of_not_acceptable (some resp) c
            (fun resp' hr => by cases hr; exact hacc)
          rw [this] at hout
          cases hout
        · rfl
      have hfull := interpretResponse_of_acceptable resp c hacc
      rw [hfull] at hout
      simp only [Option.some.injEq] at hout
      have hk : ("Etag" : String) ≠ "Accept-Ranges" := by decide
      have hk' : ("Accept-Ranges" : String) ≠ "Etag" := by decide
      refine ⟨resp, rfl, ?_, ?_, ?_, ?_, ?_, ?_, ?_, ?_, ?_⟩
      · rw [← hout]
      · rw [← hout]
      · rw [← hout]
      · rw [← hout]
        by_cases he : HeaderGet resp.Header "Etag" ≠ ""
        · simp only [he, if_true, ne_eq, not_false_eq_true]
          unfold HeaderGet HeaderSet
          rw [AList.lookup_insert_ne hk', AList.lookup_insert]
        · simp only [he, if_false]
          unfold HeaderGet HeaderSet
          rw [AList.lookup_insert]
      · intro he
        have hget : HeaderGet out.Header "Etag" = trimQuotes (HeaderGet resp.Header "Etag") := by
          rw [← hout]
          simp only [he, if_true, ne_eq, not_false_eq_true]
          unfold HeaderGet HeaderSet
          rw [AList.lookup_insert]
        refine ⟨hget, ?_, ?_⟩
        · intro ch hch
          rw [hget] at hch
          exact trimQuotes_head _ _ hch
        · intro ch hch
          rw [hget] at hch
          exact trimQuotes_last _ _ hch
      · intro he
        rw [← hout]
        simp only [he, ne_eq, not_true_eq_false, if_false]
        unfold HeaderSet
        rw [AList.lookup_insert_ne hk]
      · intro k hk1 hk2
        rw [← hout]
        by_cases he : HeaderGet resp.Header "Etag" ≠ ""
        · simp only [he, if_true, ne_eq, not_false_eq_true]
          unfold HeaderSet
          rw [AList.lookup_insert_ne hk2, AList.lookup_insert_ne hk1]
        · simp only [he, if_false]
          unfold HeaderSet
          rw [AList.lookup_insert_ne hk1]
      · intro st j sched hj hc hpos
        simp only [frFinalLoop, hpos, if_true, frReceive, hj, hc, hfull, hout]
      · intro Req env devs n requestCount st dev req j sched hlt hdev hreq hc hj
        simp only [frLaunchLoop, hlt, if_true, hdev, Option.map_some', hreq, frReceive, hj, hc,
          hfull, hout]

/-! ## `firstResponse`: the counters and the trace -/

theorem count404_append (l : List FREvent) (ev : FREvent) :
    count404 (l ++ [ev]) = count404 l + count404 [ev] := by
  induction l with
  | nil => simp [count404]
  | cons e t ih =>
    cases e with
    | received r => cases r <;> simp [count404, ih] <;> omega
    | _ => simp [count404, ih]

theorem countInternal_append (l : List FREvent) (ev : FREvent) :
    countInternal (l ++ [ev]) = countInternal l + countInternal [ev] := by
  induction l with
  | nil => simp [countInternal]
  | cons e t ih =>
    cases e with
    | received r => cases r <;> simp [countInternal, ih] <;> omega
    | _ => simp [countInternal, ih] <;> omega

theorem receivedAcceptable_append (l : List FREvent) (ev : FREvent) :
    receivedAcceptable (l ++ [ev]) = (receivedAcceptable l || receivedAcceptable [ev]) := by
  induction l with
  | nil => simp [receivedAcceptable]
  | cons e t ih =>
    cases e with
    | received r => cases r <;> simp [receivedAcceptable, ih, Bool.or_assoc]
    | _ => simp [receivedAcceptable, ih]

theorem countLaunched_append (l : List FREvent) (ev : FREvent) :
    countLaunched (l ++ [ev]) = countLaunched l + countLaunched [ev] := by
  induction l with
  | nil => simp [countLaunched]
  | cons e t ih =>
    cases e <;> simp [countLaunched, ih] <;> omega

theorem countReceived_append (l : List FREvent) (ev : FREvent) :
    countReceived (l ++ [ev]) = countReceived l + countReceived [ev] := by
  induction l with
  | nil => simp [countReceived]
  | cons e t ih =>
    cases e <;> simp [countReceived, ih] <;> omega

theorem all404Run_append (l : List FREvent) (ev : FREvent) :
    all404Run (l ++ [ev]) = (all404Run l && all404Run [ev]) := by
  induction l with
  | nil => simp [all404Run]
  | cons e t ih =>
    cases e with
    | received r => cases r <;> simp [all404Run, ih, Bool.and_assoc]
    | _ => simp [all404Run, ih]

theorem countInternal_nonneg (l : List FREvent) : 0 ≤ countInternal l := by
  induction l with
  | nil => simp [countInternal]
  | cons e t ih =>
    cases e with
    | received r =>
      cases r with
      | none => simp only [countInternal]; omega
      | some r =>
        simp only [countInternal]
        split <;> omega
    | builderError d => simp only [countInternal]; omega
    | gaveUp k => simp only [countInternal]; omega
    | launched d => simpa [countInternal] using ih
    | staggerTimeout => simpa [countInternal] using ih

theorem count404_le_countReceived (l : List FREvent) :
    count404 l ≤ (countReceived l : Int) := by
  induction l with
  | nil => simp [count404, countReceived]
  | cons e t ih =>
    cases e with
    | received r =>
      cases r with
      | none => simp only [count404, countReceived]; omega
      | some r =>
        simp only [count404, countReceived]
        split <;> omega
    | _ => simpa [count404, countReceived] using ih

theorem all404Run_counts (l : List FREvent) (h : all404Run l = true) :
    countInternal l = 0 ∧ count404 l = (countReceived l : Int) ∧
      receivedAcceptable l = false := by
  induction l with
  | nil => simp [count404, countReceived, countInternal, receivedAcceptable]
  | cons e t ih =>
    cases e with
    | received r =>
      cases r with
      | none => simp [all404Run] at h
      | some r =>
        simp only [all404Run, Bool.and_eq_true, decide_eq_true_eq] at h
        obtain ⟨h1, h2, h3⟩ := ih h.2
        have hacc : acceptableStatus r.StatusCode = false := by rw [h.1]; decide
        refine ⟨?_, ?_, ?_⟩
        · simp [countInternal, h.1, h1]
        · simp only [count404, countReceived, h.1, h2, if_true]
          push_cast
          ring
        · simp [receivedAcceptable, hacc, h3]
    | builderError d => simp [all404Run] at h
    | gaveUp k => simp [all404Run] at h
    | launched d =>
      simp only [all404Run] at h
      simpa [countInternal, count404, countReceived, receivedAcceptable] using ih h
    | staggerTimeout =>
      simp only [all404Run] at h
      simpa [countInternal, count404, countReceived, receivedAcceptable] using ih h

theorem frFinish_good (st : FRState) (h : FRInv st) (hp : st.pending.length = 0) :
    FRGood (frFinish st) := by
  have := h.pend
  refine ⟨h.nf, h.ie, ?_, ?_, ?_⟩
  · intro _
    simp only [frFinish, h.nf, h.ie]
  · simp only [frFinish]; omega
  · intro _; simp only [frFinish]; omega

theorem frFinish_gaveUp_good (st : FRState) (h : FRInv st) :
    FRGood (frFinish { st with
        counters := { st.counters with
          internalErrors := st.counters.internalErrors + st.pending.length }
        pending := []
        log := st.log ++ [FREvent.gaveUp st.pending.length] }) := by
  have := h.pend
  refine ⟨?_, ?_, ?_, ?_, ?_⟩
  · simp only [frFinish, count404_append, h.nf, count404]; omega
  · simp only [frFinish, countInternal_append, h.ie, countInternal]; omega
  · intro _
    simp only [frFinish, count404_append, countInternal_append, h.nf, h.ie, count404,
      countInternal]
    simp
  · simp only [frFinish, countReceived_append, countLaunched_append, countReceived,
      countLaunched]
    omega
  · intro hall
    simp [frFinish, all404Run_append, all404Run] at hall

theorem frReceive_good (st : FRState) (j : Nat) (h : FRInv st) (hp : 0 < st.pending.length) :
    match frReceive st j with
    | .inl res => FRGood res ∧ receivedAcceptable res.log = true
    | .inr st' => FRInv st' := by
  have hk : j % st.pending.length < st.pending.length := Nat.mod_lt _ hp
  have hpend := h.pend
  have hlen : (st.pending.eraseIdx (j % st.pending.length)).length + 1 = st.pending.length := by
    rw [List.length_eraseIdx, if_pos hk]; omega
  unfold frReceive
  simp only
  generalize hr : (st.pending.get? (j % st.pending.length)).join = r
  cases r with
  | none =>
    simp only [interpretResponse]
    refine ⟨?_, ?_, ?_, ?_⟩
    · simp only [count404_append, h.nf, count404]; omega
    · simp only [countInternal_append, h.ie, countInternal]; omega
    · simp only [receivedAcceptable_append, h.acc, receivedAcceptable]; rfl
    · simp only [countReceived_append, countLaunched_append, countReceived, countLaunched]
      omega
  | some resp =>
    cases hacc : acceptableStatus resp.StatusCode
    · by_cases h4 : resp.StatusCode = 404
      · simp only [interpretResponse, hacc, h4]
        refine ⟨?_, ?_, ?_, ?_⟩
        · simp [count404_append, h.nf, count404, h4]
        · simp [countInternal_append, h.ie, countInternal, h4]
        · simp [receivedAcceptable_append, h.acc, receivedAcceptable, h4]
          decide
        · simp only [countReceived_append, countLaunched_append, countReceived, countLaunched]
          omega
      · simp only [interpretResponse, hacc, h4]
        refine ⟨?_, ?_, ?_, ?_⟩
        · simp [count404_append, h.nf, count404, h4]
        · simp [countInternal_append, h.ie, countInternal, h4, hacc]
        · simp [receivedAcceptable_append, h.acc, receivedAcceptable, hacc]
        · simp only [countReceived_append, countLaunched_append, countReceived, countLaunched]
          omega
    · have hne : resp.StatusCode ≠ 404 := by
        intro h4; rw [h4] at hacc; revert hacc; decide
      rw [interpretResponse_of_acceptable resp st.counters hacc]
      simp only
      refine ⟨⟨?_, ?_, ?_, ?_, ?_⟩, ?_⟩
      · simp [count404_append, h.nf, count404, hne]
      · simp [countInternal_append, h.ie, countInternal, hne, hacc]
      · intro hfalse
        simp [receivedAcceptable_append, receivedAcceptable, hacc] at hfalse
      · simp only [countReceived_append, countLaunched_append, countReceived, countLaunched]
        omega
      · intro hall
        simp [all404Run_append, all404Run, hne] at hall
      · simp [receivedAcceptable_append, receivedAcceptable, hacc]

theorem frFinalLoop_good (sched : List (Option Nat)) :
    ∀ st : FRState, FRInv st → FRGood (frFinalLoop st sched) := by
  induction sched with
  | nil =>
    intro st h
    unfold frFinalLoop
    by_cases hp : 0 < st.pending.length
    · simp only [hp, if_true]; exact frFinish_gaveUp_good st h
    · simp only [hp, if_false]; exact frFinish_good st h (by omega)
  | cons ev sched ih =>
    intro st h
    cases ev with
    | none =>
      unfold frFinalLoop
      by_cases hp : 0 < st.pending.length
      · simp only [hp, if_true]; exact frFinish_gaveUp_good st h
      · simp only [hp, if_false]; exact frFinish_good st h (by omega)
    | some j =>
      unfold frFinalLoop
      by_cases hp : 0 < st.pending.length
      · simp only [hp, if_true]
        have := frReceive_good st j h hp
        cases hr : frReceive st j with
        | inl res => rw [hr] at this; exact this.1
        | inr st' => rw [hr] at this; exact ih st' this
      · simp only [hp, if_false]; exact frFinish_good st h (by omega)

theorem frLaunchLoop_good {Req : Type} (env : FREnv Req) (devs : List Device) (n : Nat) :
    ∀ (requestCount : Nat) (st : FRState) (sched : List (Option Nat)),
      FRInv st → FRGood (frLaunchLoop env devs n requestCount st sched) := by
  induction n with
  | zero =>
    intro requestCount st sched h
    unfold frLaunchLoop
    exact frFinalLoop_good sched st h
  | succ n ih =>
    intro requestCount st sched h
    unfold frLaunchLoop
    simp only
    generalize hnext : (if requestCount < devs.length then
        (devs.get? requestCount).map (fun d => (d, st.more))
      else match st.more with
        | [] => none
        | d :: m => some (d, m)) = next
    cases next with
    | none => exact frFinalLoop_good sched st h
    | some p =>
      obtain ⟨dev, more'⟩ := p
      simp only
      cases hreq : env.devToRequest dev with
      | error e =>
        simp only
        apply ih
        have := h.pend
        refine ⟨?_, ?_, ?_, ?_⟩
        · simp only [count404_append, h.nf, count404]; omega
        · simp only [countInternal_append, h.ie, countInternal]; omega
        · simp only [receivedAcceptable_append, h.acc, receivedAcceptable]; rfl
        · simp only [countReceived_append, countLaunched_append, countReceived, countLaunched]
          omega
      | ok req =>
        simp only
        have hpend := h.pend
        have h1 : FRInv { st with
            more := more'
            pending := st.pending ++ [env.clientDo req]
            log := st.log ++ [FREvent.launched dev] } := by
          refine ⟨?_, ?_, ?_, ?_⟩
          · simp only [count404_append, h.nf, count404]; omega
          · simp only [countInternal_append, h.ie, countInternal]; omega
          · simp only [receivedAcceptable_append, h.acc, receivedAcceptable]; rfl
          · simp only [countReceived_append, countLaunched_append, countReceived,
              countLaunched, List.length_append, List.length_singleton]
            omega
        have h2 : FRInv { st with
            more := more'
            pending := st.pending ++ [env.clientDo req]
            log := st.log ++ [FREvent.launched dev] ++ [FREvent.staggerTimeout] } := by
          refine ⟨?_, ?_, ?_, ?_⟩
          · simp only [count404_append, h.nf, count404]; omega
          · simp only [countInternal_append, h.ie, countInternal]; omega
          · simp only [receivedAcceptable_append, h.acc, receivedAcceptable]; rfl
          · simp only [countReceived_append, countLaunched_append, countReceived,
              countLaunched, List.length_append, List.length_singleton]
            omega
        cases sched with
        | nil => exact ih _ _ _ h2
        | cons ev rest =>
          cases ev with
          | none => exact ih _ _ _ h2
          | some j =>
            simp only
            have := frReceive_good _ j h1 (by simp)
            cases hr : frReceive { st with
                more := more'
                pending := st.pending ++ [env.clientDo req]
                log := st.log ++ [FREvent.launched dev] } j with
            | inl res => rw [hr] at this; exact this.1
            | inr st' => rw [hr] at this; exact ih _ st' _ this

theorem firstResponse_good {Req : Type} (env : FREnv Req) (replicaCount : Nat)
    (deviceLimit : Int) (devs more : List Device) (rnd : Nat → Nat)
    (sched : List (Option Nat)) (res : FRResult)
    (h : firstResponse env replicaCount deviceLimit devs more rnd sched = some res) :
    FRGood res := by
  unfold firstResponse at h
  simp only at h
  split at h
  · cases h
  · simp only [Option.some.injEq] at h
    rw [← h]
    apply frLaunchLoop_good
    exact ⟨rfl, rfl, rfl, rfl⟩

theorem ResponseStub_404_ne_503 : ResponseStub 404 "" ≠ ResponseStub 503 "" := by
  intro h
  have := congrArg Response.StatusCode h
  simp [ResponseStub] at this

/-- C5: for every run of `firstResponse` in which no acceptable response is
obtained, the result is the stub with status 404 if and only if the number of
404 responses counted is strictly greater than the number of internal errors
(non-acceptable non-404 responses, transport errors, builder errors and the
requests pending when the give-up timer fires); otherwise, in particular on a
tie and when no request was launched, it is the stub with status 503. -/
theorem firstResponse_exhausted {Req : Type} (env : FREnv Req) (replicaCount : Nat)
    (deviceLimit : Int) (devs more : List Device) (rnd : Nat → Nat)
    (sched : List (Option Nat)) (res : FRResult)
    (h : firstResponse env replicaCount deviceLimit devs more rnd sched = some res)
    (hna : receivedAcceptable res.log = false) :
    res.counters.notFounds = count404 res.log ∧
    res.counters.internalErrors = countInternal res.log ∧
    (res.resp = ResponseStub 404 "" ↔ count404 res.log > countInternal res.log) ∧
    (¬ count404 res.log > countInternal res.log → res.resp = ResponseStub 503 "") ∧
    (countLaunched res.log = 0 → res.resp = ResponseStub 503 "") := by
  have hg := firstResponse_good env replicaCount deviceLimit devs more rnd sched res h
  have hstub := hg.stub hna
  refine ⟨hg.nf, hg.ie, ?_, ?_, ?_⟩
  · constructor
    · intro h4
      by_contra hgt
      rw [hstub, if_neg hgt] at h4
      exact ResponseStub_404_ne_503 h4.symm
    · intro hgt
      rw [hstub, if_pos hgt]
  · intro hgt
    rw [hstub, if_neg hgt]
  · intro h0
    have h1 := count404_le_countReceived res.log
    have h2 := hg.recv
    have h3 := countInternal_nonneg res.log
    rw [hstub, if_neg (by omega)]

/-- C6: when at least one request is launched and every request that
`firstResponse` launches is answered with status 404, with no builder error
and no give-up, `firstResponse` returns a response with status 404. -/
theorem firstResponse_all_404 {Req : Type} (env : FREnv Req) (replicaCount : Nat)
    (deviceLimit : Int) (devs more : List Device) (rnd : Nat → Nat)
    (sched : List (Option Nat)) (res : FRResult)
    (h : firstResponse env replicaCount deviceLimit devs more rnd sched = some res)
    (hall : all404Run res.log = true) (hone : 1 ≤ countLaunched res.log) :
    res.resp = ResponseStub 404 "" ∧ res.resp.StatusCode = 404 := by
  have hg := firstResponse_good env replicaCount deviceLimit devs more rnd sched res h
  obtain ⟨h1, h2, h3⟩ := all404Run_counts res.log hall
  have h4 := hg.full hall
  have hstub := hg.stub h3
  have : res.resp = ResponseStub 404 "" := by
    rw [hstub, if_pos (by omega)]
  exact ⟨this, by rw [this]; rfl⟩

/-! ## EC split and glue -/

theorem paddedLength_spec (k e : Nat) (hk : 0 < k) :
    paddedLength k e = k * (e / k + (if e % k ≠ 0 then 1 else 0)) := by
  unfold paddedLength
  have hdm := Nat.div_add_mod e k
  have hlt := Nat.mod_lt e hk
  by_cases h : e % k = 0
  · simp only [h, Nat.sub_zero, Nat.mod_self, Nat.add_zero, ne_eq, not_true_eq_false, if_false]
    omega
  · have h2 : (k - e % k) % k = k - e % k := Nat.mod_eq_of_lt (by omega)
    simp only [h2, ne_eq, h, not_false_eq_true, if_true, Nat.mul_add, Nat.mul_one]
    omega

theorem paddedLength_div (k e : Nat) (hk : 0 < k) :
    paddedLength k e / k = e / k + (if e % k ≠ 0 then 1 else 0) := by
  rw [paddedLength_spec k e hk, Nat.mul_div_cancel_left _ hk]

theorem paddedLength_ge (k e : Nat) : e ≤ paddedLength k e := by
  unfold paddedLength; omega

theorem paddedLength_le_mul (k e c : Nat) (hk : 0 < k) (h : e ≤ k * c) :
    paddedLength k e ≤ k * c := by
  rw [paddedLength_spec k e hk]
  apply Nat.mul_le_mul_left
  have hdm := Nat.div_add_mod e k
  by_cases h0 : e % k = 0
  · simp only [h0, ne_eq, not_true_eq_false, if_false, Nat.add_zero]
    exact Nat.div_le_of_le_mul h
  · simp only [ne_eq, h0, not_false_eq_true, if_true]
    by_contra hc
    have h1 : c ≤ e / k := by omega
    have h2 : k * c ≤ k * (e / k) := Nat.mul_le_mul_left _ h1
    have h3 : e % k > 0 := Nat.pos_of_ne_zero h0
    omega

theorem paddedLength_full (k c : Nat) (hk : 0 < k) : paddedLength k (k * c) = k * c := by
  unfold paddedLength
  simp [Nat.mul_mod_right]

theorem sliceShards_length (buf : List Nat) (n size : Nat) :
    (sliceShards buf n size).length = n := by
  simp [sliceShards]

theorem sliceShards_mem_length (buf : List Nat) (n size : Nat) (h : n * size ≤ buf.length) :
    ∀ s ∈ sliceShards buf n size, s.length = size := by
  intro s hs
  simp only [sliceShards, List.mem_map, List.mem_range] at hs
  obtain ⟨i, hi, rfl⟩ := hs
  rw [List.length_take, List.length_drop]
  have : (i + 1) * size ≤ n * size := Nat.mul_le_mul_right _ hi
  have h2 : (i + 1) * size = i * size + size := by ring
  omega

theorem sliceShards_succ (buf : List Nat) (n size : Nat) :
    sliceShards buf (n + 1) size
      = sliceShards buf n size ++ [(buf.drop (n * size)).take size] := by
  simp [sliceShards, List.range_succ]

theorem sliceShards_join (buf : List Nat) (n size : Nat) (h : n * size ≤ buf.length) :
    (sliceShards buf n size).flatten = buf.take (n * size) := by
  induction n with
  | zero => simp [sliceShards]
  | succ n ih =>
    have h2 : (n + 1) * size = n * size + size := by ring
    rw [sliceShards_succ, List.flatten_append, ih (by omega), h2]
    simp only [List.flatten_cons, List.flatten_nil, List.append_nil]
    rw [List.take_add]

theorem sliceShards_take (buf : List Nat) (k m size : Nat) :
    (sliceShards buf (k + m) size).take k = sliceShards buf k size := by
  simp only [sliceShards, ← List.map_take]
  congr 1
  rw [List.take_range]
  simp

theorem sliceShards_append (a b : List Nat) (n size : Nat) (h : n * size ≤ a.length) :
    sliceShards (a ++ b) n size = sliceShards a n size := by
  simp only [sliceShards]
  apply List.map_congr_left
  intro i hi
  rw [List.mem_range] at hi
  have : (i + 1) * size ≤ n * size := Nat.mul_le_mul_right _ hi
  have h2 : (i + 1) * size = i * size + size := by ring
  rw [List.drop_append_of_le_length (by omega)]
  rw [List.take_append_of_le_length (by rw [List.length_drop]; omega)]

theorem writeShards_spec (cl : Int) (shards : List (List Nat)) :
    ∀ tw : Int, tw ≤ cl →
      (writeShards cl shards tw).2.1 = shards.flatten.take (cl - tw).toNat ∧
      (writeShards cl shards tw).2.2 = tw + min shards.flatten.length (cl - tw).toNat ∧
      (writeShards cl shards tw).1.length = shards.length := by
  induction shards with
  | nil => intro tw _; simp [writeShards]
  | cons s rest ih =>
    intro tw htw
    simp only [writeShards, List.flatten_cons, List.length_append, List.length_cons]
    by_cases hlt : cl - tw < (s.length : Int)
    · simp only [hlt, if_true]
      have hlen : (s.take (cl - tw).toNat).length = (cl - tw).toNat := by
        rw [List.length_take]; omega
      obtain ⟨h1, h2, h3⟩ := ih (tw + ((s.take (cl - tw).toNat).length : Nat)) (by rw [hlen]; omega)
      rw [h1, h2, h3, hlen]
      have hz : (cl - (tw + ((cl - tw).toNat : Int))).toNat = 0 := by omega
      refine ⟨?_, ?_⟩
      · rw [hz, List.take_zero, List.append_nil]
        rw [List.take_append_of_le_length (by omega)]
      · omega
    · simp only [hlt, if_false]
      obtain ⟨h1, h2, h3⟩ := ih (tw + (s.length : Nat)) (by omega)
      rw [h1, h2, h3]
      have hz : (cl - (tw + (s.length : Int))).toNat = (cl - tw).toNat - s.length := by omega
      refine ⟨?_, ?_⟩
      · rw [hz, List.take_append_eq_append_take]
        have hs : s.take (cl - tw).toNat = s := List.take_of_length_le (by omega)
        rw [hs]
      · omega

theorem flatten_length_of_uniform (l : List (List Nat)) (c : Nat)
    (h : ∀ s ∈ l, s.length = c) : l.flatten.length = l.length * c := by
  induction l with
  | nil => simp
  | cons a t ih =>
    rw [List.flatten_cons, List.length_append, h a (List.mem_cons_self _ _),
      ih (fun s hs => h s (List.mem_cons_of_mem _ hs)), List.length_cons]
    ring

theorem splitWindow_ok (enc : Encoder) (k m cs : Nat) (hk : 0 < k)
    (hc : EncoderContract k m enc) (window databuf : List Nat)
    (hpos : 0 < window.length) (hle : window.length ≤ k * cs)
    (hbuf : databuf.length = (k + m) * cs) :
    ∃ data buf, splitWindow enc k m window databuf = .ok (data, buf) ∧
      data.length = k + m ∧
      0 < paddedLength k window.length / k ∧
      (∀ s ∈ data, s.length = paddedLength k window.length / k) ∧
      (data.take k).flatten
        = window ++ List.replicate (paddedLength k window.length - window.length) 0 ∧
      buf.length = (k + m) * cs := by
  have hp := paddedLength_spec k window.length hk
  have hge := paddedLength_ge k window.length
  have hle' := paddedLength_le_mul k window.length cs hk hle
  have hdiv := paddedLength_div k window.length hk
  set p := paddedLength k window.length with hpdef
  set tcs := p / k with htcs
  have hpt : p = k * tcs := by rw [hp, hdiv]
  have htpos : 0 < tcs := by
    rcases Nat.eq_zero_or_pos tcs with h0 | h0
    · rw [h0] at hpt; omega
    · exact h0
  have htle : tcs ≤ cs := by
    by_contra hgt
    have : k * (cs + 1) ≤ k * tcs := Nat.mul_le_mul_left _ (by omega)
    have : k * (cs + 1) = k * cs + k := by ring
    omega
  have hkm : (k + m) * tcs ≤ (k + m) * cs := Nat.mul_le_mul_left _ htle
  have hpk : p ≤ (k + m) * cs := by
    have : k * cs ≤ (k + m) * cs := Nat.mul_le_mul_right _ (by omega)
    omega
  set buf1 := window ++ List.replicate (p - window.length) 0 ++ databuf.drop p with hbuf1
  have hlen1 : buf1.length = (k + m) * cs := by
    simp only [hbuf1, List.length_append, List.length_replicate, List.length_drop]
    omega
  have hdl := sliceShards_length buf1 (k + m) tcs
  have hds := sliceShards_mem_length buf1 (k + m) tcs (by omega)
  obtain ⟨par, hen, hpl, hps⟩ := hc.encode_ok (sliceShards buf1 (k + m) tcs) tcs hdl htpos hds
  have htake : (sliceShards buf1 (k + m) tcs).take k
      = sliceShards (window ++ List.replicate (p - window.length) 0) k tcs := by
    rw [sliceShards_take, hbuf1, sliceShards_append]
    simp only [List.length_append, List.length_replicate]
    omega
  have hsz : ∀ s ∈ (sliceShards buf1 (k + m) tcs).take k ++ par, s.length = tcs := by
    intro s hs
    rcases List.mem_append.mp hs with h1 | h1
    · exact hds s (List.mem_of_mem_take h1)
    · exact hps s h1
  have hl : ((sliceShards buf1 (k + m) tcs).take k ++ par).length = k + m := by
    rw [List.length_append, List.length_take, hdl, hpl]; omega
  refine ⟨(sliceShards buf1 (k + m) tcs).take k ++ par,
    ((sliceShards buf1 (k + m) tcs).take k ++ par).flatten
      ++ buf1.drop ((sliceShards buf1 (k + m) tcs).take k ++ par).flatten.length,
    ?_, hl, htpos, hsz, ?_, ?_⟩
  · simp only [splitWindow]
    rw [← hpdef, ← htcs, ← hbuf1, hen]
  · rw [List.take_append_of_le_length (by rw [List.length_take, hdl]; omega)]
    rw [List.take_take, Nat.min_self, htake, sliceShards_join]
    · apply List.take_of_length_le
      simp only [List.length_append, List.length_replicate]
      omega
    · simp only [List.length_append, List.length_replicate]
      omega
  · rw [List.length_append, List.length_drop, flatten_length_of_uniform _ tcs hsz, hl, hlen1]
    omega

theorem readShards_full (size : Nat) :
    ∀ (shards rest data : List (List Nat)),
      (∀ s ∈ shards, s.length = size) → shards.length = rest.length →
      data.length = shards.length →
      (readShards size ((List.zipWith (fun a b => a ++ b) shards rest).map some) data).map
          Prod.snd = shards ∧
      (readShards size ((List.zipWith (fun a b => a ++ b) shards rest).map some) data).map
          Prod.fst = rest.map some := by
  intro shards
  induction shards with
  | nil =>
    intro rest data _ hr hd
    cases rest with
    | nil => simp [readShards]
    | cons _ _ => simp at hr
  | cons s shards ih =>
    intro rest data hs hr hd
    cases rest with
    | nil => simp at hr
    | cons r rest =>
      cases data with
      | nil => simp at hd
      | cons d data =>
        have hsl := hs s (List.mem_cons_self _ _)
        obtain ⟨h1, h2⟩ := ih rest data (fun x hx => hs x (List.mem_cons_of_mem _ hx))
          (by simpa using hr) (by simpa using hd)
        unfold readShards at h1 h2 ⊢
        simp only [List.zipWith_cons_cons, List.map_cons, readShard, List.length_append, hsl,
          Nat.le_add_right, if_true, h1, h2]
        rw [← hsl]
        simp

theorem expectedChunkSize_eq (k cs : Nat) (hk : 0 < k) (n : Nat) :
    expectedChunkSize k cs (n : Int)
      = paddedLength k (if n < k * cs then n else k * cs) / k := by
  unfold expectedChunkSize
  rw [Nat.mul_comm cs k]
  by_cases h : n < k * cs
  · have h' : (n : Int) < ((k * cs : Nat) : Int) := by exact_mod_cast h
    rw [if_pos h', if_pos h]
    rw [paddedLength_div k n hk]
    have h1 : ((n : Int) / (k : Int)).toNat = n / k := by
      have h0 : (n : Int) / (k : Int) = ((n / k : Nat) : Int) := (Int.natCast_div n k).symm
      rw [h0]
      exact Int.toNat_natCast _
    have h2 : ((n : Int) % (k : Int) ≠ 0) ↔ (n % k ≠ 0) := by
      have h0 : (n : Int) % (k : Int) = ((n % k : Nat) : Int) := (Int.natCast_mod n k).symm
      rw [h0]
      norm_cast
    rw [h1]
    simp only [h2]
  · have h' : ¬ (n : Int) < ((k * cs : Nat) : Int) := by exact_mod_cast h
    rw [if_neg h', if_neg h]
    rw [paddedLength_full k cs hk, Nat.mul_div_cancel_left _ hk]

theorem split_glue_loop (enc : Encoder) (k m cs : Nat) (hk : 0 < k) (hcs : 0 < cs)
    (hc : EncoderContract k m enc) (cl : Int) :
    ∀ (n : Nat) (T databuf : List Nat) (tr : Int) (fs fg : Nat) (data : List (List Nat)),
      T.length ≤ n → cl - tr = T.length → databuf.length = (k + m) * cs →
      T.length ≤ fs → T.length ≤ fg → data.length = k + m →
      (splitLoop enc k m cs cl fs T databuf tr).err = none ∧
      (splitLoop enc k m cs cl fs T databuf tr).written.length = k + m ∧
      glueLoop enc k cs cl fg ((splitLoop enc k m cs cl fs T databuf tr).written.map some)
        data tr = { err := none, out := T } := by
  intro n
  induction n with
  | zero =>
    intro T databuf tr fs fg data hn hcl _ _ _ _
    have hT : T = [] := List.length_eq_zero.mp (by omega)
    subst hT
    have hlt : ¬ tr < cl := by simp at hcl; omega
    cases fs <;> cases fg <;> simp [splitLoop, glueLoop, hlt]
  | succ n ih =>
    intro T databuf tr fs fg data hn hcl hbuf hfs hfg hdata
    by_cases hT : T.length = 0
    · have hT' : T = [] := List.length_eq_zero.mp hT
      subst hT'
      have hlt : ¬ tr < cl := by simp at hcl; omega
      cases fs <;> cases fg <;> simp [splitLoop, glueLoop, hlt]
    · have hlt : tr < cl := by omega
      obtain ⟨fs, rfl⟩ : ∃ f, fs = f + 1 := ⟨fs - 1, by omega⟩
      obtain ⟨fg, rfl⟩ : ∃ f, fg = f + 1 := ⟨fg - 1, by omega⟩
      -- the number of bytes of this window
      set e : Nat := if T.length < k * cs then T.length else k * cs with he
      have hkc : 0 < k * cs := Nat.mul_pos hk hcs
      have he_le : e ≤ T.length := by
        rw [he]; split <;> omega
      have he_pos : 0 < e := by
        rw [he]; split <;> omega
      have he_kc : e ≤ k * cs := by
        rw [he]; split <;> omega
      have hexp : (if cl - tr < ((k * cs : Nat) : Int) then (cl - tr).toNat else k * cs) = e := by
        rw [hcl, he]
        by_cases hfull : T.length < k * cs
        · have h' : (T.length : Int) < ((k * cs : Nat) : Int) := by exact_mod_cast hfull
          rw [if_pos h', if_pos hfull, Int.toNat_natCast]
        · have h' : ¬ (T.length : Int) < ((k * cs : Nat) : Int) := by exact_mod_cast hfull
          rw [if_neg h', if_neg hfull]
      have hwl : (T.take e).length = e := by rw [List.length_take]; omega
      obtain ⟨sh, buf, hsw, hshl, htpos, hshs, hflat, hbufl⟩ :=
        splitWindow_ok enc k m cs hk hc (T.take e) databuf (by omega) (by omega) hbuf
      rw [hwl] at htpos hshs hflat
      -- the later windows
      obtain ⟨ih1, ih2, ih3⟩ := ih (T.drop e) buf (tr + e) fs fg
        ((writeShards cl (sh.take k) tr).1 ++ sh.drop k)
        (by rw [List.length_drop]; omega)
        (by rw [List.length_drop]; omega) hbufl
        (by rw [List.length_drop]; omega) (by rw [List.length_drop]; omega)
        (by
          rw [List.length_append, (writeShards_spec cl (sh.take k) tr (by omega)).2.2,
            List.length_take, List.length_drop]
          omega)
      have hsplit : splitLoop enc k m cs cl (fs + 1) T databuf tr
          = { err := (splitLoop enc k m cs cl fs (T.drop e) buf (tr + e)).err
              written := List.zipWith (fun a b => a ++ b) sh
                (splitLoop enc k m cs cl fs (T.drop e) buf (tr + e)).written } := by
        rw [splitLoop]
        simp only [hlt, if_true, hexp, hwl, hsw]
        rw [if_neg (by omega)]
      rw [hsplit]
      simp only
      refine ⟨ih1, ?_, ?_⟩
      · rw [List.length_zipWith, hshl, ih2]; simp
      · obtain ⟨hr1, hr2⟩ := readShards_full (paddedLength k e / k) sh
          (splitLoop enc k m cs cl fs (T.drop e) buf (tr + e)).written data hshs
          (by rw [hshl, ih2]) (by rw [hdata, hshl])
        have hecs : expectedChunkSize k cs (cl - tr) = paddedLength k e / k := by
          rw [hcl, expectedChunkSize_eq k cs hk T.length]
        have hrec : enc.Reconstruct sh = .ok sh :=
          hc.reconstruct_present sh _ hshl htpos hshs
        obtain ⟨hw1, hw2, _⟩ := writeShards_spec cl (sh.take k) tr (by omega)
        have hout : (sh.take k).flatten.take (cl - tr).toNat = T.take e := by
          rw [hflat, hcl, Int.toNat_natCast]
          by_cases hfull : T.length < k * cs
          · have : e = T.length := by rw [he, if_pos hfull]
            rw [List.take_append_of_le_length (by rw [hwl]; omega)]
            rw [List.take_take]
            congr 1
            omega
          · have : e = k * cs := by rw [he, if_neg hfull]
            have hpad : paddedLength k e = e := by rw [this]; exact paddedLength_full k cs hk
            rw [hpad, Nat.sub_self, List.replicate_zero, List.append_nil]
            apply List.take_of_length_le
            rw [hwl]; exact he_le
        have htw : (writeShards cl (sh.take k) tr).2.2 = tr + (e : Int) := by
          rw [hw2, hflat, hcl, Int.toNat_natCast]
          simp only [List.length_append, List.length_replicate, hwl]
          have := paddedLength_ge k e
          have : min (e + (paddedLength k e - e)) T.length = e := by
            by_cases hfull : T.length < k * cs
            · have : e = T.length := by rw [he, if_pos hfull]
              omega
            · have h1 : e = k * cs := by rw [he, if_neg hfull]
              have hpad : paddedLength k e = e := by rw [h1]; exact paddedLength_full k cs hk
              omega
          rw [this]
        rw [glueLoop]
        simp only [hlt, if_true, hecs, hr1, hr2, hrec, hw1, hout, htw, ih3]
        rw [List.take_append_drop]

/-- C2: for every byte string `S`, every `k ≥ 1`, `m ≥ 1` and chunk size
`≥ 1` (in particular `k` in 1..10, `m` in 1..6, chunk size in 1..10), with an
encoder that keeps the library's contract: `ECSplit` returns nil, and `ECGlue`
fed with the `k+m` fragment streams `ECSplit` wrote, all present, returns nil
and writes exactly `S`. -/
theorem ECGlue_ECSplit_roundtrip (newEncoder : Nat → Nat → Except String Encoder)
    (enc : Encoder) (k m cs : Nat) (S : List Nat)
    (hk : 1 ≤ k) (hm : 1 ≤ m) (hcs : 1 ≤ cs)
    (hnew : newEncoder k m = .ok enc) (hc : EncoderContract k m enc) :
    (ECSplit newEncoder k m S cs S.length).err = none ∧
    (ECSplit newEncoder k m S cs S.length).written.length = k + m ∧
    ECGlue newEncoder k m ((ECSplit newEncoder k m S cs S.length).written.map some) cs
      S.length = { err := none, out := S } := by
  have _ := hm
  unfold ECSplit ECGlue
  simp only [hnew, Int.toNat_natCast]
  exact split_glue_loop enc k m cs hk hcs hc S.length S.length S _ 0 S.length S.length _
    (le_refl _) (by simp) (by simp) (le_refl _) (le_refl _) (by simp)

/-! ## The reference encoder keeps the contract -/

theorem rsShardSize_of_uniform (shards : List (List Nat)) (n : Nat) (hn : 0 < n)
    (hne : shards ≠ []) (h : ∀ s ∈ shards, s.length = n) : rsShardSize shards = n := by
  cases shards with
  | nil => exact absurd rfl hne
  | cons s t =>
    have hs := h s (List.mem_cons_self _ _)
    have hp : decide (n ≠ 0) = true := decide_eq_true (by omega)
    simp only [rsShardSize, List.find?_cons, hs, hp, Option.map_some', Option.getD_some]

theorem rsCodeRow_length (size : Nat) (row : List Nat) (src : List (List Nat)) :
    (rsCodeRow size row src).length = size := by
  simp [rsCodeRow]

theorem rsEncoder_contract (k m : Nat) (hk : 0 < k) (hmat : (rsMatrix k m).length = k + m) :
    EncoderContract k m { Encode := rsEncode k m, Reconstruct := rsReconstruct k m } := by
  refine ⟨?_, ?_, ?_⟩
  · intro shards n hl hn hs
    have hne : shards ≠ [] := by
      intro h0; rw [h0] at hl; simp at hl; omega
    have hsz := rsShardSize_of_uniform shards n hn hne hs
    refine ⟨((rsMatrix k m).drop k).map (fun row => rsCodeRow n row (shards.take k)), ?_, ?_, ?_⟩
    · have hany : shards.any (fun s => decide (s.length ≠ n)) = false := by
        rw [List.any_eq_false]
        intro s hmem
        simp [hs s hmem]
      simp only [rsEncode, hl, hsz, ne_eq, not_true_eq_false, if_false, hany]
      rw [if_neg (by omega)]
      simp
    · rw [List.length_map, List.length_drop, hmat]; omega
    · intro p hp
      rw [List.mem_map] at hp
      obtain ⟨row, _, rfl⟩ := hp
      exact rsCodeRow_length _ _ _
  · intro shards n hl hn hs
    have hne : shards ≠ [] := by
      intro h0; rw [h0] at hl; simp at hl; omega
    have hsz := rsShardSize_of_uniform shards n hn hne hs
    have hany : shards.any (fun s => decide (s.length ≠ 0 ∧ s.length ≠ n)) = false := by
      rw [List.any_eq_false]
      intro s hmem
      simp [hs s hmem]
    have hall : shards.all (fun s => decide (s.length ≠ 0)) = true := by
      rw [List.all_eq_true]
      intro s hmem
      have := hs s hmem
      exact decide_eq_true (by omega)
    simp only [rsReconstruct, hl, hsz, ne_eq, not_true_eq_false, if_false, hany, hall]
    rw [if_neg (by omega)]
    simp
  · intro shards hfew
    simp only [rsReconstruct]
    split
    · exact ⟨_, rfl⟩
    · rename_i hl
      split
      · exact ⟨_, rfl⟩
      · split
        · exact ⟨_, rfl⟩
        · split
          · rename_i hall
            exfalso
            have hf : shards.filter (fun s => decide (s.length ≠ 0)) = shards := by
              rw [List.filter_eq_self]
              intro s hmem
              exact (List.all_eq_true.mp hall) s hmem
            rw [hf] at hfew
            simp only [ne_eq, Decidable.not_not] at hl
            omega
          · exact ⟨_, rfl⟩

set_option maxRecDepth 100000 in
theorem rsMatrix_6_4_length : (rsMatrix 6 4).length = 6 + 4 := by decide

theorem rsNew_6_4 :
    rsNew 6 4 = .ok { Encode := rsEncode 6 4, Reconstruct := rsReconstruct 6 4 } := by
  rfl

/-! ## `ECGlue` with too few readers -/

theorem readShards_filter_le (size : Nat) (p : List Nat → Bool) (hp : p [] = false) :
    ∀ (bodies : List (Option (List Nat))) (data : List (List Nat)),
      (∀ s ∈ data, s = []) →
      (((readShards size bodies data).map Prod.snd).filter p).length
        ≤ (bodies.filter Option.isSome).length := by
  intro bodies
  induction bodies with
  | nil => intro data _; simp [readShards]
  | cons b bodies ih =>
    intro data hd
    cases data with
    | nil => simp [readShards]
    | cons d data =>
      have hd0 : d = [] := hd d (List.mem_cons_self _ _)
      have ih' := ih data (fun s hs => hd s (List.mem_cons_of_mem _ hs))
      unfold readShards at ih' ⊢
      subst hd0
      cases b with
      | none =>
        rw [List.zipWith_cons_cons, List.map_cons]
        show (List.filter p ([] :: _)).length ≤ _
        rw [List.filter_cons_of_neg (by simp [hp])]
        rw [List.filter_cons_of_neg (by simp)]
        exact ih'
      | some s =>
        rw [List.zipWith_cons_cons, List.map_cons]
        rw [List.filter_cons_of_pos (a := some s) (by simp)]
        rw [List.length_cons]
        have := List.length_filter_le p
          ((readShard size (some s) []).2 :: List.map Prod.snd
            (List.zipWith (readShard size) bodies data))
        rw [List.filter_cons]
        split
        · rw [List.length_cons]; omega
        · omega

theorem readShards_present_le (size : Nat) (bodies : List (Option (List Nat)))
    (data : List (List Nat)) (hd : ∀ s ∈ data, s = []) :
    (((readShards size bodies data).map Prod.snd).filter (fun s => s.length ≠ 0)).length
      ≤ (bodies.filter Option.isSome).length :=
  readShards_filter_le size (fun s => decide (s.length ≠ 0)) (by simp) bodies data hd

/-- C4: for every non-empty byte string `S` and valid `(k, m, chunkSize)`, with an
encoder that keeps the library's contract: when more than `m` of the `k+m`
readers passed to `ECGlue` are nil (fewer than `k` are present), `ECGlue`
returns a non-nil error and writes nothing, so it does not write `S`. -/
theorem ECGlue_too_few_readers (newEncoder : Nat → Nat → Except String Encoder)
    (enc : Encoder) (k m cs : Nat) (S : List Nat) (bodies : List (Option (List Nat)))
    (hnew : newEncoder k m = .ok enc) (hc : EncoderContract k m enc)
    (hS : S ≠ []) (hlen : bodies.length = k + m)
    (hfew : m < (bodies.filter Option.isNone).length) :
    (ECGlue newEncoder k m bodies cs S.length).err ≠ none ∧
    (ECGlue newEncoder k m bodies cs S.length).out = [] ∧
    (ECGlue newEncoder k m bodies cs S.length).out ≠ S := by
  have hpos : 0 < S.length := List.length_pos.mpr hS
  have hsome : (bodies.filter Option.isSome).length < k := by
    have h1 : (bodies.filter Option.isSome).length + (bodies.filter Option.isNone).length
        = bodies.length := by
      have := List.length_eq_length_filter_add (l := bodies) Option.isSome
      have h2 : bodies.filter (fun x => !Option.isSome x) = bodies.filter Option.isNone := by
        congr 1
        funext x
        cases x <;> rfl
      rw [h2] at this
      omega
    omega
  obtain ⟨f, hf⟩ : ∃ f, S.length = f + 1 := ⟨S.length - 1, by omega⟩
  have hfewR := readShards_present_le (expectedChunkSize k cs ((S.length : Int) - 0)) bodies
    (List.replicate (k + m) []) (fun s hs => (List.mem_replicate.mp hs).2)
  obtain ⟨e, he⟩ := hc.reconstruct_few _ (lt_of_le_of_lt hfewR hsome)
  have hres : ECGlue newEncoder k m bodies cs S.length = { err := some e, out := [] } := by
    unfold ECGlue
    simp only [hnew, Int.toNat_natCast]
    rw [hf, glueLoop]
    rw [← hf]
    have hlt : (0 : Int) < (S.length : Int) := by exact_mod_cast hpos
    simp only [hlt, if_true, he]
  rw [hres]
  exact ⟨by simp, rfl, fun h => hS h.symm⟩

/-! ## The theorems applied to concrete inputs -/

/-- C1, applied to the arrivals 201, 201, 500 with three replicas: the second 201
is returned. -/
theorem quorumTally_spec_witness :
    (1 ≤ 3 ∧ scenarioArrivals.length = 3) ∧
    ∃ n r, scenarioArrivals.get? n = some r ∧
      quorumTally 3 (scenarioArrivals.map some) = .returned r ∧
      quorumOf 3 ≤ classCount (statusClass r) scenarioArrivals ∧
      classCount (statusClass r) (scenarioArrivals.take (n + 1)) = quorumOf 3 ∧
      ∀ c, classCount c (scenarioArrivals.take n) < quorumOf 3 :=
  ⟨⟨by decide, rfl⟩,
   (quorumTally_spec 3 (by decide) scenarioArrivals rfl (by decide)).1 ⟨2, by decide⟩⟩

/-- C2, applied to the 26 letters with `k = 6`, `m = 4`, chunk size 4 and the
reference encoder. -/
theorem ECGlue_ECSplit_roundtrip_witness :
    (ECSplit rsNew 6 4 alphabet 4 alphabet.length).err = none ∧
    (ECSplit rsNew 6 4 alphabet 4 alphabet.length).written.length = 6 + 4 ∧
    ECGlue rsNew 6 4 ((ECSplit rsNew 6 4 alphabet 4 alphabet.length).written.map some) 4
      alphabet.length = { err := none, out := alphabet } :=
  ECGlue_ECSplit_roundtrip rsNew _ 6 4 4 alphabet (by decide) (by decide) (by decide)
    rsNew_6_4 (rsEncoder_contract 6 4 (by decide) rsMatrix_6_4_length)

set_option maxRecDepth 1000000 in
set_option maxHeartbeats 4000000 in
/-- C3 (failing input): the 26 letters, `k = 6`, `m = 4`, chunk size 4, the
streams 0, 3, 7 and 9 nil.  `ECSplit` returns nil; `ECGlue` writes the first
window of 24 bytes and fails in the second one, where the shards rebuilt in
the first window are still in `data` with their 4 bytes next to the 1-byte
shards just read.  With two full windows (`ABCD`, `k = 2`, `m = 1`, chunk size
1, stream 0 nil) the shard rebuilt in the first window is written again in the
second one: `ECGlue` returns nil and writes `ABAD`.  With one window (the
first 20 letters) the same four streams are tolerated. -/
theorem ECGlue_nil_stream_two_windows :
    (ECSplit rsNew 6 4 alphabet 4 26).err = none ∧
    ECGlue rsNew 6 4 (dropReaders [0, 3, 7, 9] (ECSplit rsNew 6 4 alphabet 4 26).written) 4 26
      = { err := some "shard sizes do not match", out := alphabet.take 24 } ∧
    ECGlue rsNew 2 1 (dropReaders [0] (ECSplit rsNew 2 1 [65, 66, 67, 68] 1 4).written) 1 4
      = { err := none, out := [65, 66, 65, 68] } ∧
    ECGlue rsNew 6 4
        (dropReaders [0, 3, 7, 9] (ECSplit rsNew 6 4 (alphabet.take 20) 4 20).written) 4 20
      = { err := none, out := alphabet.take 20 } := by
  decide

/-- C4, applied to ten readers of which five are nil, `k = 6`, `m = 4`. -/
theorem ECGlue_too_few_readers_witness :
    ([65] : List Nat) ≠ [] ∧ fiveMissing.length = 6 + 4 ∧
    4 < (fiveMissing.filter Option.isNone).length ∧
    (ECGlue rsNew 6 4 fiveMissing 4 ([65] : List Nat).length).err ≠ none ∧
    (ECGlue rsNew 6 4 fiveMissing 4 ([65] : List Nat).length).out = [] ∧
    (ECGlue rsNew 6 4 fiveMissing 4 ([65] : List Nat).length).out ≠ [65] :=
  ⟨by decide, rfl, by decide,
   ECGlue_too_few_readers rsNew _ 6 4 4 [65] fiveMissing rsNew_6_4
     (rsEncoder_contract 6 4 (by decide) rsMatrix_6_4_length) (by decide) rfl (by decide)⟩

/-- C5, applied to a run with two 404 responses, one transport error and one
builder error: a tie, and the result is the stub 503. -/
theorem firstResponse_exhausted_witness :
    ∃ res, mixedRun = some res ∧ receivedAcceptable res.log = false ∧
      count404 res.log = 2 ∧ countInternal res.log = 2 ∧
      res.resp = ResponseStub 503 "" :=
  ⟨_, rfl, by decide, by decide, by decide,
   (firstResponse_exhausted mixedEnv 3 0 testPrimaries [testDevice 4] (fun _ => 0)
      [some 0, some 0, some 0, some 0] _ rfl (by decide)).2.2.2.1 (by decide)⟩

/-- C6, applied to a run in which six devices answer 404. -/
theorem firstResponse_all_404_witness :
    ∃ res, notFoundRun = some res ∧ all404Run res.log = true ∧
      1 ≤ countLaunched res.log ∧ res.resp.StatusCode = 404 :=
  ⟨_, rfl, by decide, by decide,
   (firstResponse_all_404 notFoundEnv 3 0 testPrimaries
      [testDevice 4, testDevice 5, testDevice 6] (fun i => i)
      [none, some 1, some 0, some 0, some 0, some 0, some 0] _ rfl
      (by decide) (by decide)).2⟩

/-- C7, applied to a 200 response with the `Etag` `"abc"`: it is returned, with the
`Etag` `abc`. -/
theorem interpretResponse_spec_witness :
    (interpretResponse (some quotedEtagResponse) { notFounds := 0, internalErrors := 0 }).1
      ≠ none ∧
    ∀ out, (interpretResponse (some quotedEtagResponse)
        { notFounds := 0, internalErrors := 0 }).1 = some out →
      HeaderGet out.Header "Etag" = "abc" :=
  ⟨(interpretResponse_spec (some quotedEtagResponse) _).1.mpr
      ⟨quotedEtagResponse, rfl, Or.inl (by decide)⟩,
   fun out h => by
     obtain ⟨resp, hr, _, _, _, _, he, _⟩ :=
       (interpretResponse_spec (some quotedEtagResponse) _).2 out h
     cases hr
     exact (he (by decide)).1.trans (by decide)⟩

/-- C10, applied to a merge that brings a tombstone for a pending action. -/
theorem todoDoneDisjoint_invariant_witness :
    TodoDoneDisjoint pendingState ∧
    TodoDoneDisjoint (MergeState 100 pendingState staleDoneState) ∧
    TodoDoneDisjoint (MarkDone 100 pendingState "x") :=
  ⟨by decide, todoDoneDisjoint_invariant.2.1 100 pendingState staleDoneState (by decide),
   todoDoneDisjoint_invariant.2.2.1 100 pendingState "x" (by decide)⟩

/-! ## Gossip: the age of the entries kept in `Done` -/

/-- C11 (failing input): at the time 1700000000 a peer sends the entry
`x ↦ -7523372037`, a completion time that fits in an `int64` and lies
9223372037 seconds in the past.  The duration in nanoseconds wraps around to
a negative number, the test of the garbage collection is false and the entry
stays in `Done`, although it is older than 604800 seconds. -/
theorem MergeState_keeps_ancient_entry :
    -(2 : Int) ^ 63 ≤ -7523372037 ∧ (-7523372037 : Int) < 2 ^ 63 ∧
    (MergeState 1700000000 emptyState ancientDoneState).Done.lookup "x"
      = some (-7523372037) ∧
    ¬ ((1700000000 : Int) - (-7523372037) ≤ 604800) ∧
    tombstoneExpired 1700000000 (-7523372037) = false := by
  decide

/-- C12: after `MergeState` and before its garbage collection, `Friends` is
`g.Friends` overridden key by key by `rg.Friends`, `Done` is `g.Done`
overridden key by key by `rg.Done`, and `Todo` is `g.Todo` overridden by the
entries of `rg.Todo` whose id is not a key of the pre-merge `g.Done`, every id
that is a key of `rg.Done` being then removed; `MergeState` itself leaves
`Friends` and `Todo` as they are then, and changes nothing but these maps. -/
theorem mergeNoGC_spec (g rg : GossipState) (now : Int) (k : String) :
    (mergeNoGC g rg).Friends.lookup k = (rg.Friends.lookup k).or (g.Friends.lookup k) ∧
    (mergeNoGC g rg).Done.lookup k = (rg.Done.lookup k).or (g.Done.lookup k) ∧
    (mergeNoGC g rg).Todo.lookup k
      = (if (rg.Done.lookup k).isSome then none
         else if (g.Done.lookup k).isNone then (rg.Todo.lookup k).or (g.Todo.lookup k)
         else g.Todo.lookup k) ∧
    (MergeState now g rg).Friends = (mergeNoGC g rg).Friends ∧
    (MergeState now g rg).Todo = (mergeNoGC g rg).Todo ∧
    (MergeState now g rg).Done = collectDone now (mergeNoGC g rg).Done ∧
    (mergeNoGC g rg).selfName = g.selfName ∧ (mergeNoGC g rg).selfId = g.selfId := by
  refine ⟨?_, lookup_mergeNoGC_Done g rg k, ?_, rfl, rfl, rfl, rfl, rfl⟩
  · exact lookup_mergeFriends g.Friends rg.Friends k
  · exact lookup_MergeState_Todo now g rg k

/-! ## Quorum tally: masking of failures -/

/-- C13 (counterexample): two replicas, the quorum is 1; one worker reports 500,
which is at most `R - ceil(R/2) = 1` failure, and the other reports 201; when
the 500 arrives first it is the response returned. -/
theorem quorumTally_even_failure_not_masked :
    classCount 5 [plainResponse 500, plainResponse 201] ≤ 2 - quorumOf 2 ∧
    classCount 2 [plainResponse 500, plainResponse 201]
      + classCount 5 [plainResponse 500, plainResponse 201] = 2 ∧
    (∃ r, quorumTally 2 ([plainResponse 500, plainResponse 201].map some) = .returned r ∧
      r.StatusCode = 500) :=
  ⟨by decide, by decide, plainResponse 500, rfl, rfl⟩

/-- C13 (amended): for every replica count `R ≥ 1` and every arrival order of the
`R` worker responses, if fewer than `ceil(R/2)` of them are 5xx responses and
all the others are 2xx responses, the tally returns a 2xx response. -/
theorem quorumTally_masks_failures (R : Nat) (hR : 1 ≤ R) (arrivals : List Response)
    (hlen : arrivals.length = R)
    (hcls : ∀ r ∈ arrivals, statusClass r = 2 ∨ statusClass r = 5)
    (hfail : classCount 5 arrivals < quorumOf R) :
    ∃ r, r ∈ arrivals ∧ quorumTally R (arrivals.map some) = .returned r ∧
      statusClass r = 2 := by
  have hmain := tallyLoop_spec (quorumOf R) arrivals [] (fun _ => 0)
    (fun i => by simp [classCount])
    (fun r hr => by rcases hcls r hr with h | h <;> rw [h] <;> decide)
    (fun c => by
      have : 1 ≤ quorumOf R := by unfold quorumOf; omega
      simp [classCount]; omega)
  rw [hlen] at hmain
  simp only [List.nil_append] at hmain
  -- the responses are split between the classes 2 and 5
  have hsplit : classCount 2 arrivals + classCount 5 arrivals = arrivals.length := by
    clear hmain hfail hlen
    induction arrivals with
    | nil => simp [classCount]
    | cons a t ih =>
      have ih' := ih (fun r hr => hcls r (List.mem_cons_of_mem _ hr))
      unfold classCount at ih' ⊢
      rcases hcls a (List.mem_cons_self _ _) with h | h
      · simp only [List.countP_cons, h, List.length_cons]
        simp
        omega
      · simp only [List.countP_cons, h, List.length_cons]
        simp
        omega
  rcases hmain with h | ⟨n, r, h1, h2, h3, _⟩
  · exfalso
    have := h.2 2
    unfold quorumOf at this hfail
    omega
  · have hmem : r ∈ arrivals := List.get?_mem h1
    refine ⟨r, hmem, h2, ?_⟩
    rcases hcls r hmem with h | h
    · exact h
    · exfalso
      rw [h] at h3
      have := classCount_take_le 5 arrivals (n + 1)
      omega

/-! ## `ECSplit`: short reads -/

theorem splitLoop_err (enc : Encoder) (k m cs : Nat) (hk : 0 < k) (hcs : 0 < cs)
    (hc : EncoderContract k m enc) (cl : Int) :
    ∀ (fuel : Nat) (fp databuf : List Nat) (tr : Int),
      cl - tr ≤ fuel → databuf.length = (k + m) * cs →
      (splitLoop enc k m cs cl fuel fp databuf tr).err
        = if (fp.length : Int) < cl - tr then some "Short read" else none := by
  intro fuel
  induction fuel with
  | zero =>
    intro fp databuf tr hf _
    have hlt : ¬ tr < cl := by simp at hf; omega
    have h2 : ¬ (fp.length : Int) < cl - tr := by omega
    simp [splitLoop, hlt, h2]
  | succ fuel ih =>
    intro fp databuf tr hf hbuf
    by_cases hlt : tr < cl
    · set e : Nat := if cl - tr < ((k * cs : Nat) : Int) then (cl - tr).toNat else k * cs
        with he
      have hkc : 0 < k * cs := Nat.mul_pos hk hcs
      have he_pos : 0 < e := by rw [he]; split <;> omega
      have he_kc : e ≤ k * cs := by rw [he]; split <;> omega
      have he_le : (e : Int) ≤ cl - tr := by rw [he]; split <;> omega
      by_cases hw : (fp.take e).length = 0
      · have hfp : fp.length = 0 := by
          rw [List.length_take] at hw; omega
        rw [splitLoop]
        simp only [hlt, if_true, ← he, hw]
        rw [if_pos (by omega)]
      · have hwl : (fp.take e).length ≤ e := by rw [List.length_take]; omega
        have hwl2 : (fp.take e).length ≤ fp.length := by rw [List.length_take]; omega
        obtain ⟨sh, buf, hsw, _, _, _, _, hbufl⟩ :=
          splitWindow_ok enc k m cs hk hc (fp.take e) databuf (by omega) (by omega) hbuf
        have hrec := ih (fp.drop (fp.take e).length) buf (tr + ((fp.take e).length : Nat))
          (by push_cast at hf ⊢; omega) hbufl
        rw [splitLoop]
        simp only [hlt, if_true, ← he, hw, if_false, hsw, hrec, List.length_drop]
        have hcase : (fp.take e).length = min e fp.length := List.length_take _ _
        by_cases hshort : (fp.length : Int) < cl - tr
        · rw [if_pos hshort, if_pos (by omega)]
        · rw [if_neg hshort, if_neg (by omega)]
    · have h2 : ¬ (fp.length : Int) < cl - tr := by omega
      simp [splitLoop, hlt, h2]

/-- C16: for every `k ≥ 1`, `m ≥ 1`, `chunkSize ≥ 1` accepted by the codec, with
an encoder that keeps the library's contract, and every `contentLength ≥ 0`:
`ECSplit` terminates (the iteration bound of the embedding is never reached),
returns the error "Short read" when the source yields fewer than
`contentLength` bytes in total and nil when it yields at least
`contentLength` bytes. -/
theorem ECSplit_short_read (newEncoder : Nat → Nat → Except String Encoder)
    (enc : Encoder) (k m cs : Nat) (fp : List Nat) (contentLength : Int)
    (hk : 1 ≤ k) (hm : 1 ≤ m) (hcs : 1 ≤ cs) (hlen : 0 ≤ contentLength)
    (hnew : newEncoder k m = .ok enc) (hc : EncoderContract k m enc) :
    ((fp.length : Int) < contentLength →
      (ECSplit newEncoder k m fp cs contentLength).err = some "Short read") ∧
    (contentLength ≤ (fp.length : Int) →
      (ECSplit newEncoder k m fp cs contentLength).err = none) ∧
    (ECSplit newEncoder k m fp cs contentLength).err ≠ some "iteration bound reached" := by
  have _ := hm
  have h := splitLoop_err enc k m cs hk hcs hc contentLength contentLength.toNat fp
    (List.replicate ((k + m) * cs) 0) 0 (by omega) (by simp)
  have hres : (ECSplit newEncoder k m fp cs contentLength).err
      = if (fp.length : Int) < contentLength then some "Short read" else none := by
    unfold ECSplit
    simp only [hnew]
    rw [h]
    simp
  rw [hres]
  refine ⟨fun hs => by rw [if_pos hs], fun hs => by rw [if_neg (by omega)], ?_⟩
  split <;> simp

/-! ## `quorumResponse`: the workers -/

theorem workerLoop_stop (pre : List Response) (r : Response) (post : List Response)
    (hpre : ∀ x ∈ pre, commitsWorker x = false) (hr : commitsWorker r = true) :
    ∀ (resp firstResp : Option Response),
      workerLoop resp firstResp (pre ++ r :: post)
        = (some r, some (firstResp.getD ((pre ++ [r]).headD r))) := by
  induction pre with
  | nil =>
    intro resp firstResp
    cases firstResp <;> simp [workerLoop, hr]
  | cons a pre ih =>
    intro resp firstResp
    have ha := hpre a (List.mem_cons_self _ _)
    have ih' := ih (fun x hx => hpre x (List.mem_cons_of_mem _ hx))
    show workerLoop resp firstResp (a :: (pre ++ r :: post)) = _
    simp only [workerLoop, ha, Bool.false_eq_true, if_false]
    rw [ih']
    cases firstResp <;> simp

theorem workerLoop_exhausted (results : List Response)
    (h : ∀ x ∈ results, commitsWorker x = false) :
    ∀ (resp firstResp : Option Response),
      (workerLoop resp firstResp results).1 = (results.getLast?).or resp := by
  induction results with
  | nil => intro resp firstResp; simp [workerLoop]
  | cons a t ih =>
    intro resp firstResp
    have ha := h a (List.mem_cons_self _ _)
    simp only [workerLoop, ha, Bool.false_eq_true, if_false]
    rw [ih (fun x hx => h x (List.mem_cons_of_mem _ hx))]
    cases t with
    | nil => simp
    | cons b t =>
      rw [List.getLast?_cons_cons, List.getLast?_eq_getLast _ (List.cons_ne_nil b t)]
      simp

theorem exists_first_commit (results : List Response) :
    (∀ x ∈ results, commitsWorker x = false) ∨
    ∃ pre r post, results = pre ++ r :: post ∧ (∀ x ∈ pre, commitsWorker x = false) ∧
      commitsWorker r = true := by
  induction results with
  | nil => left; simp
  | cons a t ih =>
    cases ha : commitsWorker a with
    | true => right; exact ⟨[], a, t, rfl, by simp, ha⟩
    | false =>
      rcases ih with h | ⟨pre, r, post, h1, h2, h3⟩
      · left
        intro x hx
        rcases List.mem_cons.mp hx with rfl | hx
        · exact ha
        · exact h x hx
      · right
        refine ⟨a :: pre, r, post, by rw [h1]; rfl, ?_, h3⟩
        intro x hx
        rcases List.mem_cons.mp hx with rfl | hx
        · exact ha
        · exact h2 x hx

theorem commitsWorker_of_404 (r : Response) (h : r.StatusCode = 404) :
    commitsWorker r = true := by
  simp [commitsWorker, h]

/-- C20: a `quorumResponse` worker stops at the first result whose status is in
`[200,500)`; when that status is 404 it reports its first (primary) result
instead; so it reports status 404 only when its primary itself answered 404,
and when the primary answered 5xx and the handoff it stops at answered 404 it
reports the primary's 5xx response. -/
theorem quorumWorker_spec (first : Response) (rest : List Response) :
    (∀ pre r post, first :: rest = pre ++ r :: post →
      (∀ x ∈ pre, ¬ (200 ≤ x.StatusCode ∧ x.StatusCode < 500)) →
      200 ≤ r.StatusCode ∧ r.StatusCode < 500 →
      quorumWorker (first :: rest)
        = .returned (some (if r.StatusCode = 404 then first else r))) ∧
    (∀ r, quorumWorker (first :: rest) = .returned (some r) → r.StatusCode = 404 →
      r = first ∧ first.StatusCode = 404) ∧
    (∀ pre r post, rest = pre ++ r :: post → 500 ≤ first.StatusCode →
      (∀ x ∈ pre, ¬ (200 ≤ x.StatusCode ∧ x.StatusCode < 500)) →
      r.StatusCode = 404 →
      quorumWorker (first :: rest) = .returned (some first) ∧ 500 ≤ first.StatusCode) := by
  have key : ∀ pre r post, first :: rest = pre ++ r :: post →
      (∀ x ∈ pre, commitsWorker x = false) → commitsWorker r = true →
      quorumWorker (first :: rest)
        = .returned (some (if r.StatusCode = 404 then first else r)) := by
    intro pre r post hsplit hpre hr
    have hhead : (pre ++ [r]).headD r = first := by
      cases pre with
      | nil => simp at hsplit; simp [hsplit.1]
      | cons a pre => simp at hsplit; simp [hsplit.1]
    unfold quorumWorker
    rw [hsplit, workerLoop_stop pre r post hpre hr none none]
    simp only [Option.getD_none, hhead]
    split <;> rfl
  have conv : ∀ x : Response, ¬ (200 ≤ x.StatusCode ∧ x.StatusCode < 500) →
      commitsWorker x = false := by
    intro x hx
    cases hc : commitsWorker x
    · rfl
    · exfalso
      apply hx
      simpa [commitsWorker] using hc
  refine ⟨?_, ?_, ?_⟩
  · intro pre r post hsplit hpre hr
    exact key pre r post hsplit (fun x hx => conv x (hpre x hx))
      (by simp [commitsWorker, hr.1, hr.2])
  · intro r hret h404
    rcases exists_first_commit (first :: rest) with hall | ⟨pre, s, post, h1, h2, h3⟩
    · exfalso
      have hlast := workerLoop_exhausted (first :: rest) hall none none
      unfold quorumWorker at hret
      cases hw : workerLoop none none (first :: rest) with
      | mk resp fr =>
        rw [hw] at hret hlast
        simp only at hlast
        cases resp with
        | none => simp at hret
        | some resp =>
          have hmem : resp ∈ first :: rest := by
            have : (first :: rest).getLast? = some resp := by
              cases hl : (first :: rest).getLast? with
              | none => simp at hl
              | some l => rw [hl] at hlast; simpa using hlast.symm
            exact List.mem_of_getLast?_eq_some this
          have hno := hall resp hmem
          have hne : resp.StatusCode ≠ 404 := by
            intro h4
            rw [commitsWorker_of_404 resp h4] at hno
            cases hno
          simp only [hne, if_false] at hret
          injection hret with hret
          injection hret with hret
          rw [hret] at hne
          exact hne h404
    · have hk := key pre s post h1 h2 h3
      rw [hk] at hret
      injection hret with hret
      injection hret with hret
      by_cases hs : s.StatusCode = 404
      · rw [if_pos hs] at hret
        exact ⟨hret.symm, by rw [hret]; exact h404⟩
      · rw [if_neg hs] at hret
        rw [hret] at hs
        exact absurd h404 hs
  · intro pre r post hrest h5 hpre h404
    have hfirst : commitsWorker first = false := conv first (by omega)
    have hk := key (first :: pre) r post (by rw [hrest]; rfl)
      (by
        intro x hx
        rcases List.mem_cons.mp hx with rfl | hx
        · exact hfirst
        · exact conv x (hpre x hx))
      (commitsWorker_of_404 r h404)
    rw [hk, if_pos h404]
    exact ⟨rfl, h5⟩

/-! ## `addUpdateHeaders` -/

theorem decimalDigits_last (fuel n : Nat) :
    ∃ pre, decimalDigits fuel n = pre ++ [Char.ofNat (48 + n % 10)] := by
  cases fuel with
  | zero => exact ⟨[], rfl⟩
  | succ fuel => exact ⟨_, rfl⟩

theorem digit_ne_comma : ∀ r, r < 10 → Char.ofNat (48 + r) ≠ Char.ofNat 44 := by
  decide

theorem hostOf_last (d : Device) :
    ∃ pre c, (hostOf d).data = pre ++ [c] ∧ c ≠ Char.ofNat 44 := by
  obtain ⟨pre, hpre⟩ := decimalDigits_last d.Port.natAbs d.Port.natAbs
  refine ⟨d.Ip.data ++ ":".data ++ (if d.Port < 0 then [Char.ofNat 45] else []) ++ pre,
    Char.ofNat (48 + d.Port.natAbs % 10), ?_, digit_ne_comma _ (Nat.mod_lt _ (by decide))⟩
  simp only [hostOf, formatInt, String.data_append, hpre]
  simp [List.append_assoc]

theorem commaFree_last (s : String) (h : commaFree s) :
    ∃ pre c, s.data = pre ++ [c] ∧ c ≠ Char.ofNat 44 := by
  have hne : s.data ≠ [] := by
    intro h0
    apply h.1
    exact String.ext h0
  refine ⟨s.data.dropLast, s.data.getLast hne, (List.dropLast_append_getLast hne).symm, ?_⟩
  intro hc
  exact h.2 (hc ▸ List.getLast_mem hne)

theorem joinComma_cons (x : String) (xs : List String) (h : xs ≠ []) :
    joinComma (x :: xs) = x ++ "," ++ joinComma xs := by
  cases xs with
  | nil => exact absurd rfl h
  | cons y r => rfl

theorem join_map_comma (xs : List String) (h : xs ≠ []) :
    concatAll (xs.map (fun x => x ++ ",")) = joinComma xs ++ "," := by
  induction xs with
  | nil => exact absurd rfl h
  | cons x xs ih =>
    cases xs with
    | nil => simp [concatAll, joinComma]
    | cons y r =>
      have := ih (List.cons_ne_nil y r)
      rw [List.map_cons, joinComma_cons x (y :: r) (List.cons_ne_nil y r), concatAll, this]
      simp only [String.append_assoc]

theorem joinComma_last (f : Device → String) (ds : List Device) (hne : ds ≠ [])
    (hf : ∀ d ∈ ds, ∃ pre c, (f d).data = pre ++ [c] ∧ c ≠ Char.ofNat 44) :
    ∃ pre c, (joinComma (ds.map f)).data = pre ++ [c] ∧ c ≠ Char.ofNat 44 := by
  induction ds with
  | nil => exact absurd rfl hne
  | cons d ds ih =>
    cases ds with
    | nil => simpa [joinComma] using hf d (List.mem_cons_self _ _)
    | cons e r =>
      obtain ⟨pre, c, h1, h2⟩ := ih (List.cons_ne_nil e r)
        (fun x hx => hf x (List.mem_cons_of_mem _ hx))
      refine ⟨(f d).data ++ ",".data ++ pre, c, ?_, h2⟩
      rw [List.map_cons, joinComma_cons _ _ (by simp), String.data_append, String.data_append, h1]
      simp [List.append_assoc]

theorem trimRightCommas_join (f : Device → String) (ds : List Device) (hne : ds ≠ [])
    (hf : ∀ d ∈ ds, ∃ pre c, (f d).data = pre ++ [c] ∧ c ≠ Char.ofNat 44) :
    trimRightCommas (concatAll (ds.map (fun d => f d ++ ","))) = joinComma (ds.map f) := by
  have hmap : ds.map (fun d => f d ++ ",") = (ds.map f).map (fun x => x ++ ",") := by
    rw [List.map_map]; rfl
  rw [hmap, join_map_comma _ (by simpa using hne)]
  obtain ⟨pre, c, h1, h2⟩ := joinComma_last f ds hne hf
  apply String.ext
  simp only [trimRightCommas, String.data_append, h1]
  show List.rdropWhile (fun c => c == Char.ofNat 44) (pre ++ [c] ++ [Char.ofNat 44]) = pre ++ [c]
  rw [List.rdropWhile_concat_pos _ _ _ (by simp)]
  rw [List.rdropWhile_concat_neg _ _ _ (by simpa using h2)]

theorem stripe_filterMap (devices : List Device) (i n : Nat) :
    stripeOf devices i n
      = (List.range devices.length).filterMap (fun p => devices.get? (i + p * n)) := by
  unfold stripeOf stripeIndices
  rw [List.filterMap_filterMap]
  apply List.filterMap_congr
  intro p _
  by_cases h : i + p * n < devices.length
  · simp [h]
  · simp only [h, if_false, Option.bind_none]
    exact (List.get?_eq_none.mpr (by omega)).symm

theorem filterMap_range_succ (devices : List Device) (i n fuel : Nat) :
    (List.range (fuel + 1)).filterMap (fun p => devices.get? (i + p * n))
      = (devices.get? i).toList
        ++ (List.range fuel).filterMap (fun p => devices.get? (i + n + p * n)) := by
  rw [List.range_succ_eq_map, List.filterMap_cons]
  have h0 : devices.get? (i + 0 * n) = devices.get? i := by simp
  have hrest : List.filterMap (fun p => devices.get? (i + p * n)) (List.map Nat.succ (List.range fuel))
      = List.filterMap (fun p => devices.get? (i + n + p * n)) (List.range fuel) := by
    rw [List.filterMap_map]
    apply List.filterMap_congr
    intro p _
    simp only [Function.comp, Nat.succ_eq_add_one]
    congr 1
    ring
  rw [h0, hrest]
  cases devices.get? i <;> simp

theorem updateHeadersLoop_spec (devices : List Device) (n : Nat) (hn : 1 ≤ n) :
    ∀ (fuel i : Nat) (acc : String × String × String), devices.length ≤ i + fuel →
      updateHeadersLoop devices n fuel i acc
        = some
          (acc.1 ++ concatAll (((List.range fuel).filterMap
              (fun p => devices.get? (i + p * n))).map (fun d => hostOf d ++ ",")),
           acc.2.1 ++ concatAll (((List.range fuel).filterMap
              (fun p => devices.get? (i + p * n))).map (fun d => d.Device ++ ",")),
           acc.2.2 ++ concatAll (((List.range fuel).filterMap
              (fun p => devices.get? (i + p * n))).map (fun d => d.Scheme ++ ","))) := by
  intro fuel
  induction fuel with
  | zero =>
    intro i acc h
    simp only [updateHeadersLoop]
    rw [if_neg (by omega)]
    simp only [List.range_zero, List.filterMap_nil, List.map_nil, concatAll,
      String.append_empty]
  | succ fuel ih =>
    intro i acc h
    rw [filterMap_range_succ]
    cases hd : devices.get? i with
    | none =>
      have hi : devices.length ≤ i := List.get?_eq_none.mp hd
      have hnil : (List.range fuel).filterMap (fun p => devices.get? (i + n + p * n)) = [] := by
        rw [List.filterMap_eq_nil_iff]
        intro p _
        exact List.get?_eq_none.mpr (by omega)
      simp only [updateHeadersLoop, hd, hnil, Option.toList_none, List.nil_append,
        List.map_nil, concatAll, String.append_empty]
    | some d =>
      simp only [updateHeadersLoop, hd]
      rw [ih (i + n) _ (by omega)]
      simp only [Option.toList_some, List.singleton_append, List.map_cons, concatAll,
        String.append_assoc]
      rfl


theorem mem_stripeIndices (len i n j : Nat) (hn : 1 ≤ n) (hi : i < n) :
    j ∈ stripeIndices len i n ↔ j < len ∧ j % n = i := by
  unfold stripeIndices
  rw [List.mem_filterMap]
  constructor
  · rintro ⟨p, _, hp⟩
    by_cases hlt : i + p * n < len
    · rw [if_pos hlt] at hp
      injection hp with hp
      subst hp
      refine ⟨hlt, ?_⟩
      rw [Nat.add_mul_mod_self_right]
      exact Nat.mod_eq_of_lt hi
    · rw [if_neg hlt] at hp
      cases hp
  · rintro ⟨hj, hmod⟩
    have hdm := Nat.div_add_mod j n
    have hle : j / n ≤ j := Nat.div_le_self j n
    have heq : i + j / n * n = j := by
      rw [← hmod, Nat.mul_comm]; omega
    refine ⟨j / n, List.mem_range.mpr (by omega), ?_⟩
    rw [heq, if_pos hj]

/-- C19: for devices whose scheme, ip and device name are non-empty and
comma-free, a replica count `n ≥ 1` and an index `i < n`: when
`i < len(devices)`, `addUpdateHeaders` binds `<prefix>-Host`,
`<prefix>-Device` and `<prefix>-Scheme` to the comma-joined values (the host
as `ip:port`) of the devices `i, i+n, i+2n, ...` in that order and leaves
every other key as it is; when `i ≥ len(devices)` it sets no header; and the
device at index `j` is among the devices of index `i` exactly when
`i = j mod n`. -/
theorem addUpdateHeaders_spec (canonicalKey : String → String) (pfx : String)
    (headers : Header) (devices : List Device) (i n : Nat)
    (hdev : ∀ d ∈ devices, commaFree d.Scheme ∧ commaFree d.Ip ∧ commaFree d.Device)
    (hn : 1 ≤ n) (hi : i < n)
    (hk1 : canonicalKey (pfx ++ "-Host") ≠ canonicalKey (pfx ++ "-Device"))
    (hk2 : canonicalKey (pfx ++ "-Scheme") ≠ canonicalKey (pfx ++ "-Host"))
    (hk3 : canonicalKey (pfx ++ "-Scheme") ≠ canonicalKey (pfx ++ "-Device")) :
    (i < devices.length →
      ∃ out, addUpdateHeaders canonicalKey pfx headers devices i n = some out ∧
        out.lookup (canonicalKey (pfx ++ "-Host"))
          = some [joinComma ((stripeOf devices i n).map hostOf)] ∧
        out.lookup (canonicalKey (pfx ++ "-Device"))
          = some [joinComma ((stripeOf devices i n).map (fun d => d.Device))] ∧
        out.lookup (canonicalKey (pfx ++ "-Scheme"))
          = some [joinComma ((stripeOf devices i n).map (fun d => d.Scheme))] ∧
        ∀ k, k ≠ canonicalKey (pfx ++ "-Host") → k ≠ canonicalKey (pfx ++ "-Device") →
          k ≠ canonicalKey (pfx ++ "-Scheme") → out.lookup k = headers.lookup k) ∧
    (devices.length ≤ i → addUpdateHeaders canonicalKey pfx headers devices i n = some headers) ∧
    (∀ j, j ∈ stripeIndices devices.length i n ↔ j < devices.length ∧ j % n = i) := by
  refine ⟨?_, ?_, fun j => mem_stripeIndices devices.length i n j hn hi⟩
  · intro hlt
    have hloop := updateHeadersLoop_spec devices n hn devices.length i ("", "", "") (by omega)
    rw [← stripe_filterMap] at hloop
    have hmem : ∀ d ∈ stripeOf devices i n, d ∈ devices := by
      intro d hd
      unfold stripeOf at hd
      rw [List.mem_filterMap] at hd
      obtain ⟨j, _, hj⟩ := hd
      exact List.get?_mem hj
    have hne : stripeOf devices i n ≠ [] := by
      rw [stripe_filterMap]
      obtain ⟨len, hlen⟩ : ∃ l, devices.length = l + 1 := ⟨devices.length - 1, by omega⟩
      rw [hlen, filterMap_range_succ]
      obtain ⟨d, hd⟩ : ∃ d, devices.get? i = some d := by
        cases hg : devices.get? i with
        | none => have := List.get?_eq_none.mp hg; omega
        | some d => exact ⟨d, rfl⟩
      rw [hd]
      simp
    have hhost := trimRightCommas_join hostOf (stripeOf devices i n) hne
      (fun d _ => hostOf_last d)
    have hdevn := trimRightCommas_join (fun d => d.Device) (stripeOf devices i n) hne
      (fun d hd => commaFree_last _ (hdev d (hmem d hd)).2.2)
    have hsch := trimRightCommas_join (fun d => d.Scheme) (stripeOf devices i n) hne
      (fun d hd => commaFree_last _ (hdev d (hmem d hd)).1)
    unfold addUpdateHeaders
    rw [if_pos hlt, hloop]
    simp only [String.empty_append, hhost, hdevn, hsch]
    refine ⟨_, rfl, ?_, ?_, ?_, ?_⟩
    · unfold HeaderSet
      rw [AList.lookup_insert_ne hk1, AList.lookup_insert]
    · unfold HeaderSet
      rw [AList.lookup_insert]
    · unfold HeaderSet
      rw [AList.lookup_insert_ne hk3, AList.lookup_insert_ne hk2, AList.lookup_insert]
    · intro k h1 h2 h3
      unfold HeaderSet
      rw [AList.lookup_insert_ne h2, AList.lookup_insert_ne h1, AList.lookup_insert_ne h3]
  · intro hge
    unfold addUpdateHeaders
    rw [if_neg (by omega)]

/-! ## Paths: the gossip route and the nursery directory -/

/-- C17 (failing input): `Gossip` posts to `http://10.0.0.1:6000/gossip`, while
`RegisterHandlers` registers `gossipHandler` for `POST /ec-gossip`; no route
registered matches `POST /gossip`, so the request is not routed to
`gossipHandler`. -/
theorem gossip_post_not_routed :
    gossipURL "10.0.0.1" 6000 = "http://10.0.0.1:6000/gossip" ∧
    routeFor "POST" gossipPostPath = none ∧
    routeFor "POST" "/ec-gossip" = some "gossipHandler" ∧
    (∀ r ∈ registeredRoutes, r.2.2 = "gossipHandler" → r.2.1 ≠ gossipPostPath) := by
  decide

theorem joinPath_cons (x : String) (xs : List String) (h : xs ≠ []) :
    joinPath (x :: xs) = x ++ "/" ++ joinPath xs := by
  cases xs with
  | nil => exact absurd rfl h
  | cons y r => rfl

theorem joinPath_head (x : String) (xs : List String) (c : Char) (cs : List Char)
    (hx : x.data = c :: cs) : ∃ t, (joinPath (x :: xs)).data = c :: t := by
  cases xs with
  | nil => exact ⟨cs, hx⟩
  | cons y r =>
    refine ⟨cs ++ "/".data ++ (joinPath (y :: r)).data, ?_⟩
    rw [joinPath_cons _ _ (List.cons_ne_nil y r), String.data_append, String.data_append, hx]
    simp

theorem joinPath_diverge (P : List String) (x y : String) (xs ys : List String)
    (c1 c2 : Char) (t1 t2 : List Char) (hx : x.data = c1 :: t1) (hy : y.data = c2 :: t2)
    (hne : c1 ≠ c2) : joinPath (P ++ x :: xs) ≠ joinPath (P ++ y :: ys) := by
  induction P with
  | nil =>
    intro h
    obtain ⟨u1, h1⟩ := joinPath_head x xs c1 t1 hx
    obtain ⟨u2, h2⟩ := joinPath_head y ys c2 t2 hy
    have := congrArg String.data h
    simp only [List.nil_append] at this
    rw [h1, h2] at this
    injection this with hc _
    exact hne hc
  | cons p P ih =>
    intro h
    rw [List.cons_append, List.cons_append, joinPath_cons _ _ (by simp),
      joinPath_cons _ _ (by simp)] at h
    apply ih
    have := congrArg String.data h
    simp only [String.data_append] at this
    exact String.ext (List.append_cancel_left this)

theorem joinPath_append_singleton (l : List String) (x : String) (h : l ≠ []) :
    joinPath (l ++ [x]) = joinPath l ++ "/" ++ x := by
  induction l with
  | nil => exact absurd rfl h
  | cons a l ih =>
    cases l with
    | nil => rfl
    | cons b r =>
      have := ih (List.cons_ne_nil b r)
      rw [List.cons_append, joinPath_cons _ _ (by simp), this,
        joinPath_cons _ _ (List.cons_ne_nil b r)]
      simp only [String.append_assoc]

/-- C18 (failing input, for every drive root, device and hash): the directory in
which a `HeckObject` commits, `<driveRoot>/<device>/ec/nursery/<hash>`, is not
the directory `<driveRoot>/<device>/nursery` that `ecNurseryHandler`
enumerates followed by one name, whatever the name: the handler leaves out the
component `ec`. -/
theorem nurseryPath_not_enumerated (driveRoot device hash name : String) :
    nurseryPathOf driveRoot device hash
      ≠ filepathJoin [nurseryDirEnumerated driveRoot device, name] ∧
    nurseryDirEnumerated driveRoot device ≠ filepathJoin [driveRoot, device, "ec", "nursery"] ∧
    nurseryPathOf "/srv/node" "sda" "d41d8cd98f00b204e9800998ecf8427e"
      = "/srv/node/sda/ec/nursery/d41d8cd98f00b204e9800998ecf8427e" ∧
    nurseryDirEnumerated "/srv/node" "sda" = "/srv/node/sda/nursery" := by
  have hec : "ec".data = Char.ofNat 101 :: [Char.ofNat 99] := by decide
  have hnu : "nursery".data = Char.ofNat 110 :: "ursery".data := by decide
  have hcne : Char.ofNat 101 ≠ Char.ofNat 110 := by decide
  -- the non-empty elements among `driveRoot` and `device`
  obtain ⟨P, hP⟩ : ∃ P : List String,
      ∀ rest : List String, (∀ e ∈ rest, e ≠ "") →
        ([driveRoot, device] ++ rest).filter (fun e => decide (e ≠ "")) = P ++ rest := by
    refine ⟨[driveRoot, device].filter (fun e => decide (e ≠ "")), ?_⟩
    intro rest hrest
    rw [List.filter_append]
    congr 1
    rw [List.filter_eq_self]
    intro e he
    exact decide_eq_true (hrest e he)
  have hdir : nurseryDirEnumerated driveRoot device = joinPath (P ++ ["nursery"]) := by
    unfold nurseryDirEnumerated filepathJoin
    exact congrArg joinPath (hP ["nursery"] (by decide))
  have hecdir : filepathJoin [driveRoot, device, "ec", "nursery"]
      = joinPath (P ++ ["ec", "nursery"]) := by
    unfold filepathJoin
    exact congrArg joinPath (hP ["ec", "nursery"] (by decide))
  have hnp : nurseryPathOf driveRoot device hash
      = joinPath (P ++ "ec" :: "nursery" :: [hash].filter (fun e => decide (e ≠ ""))) := by
    unfold nurseryPathOf filepathJoin
    by_cases hh : hash = ""
    · subst hh
      have := hP ["ec", "nursery"] (by decide)
      rw [show [driveRoot, device, "ec", "nursery", ""]
          = ([driveRoot, device] ++ ["ec", "nursery"]) ++ [""] from rfl, List.filter_append,
        this]
      simp
    · have := hP ["ec", "nursery", hash] (by
        intro e he
        simp only [List.mem_cons, List.mem_singleton, List.not_mem_nil, or_false] at he
        rcases he with rfl | rfl | rfl
        · decide
        · decide
        · exact hh)
      rw [show [driveRoot, device, "ec", "nursery", hash]
          = [driveRoot, device] ++ ["ec", "nursery", hash] from rfl, this]
      simp [hh]
  refine ⟨?_, ?_, by decide, by decide⟩
  · rw [hnp, hdir]
    have hne : joinPath (P ++ ["nursery"]) ≠ "" := by
      intro h0
      have h1 := joinPath_diverge P "nursery" "ec" [] [] _ _ _ _ hnu hec (Ne.symm hcne)
      cases P with
      | nil => revert h0; decide
      | cons p P =>
        rw [List.cons_append, joinPath_cons _ _ (by simp)] at h0
        have := congrArg String.data h0
        simp only [String.data_append] at this
        simp at this
    unfold filepathJoin
    by_cases hn : name = ""
    · subst hn
      have hf : [joinPath (P ++ ["nursery"]), ""].filter (fun e => decide (e ≠ ""))
          = [joinPath (P ++ ["nursery"])] := by
        simp [hne]
      rw [hf]
      exact joinPath_diverge P "ec" "nursery" _ [] _ _ _ _ hec hnu hcne
    · have hf : [joinPath (P ++ ["nursery"]), name].filter (fun e => decide (e ≠ ""))
          = [joinPath (P ++ ["nursery"]), name] := by
        simp [hne, hn]
      rw [hf]
      have hj : joinPath [joinPath (P ++ ["nursery"]), name]
          = joinPath (P ++ "nursery" :: [name]) := by
        have e1 : joinPath [joinPath (P ++ ["nursery"]), name]
            = joinPath (P ++ ["nursery"]) ++ "/" ++ name := rfl
        have e2 : P ++ "nursery" :: [name] = (P ++ ["nursery"]) ++ [name] := by simp
        rw [e1, e2, joinPath_append_singleton (P ++ ["nursery"]) name (by simp)]
      rw [hj]
      exact joinPath_diverge P "ec" "nursery" _ _ _ _ _ _ hec hnu hcne
  · rw [hdir, hecdir]
    exact joinPath_diverge P "nursery" "ec" _ _ _ _ _ _ hnu hec (Ne.symm hcne)

/-! ## The container-info cache -/

theorem invalidate_lookup (c : CacheState) (account container : String) :
    (∀ lc, c.lc = some lc →
      ∃ lc', (invalidateContainerInfo c account container).lc = some lc' ∧
        lc'.lookup (containerKey account container) = none ∧
        ∀ k, k ≠ containerKey account container → lc'.lookup k = lc.lookup k) ∧
    (c.lc = none → (invalidateContainerInfo c account container).lc = none) ∧
    (∀ mc, c.mc = some mc →
      ∃ mc', (invalidateContainerInfo c account container).mc = some mc' ∧
        mc'.lookup (containerKey account container) = none ∧
        ∀ k, k ≠ containerKey account container → mc'.lookup k = mc.lookup k) ∧
    (c.mc = none → (invalidateContainerInfo c account container).mc = none) := by
  refine ⟨?_, ?_, ?_, ?_⟩
  · intro lc h
    refine ⟨lc.erase (containerKey account container), by simp [invalidateContainerInfo, h],
      AList.lookup_erase _ _, fun k hk => AList.lookup_erase_ne hk⟩
  · intro h; simp [invalidateContainerInfo, h]
  · intro mc h
    refine ⟨mc.erase (containerKey account container), by simp [invalidateContainerInfo, h],
      AList.lookup_erase _ _, fun k hk => AList.lookup_erase_ne hk⟩
  · intro h; simp [invalidateContainerInfo, h]

theorem GetContainerInfo_after_invalidate (headContainer : String → String → Response)
    (c : CacheState) (account container : String) :
    (GetContainerInfo headContainer (invalidateContainerInfo c account container)
        account container).headSent = true ∧
    (GetContainerInfo headContainer (invalidateContainerInfo c account container)
        account container).info
      = (if (headContainer account container).StatusCode.tdiv 100 ≠ 2 then
          .error "error retrieving info for container"
        else
          (SetContainerInfo (invalidateContainerInfo c account container) account container
            (headContainer account container)).map Prod.fst) := by
  obtain ⟨h1, h2, h3, h4⟩ := invalidate_lookup c account container
  have hlc : (invalidateContainerInfo c account container).lc.bind
      (fun lc => lc.lookup (containerKey account container)) = none := by
    cases hc : c.lc with
    | none => rw [h2 hc]; rfl
    | some lc =>
      obtain ⟨lc', e1, e2, _⟩ := h1 lc hc
      rw [e1]; exact e2
  have hmc : (invalidateContainerInfo c account container).mc.bind
      (fun mc => (mc.lookup (containerKey account container)).map LocalEntry.info) = none := by
    cases hc : c.mc with
    | none => rw [h4 hc]; rfl
    | some mc =>
      obtain ⟨mc', e1, e2, _⟩ := h3 mc hc
      rw [e1]
      show Option.map LocalEntry.info (mc'.lookup (containerKey account container)) = none
      rw [e2]; rfl
  unfold GetContainerInfo
  simp only [hlc, hmc]
  by_cases hs : (headContainer account container).StatusCode.tdiv 100 ≠ 2
  · simp only [hs, if_true, ne_eq, not_false_eq_true, and_self]
  · simp only [hs, if_false]
    cases hset : SetContainerInfo (invalidateContainerInfo c account container) account
        container (headContainer account container) with
    | error e => exact ⟨rfl, rfl⟩
    | ok p => exact ⟨rfl, rfl⟩

/-- C14: for every cache state and every (account, container): after
`PutContainer`, `PostContainer` or `DeleteContainer` returns, neither the
process-local map nor the shared cache holds an entry under
`container/<account>/<container>`, the entries under every other key are
unchanged (a nil map or an absent shared cache stays so), and the next
`GetContainerInfo` for the pair sends a HEAD to the backend and returns what
that response gives, not a cached value. -/
theorem container_write_invalidates (backend : Response) (c : CacheState)
    (account container : String) (headContainer : String → String → Response) :
    (proxyPutContainer backend c account container).2
      = invalidateContainerInfo c account container ∧
    (proxyPostContainer backend c account container).2
      = invalidateContainerInfo c account container ∧
    (proxyDeleteContainer backend c account container).2
      = invalidateContainerInfo c account container ∧
    localLookup (invalidateContainerInfo c account container) (containerKey account container)
      = none ∧
    sharedLookup (invalidateContainerInfo c account container) (containerKey account container)
      = none ∧
    (∀ k, k ≠ containerKey account container →
      localLookup (invalidateContainerInfo c account container) k = localLookup c k ∧
      sharedLookup (invalidateContainerInfo c account container) k = sharedLookup c k) ∧
    (invalidateContainerInfo c account container).lc.isSome = c.lc.isSome ∧
    (invalidateContainerInfo c account container).mc.isSome = c.mc.isSome ∧
    (GetContainerInfo headContainer (invalidateContainerInfo c account container)
        account container).headSent = true ∧
    (GetContainerInfo headContainer (invalidateContainerInfo c account container)
        account container).info
      = (if (headContainer account container).StatusCode.tdiv 100 ≠ 2 then
          .error "error retrieving info for container"
        else
          (SetContainerInfo (invalidateContainerInfo c account container) account container
            (headContainer account container)).map Prod.fst) := by
  obtain ⟨h1, h2, h3, h4⟩ := invalidate_lookup c account container
  obtain ⟨h5, h6⟩ := GetContainerInfo_after_invalidate headContainer c account container
  refine ⟨rfl, rfl, rfl, ?_, ?_, ?_, ?_, ?_, h5, h6⟩
  · cases hc : c.lc with
    | none => simp [localLookup, h2 hc]
    | some lc =>
      obtain ⟨lc', e1, e2, _⟩ := h1 lc hc
      simp [localLookup, e1, e2]
  · cases hc : c.mc with
    | none => simp [sharedLookup, h4 hc]
    | some mc =>
      obtain ⟨mc', e1, e2, _⟩ := h3 mc hc
      simp [sharedLookup, e1, e2]
  · intro k hk
    constructor
    · cases hc : c.lc with
      | none => simp [localLookup, h2 hc, hc]
      | some lc =>
        obtain ⟨lc', e1, _, e3⟩ := h1 lc hc
        simp [localLookup, e1, hc, e3 k hk]
    · cases hc : c.mc with
      | none => simp [sharedLookup, h4 hc, hc]
      | some mc =>
        obtain ⟨mc', e1, _, e3⟩ := h3 mc hc
        simp [sharedLookup, e1, hc, e3 k hk]
  · cases hc : c.lc <;> simp [invalidateContainerInfo, hc]
  · cases hc : c.mc <;> simp [invalidateContainerInfo, hc]

/-- C14, applied to a cache that holds the containers `a/c` and `a/d` in both
tiers: after a write to `a/c` the entries of `a/d` are still there, and a
lookup of `a/c` on a backend answering 404 is an error, not the info that was
cached. -/
theorem container_write_invalidates_witness :
    (GetContainerInfo headGone warmCache "a" "c").headSent = false ∧
    (localLookup (invalidateContainerInfo warmCache "a" "c") (containerKey "a" "d")
        = localLookup warmCache (containerKey "a" "d") ∧
      sharedLookup (invalidateContainerInfo warmCache "a" "c") (containerKey "a" "d")
        = sharedLookup warmCache (containerKey "a" "d")) ∧
    (GetContainerInfo headGone (invalidateContainerInfo warmCache "a" "c") "a" "c").headSent
      = true :=
  ⟨rfl,
   (container_write_invalidates (plainResponse 204) warmCache "a" "c" headGone).2.2.2.2.2.1
     (containerKey "a" "d") (by decide),
   (container_write_invalidates (plainResponse 204) warmCache "a" "c" headGone).2.2.2.2.2.2.2.2.1⟩

/-! ## `repairObject` -/

theorem cutSlash_append (a rest : List Char) (ha : Char.ofNat 47 ∉ a) :
    cutSlash (a ++ Char.ofNat 47 :: rest) = (a, some rest) := by
  induction a with
  | nil => simp [cutSlash]
  | cons c cs ih =>
    have hc : c ≠ Char.ofNat 47 := fun h => ha (by simp [h])
    have hcs : Char.ofNat 47 ∉ cs := fun h => ha (by simp [h])
    show cutSlash (c :: (cs ++ Char.ofNat 47 :: rest)) = _
    simp only [cutSlash, hc, if_false, ih hcs, List.cons]

theorem splitN_entry (account container object : String)
    (ha : Char.ofNat 47 ∉ account.data) (hc : Char.ofNat 47 ∉ container.data) :
    splitN 4 ("/" ++ account ++ "/" ++ container ++ "/" ++ object).data
      = ["", account, container, object] := by
  have e : ("/" ++ account ++ "/" ++ container ++ "/" ++ object).data
      = [] ++ Char.ofNat 47 :: (account.data ++ Char.ofNat 47 ::
          (container.data ++ Char.ofNat 47 :: object.data)) := by
    simp [String.data_append]
  rw [e]
  simp only [splitN, cutSlash_append [] _ (by simp), cutSlash_append _ _ ha,
    cutSlash_append _ _ hc]
  simp [splitN]

theorem headLoop_all_404 (env : RepairEnv) (partition : Nat) (account container object : String)
    (nodes : List Device) :
    ∀ (t : HeadTally) (log : List Request),
    (∀ d ∈ nodes, env.newRequest "HEAD" (itemURL d partition account container object) = true) →
    (∀ log, ∀ d ∈ nodes, ∃ resp,
      env.clientDo log ("HEAD", itemURL d partition account container object) = some resp ∧
      resp.StatusCode = 404) →
    headLoop env partition account container object nodes t log
      = (some { t with notfound := t.notfound ++ nodes },
         log ++ nodes.map (fun d => ("HEAD", itemURL d partition account container object))) := by
  induction nodes with
  | nil => intro t log _ _; simp [headLoop]
  | cons d rest ih =>
    intro t log hnew hdo
    obtain ⟨resp, hr, hs⟩ := hdo log d (by simp)
    have h1 : env.newRequest "HEAD" (itemURL d partition account container object) = true :=
      hnew d (by simp)
    have h2 : ¬ ((404 : Int).tdiv 100 = 2) := by decide
    simp only [headLoop, h1, hr, hs, h2, Bool.true_eq_false, if_false, if_true]
    rw [ih _ _ (fun d hd => hnew d (by simp [hd])) (fun l d hd => hdo l d (by simp [hd]))]
    simp

/-- C15: for every account, container and object name of a well-formed
object entry `/account/container/object`, every ring whose partition has as
many primaries as the ring has replicas, and every HTTP environment: if every
HEAD request to a primary can be built and is answered with status 404, then
`repairObject` returns true and the requests it sent are exactly the HEAD
requests to the primaries, in order, so there is no GET and no PUT. -/
theorem repairObject_all_404 (env : RepairEnv) (ringg : Ring)
    (account container object : String)
    (ha : account ≠ "") (ha' : Char.ofNat 47 ∉ account.data)
    (hc : container ≠ "") (hc' : Char.ofNat 47 ∉ container.data)
    (ho : object ≠ "")
    (hR : (ringg.GetNodes (ringg.GetPartition account container object)).length
      = ringg.ReplicaCount)
    (hnew : ∀ d ∈ ringg.GetNodes (ringg.GetPartition account container object),
      env.newRequest "HEAD"
        (itemURL d (ringg.GetPartition account container object) account container object)
        = true)
    (hdo : ∀ log, ∀ d ∈ ringg.GetNodes (ringg.GetPartition account container object),
      ∃ resp, env.clientDo log ("HEAD",
          itemURL d (ringg.GetPartition account container object) account container object)
        = some resp ∧ resp.StatusCode = 404) :
    (repairObject env "object" ringg ("/" ++ account ++ "/" ++ container ++ "/" ++ object)).handled
      = true ∧
    (repairObject env "object" ringg ("/" ++ account ++ "/" ++ container ++ "/" ++ object)).requests
      = (ringg.GetNodes (ringg.GetPartition account container object)).map
          (fun d => ("HEAD",
            itemURL d (ringg.GetPartition account container object) account container object)) ∧
    ∀ r ∈ (repairObject env "object" ringg
        ("/" ++ account ++ "/" ++ container ++ "/" ++ object)).requests,
      r.1 ≠ "GET" ∧ r.1 ≠ "PUT" := by
  have hrep : repairObject env "object" ringg
      ("/" ++ account ++ "/" ++ container ++ "/" ++ object)
      = { handled := true
          requests := (ringg.GetNodes (ringg.GetPartition account container object)).map
            (fun d => ("HEAD",
              itemURL d (ringg.GetPartition account container object) account container
                object)) } := by
    unfold repairObject
    simp only [splitN_entry account container object ha' hc']
    have e1 : ¬ (account = "" ∨ (container = "" ∧ object ≠ "")) := by
      rintro (h | ⟨h, _⟩)
      · exact ha h
      · exact hc h
    have e2 : ¬ ("object" = "account" ∧ (container ≠ "" ∨ object ≠ "")) := by
      rintro ⟨h, _⟩; exact absurd h (by decide)
    have e3 : ¬ ("object" = "container" ∧ (container = "" ∨ object ≠ "")) := by
      rintro ⟨h, _⟩; exact absurd h (by decide)
    have e4 : ¬ ("object" = "object" ∧ (container = "" ∨ object = "")) := by
      rintro ⟨_, h | h⟩
      · exact hc h
      · exact ho h
    have e5 : ¬ (True ∧ (container = "" ∨ object = "")) := fun h => e4 ⟨rfl, h.2⟩
    simp only [e1, e2, e3, e4, e5, if_false]
    rw [headLoop_all_404 env _ account container object _ _ _ hnew hdo]
    simp only [List.nil_append, hR, if_true]
  rw [hrep]
  refine ⟨rfl, rfl, ?_⟩
  intro r hr
  simp only [List.mem_map] at hr
  obtain ⟨d, _, rfl⟩ := hr
  show "HEAD" ≠ "GET" ∧ "HEAD" ≠ "PUT"
  exact ⟨by decide, by decide⟩

/-- The theorem `repairObject_all_404` at the ring `testRing` and the entry
`/AUTH_a/c/o`. -/
theorem repairObject_all_404_witness :
    (repairObject gone404Env "object" testRing ("/" ++ "AUTH_a" ++ "/" ++ "c" ++ "/" ++ "o")).handled
      = true ∧
    (repairObject gone404Env "object" testRing ("/" ++ "AUTH_a" ++ "/" ++ "c" ++ "/" ++ "o")).requests
      = (testRing.GetNodes (testRing.GetPartition "AUTH_a" "c" "o")).map
          (fun d => ("HEAD", itemURL d (testRing.GetPartition "AUTH_a" "c" "o") "AUTH_a" "c" "o")) ∧
    ∀ r ∈ (repairObject gone404Env "object" testRing
        ("/" ++ "AUTH_a" ++ "/" ++ "c" ++ "/" ++ "o")).requests,
      r.1 ≠ "GET" ∧ r.1 ≠ "PUT" :=
  repairObject_all_404 gone404Env testRing "AUTH_a" "c" "o" (by decide) (by decide) (by decide)
    (by decide) (by decide) (by decide) (fun _ _ => rfl)
    (fun _ _ _ => ⟨plainResponse 404, rfl, rfl⟩)

/-! ## The theorems at concrete inputs -/

/-- C13 (amended), applied to three workers reporting 201, 201 and 500. -/
theorem quorumTally_masks_failures_witness :
    classCount 5 scenarioArrivals < quorumOf 3 ∧
    ∃ r, r ∈ scenarioArrivals ∧ quorumTally 3 (scenarioArrivals.map some) = .returned r ∧
      statusClass r = 2 :=
  ⟨by decide,
   quorumTally_masks_failures 3 (by decide) scenarioArrivals rfl (by decide) (by decide)⟩

/-- C16, applied to the 26 letters with `k = 6`, `m = 4`, chunk size 4 and the
reference encoder: a content length of 30 is a short read, one of 26 is not. -/
theorem ECSplit_short_read_witness :
    (ECSplit rsNew 6 4 alphabet 4 30).err = some "Short read" ∧
    (ECSplit rsNew 6 4 alphabet 4 26).err = none :=
  ⟨(ECSplit_short_read rsNew _ 6 4 4 alphabet 30 (by decide) (by decide) (by decide)
      (by decide) rsNew_6_4 (rsEncoder_contract 6 4 (by decide) rsMatrix_6_4_length)).1
      (by decide),
   (ECSplit_short_read rsNew _ 6 4 4 alphabet 26 (by decide) (by decide) (by decide)
      (by decide) rsNew_6_4 (rsEncoder_contract 6 4 (by decide) rsMatrix_6_4_length)).2.1
      (by decide)⟩

/-- C19, applied to five devices, three replicas and the replica index 1: the
headers list the devices 1 and 4. -/
theorem addUpdateHeaders_spec_witness :
    ∃ out, addUpdateHeaders id "X-Account" ∅ fiveDevices 1 3 = some out ∧
      out.lookup (id ("X-Account" ++ "-Host"))
        = some [joinComma ((stripeOf fiveDevices 1 3).map hostOf)] ∧
      out.lookup (id ("X-Account" ++ "-Device"))
        = some [joinComma ((stripeOf fiveDevices 1 3).map (fun d => d.Device))] ∧
      out.lookup (id ("X-Account" ++ "-Scheme"))
        = some [joinComma ((stripeOf fiveDevices 1 3).map (fun d => d.Scheme))] ∧
      ∀ k, k ≠ id ("X-Account" ++ "-Host") → k ≠ id ("X-Account" ++ "-Device") →
        k ≠ id ("X-Account" ++ "-Scheme") → out.lookup k = (∅ : Header).lookup k :=
  (addUpdateHeaders_spec id "X-Account" ∅ fiveDevices 1 3 (by decide) (by decide) (by decide)
    (by decide) (by decide) (by decide)).1 (by decide)

/-- C20, applied to a worker whose primary answers 500 and whose handoff
answers 404, and to a worker whose primary answers 404. -/
theorem quorumWorker_spec_witness :
    quorumWorker [plainResponse 500, plainResponse 404]
      = .returned (some (if (plainResponse 404).StatusCode = 404 then plainResponse 500
          else plainResponse 404)) ∧
    (plainResponse 404 = plainResponse 404 ∧ (plainResponse 404).StatusCode = 404) ∧
    (quorumWorker [plainResponse 500, plainResponse 404] = .returned (some (plainResponse 500)) ∧
      500 ≤ (plainResponse 500).StatusCode) :=
  ⟨(quorumWorker_spec (plainResponse 500) [plainResponse 404]).1
      [plainResponse 500] (plainResponse 404) [] rfl (by decide) (by decide),
   (quorumWorker_spec (plainResponse 404) []).2.1 (plainResponse 404) rfl rfl,
   (quorumWorker_spec (plainResponse 500) [plainResponse 404]).2.2
      [] (plainResponse 404) [] rfl (by decide) (by simp) rfl⟩

/-! ## `ParseAddress` -/

theorem splitOnChar_ne_nil (sep : Char) (l : List Char) : splitOnChar sep l ≠ [] := by
  cases l with
  | nil => simp [splitOnChar]
  | cons c cs =>
    by_cases h : c = sep
    · simp [splitOnChar, h]
    · simp only [splitOnChar, h, if_false]
      cases splitOnChar sep cs <;> simp

theorem splitOnChar_append (sep : Char) (a rest : List Char) (ha : sep ∉ a) :
    splitOnChar sep (a ++ sep :: rest) = a :: splitOnChar sep rest := by
  induction a with
  | nil => simp [splitOnChar]
  | cons c cs ih =>
    have hc : c ≠ sep := fun h => ha (by simp [h])
    have hcs : sep ∉ cs := fun h => ha (by simp [h])
    show splitOnChar sep (c :: (cs ++ sep :: rest)) = _
    simp only [splitOnChar, hc, if_false, ih hcs]

theorem splitOnChar_singleton (sep : Char) (l p : List Char) (h : splitOnChar sep l = [p]) :
    p = l := by
  induction l generalizing p with
  | nil => simp [splitOnChar] at h; exact h
  | cons c cs ih =>
    by_cases hc : c = sep
    · simp only [splitOnChar, hc, if_true] at h
      injection h with _ h2
      exact absurd h2 (splitOnChar_ne_nil sep cs)
    · simp only [splitOnChar, hc, if_false] at h
      cases hs : splitOnChar sep cs with
      | nil => exact absurd hs (splitOnChar_ne_nil sep cs)
      | cons q qs =>
        rw [hs] at h
        simp only [List.cons.injEq] at h
        obtain ⟨h1, h2⟩ := h
        subst h2
        rw [← h1, ih q hs]

theorem parseDigits_none_of_mem (cs : List Char) (c : Char) (hc : c ∈ cs)
    (hd : ¬ (48 ≤ c.toNat ∧ c.toNat ≤ 57)) : parseDigits cs = none := by
  unfold parseDigits
  have hne : cs ≠ [] := List.ne_nil_of_mem hc
  have hall : cs.all (fun c => decide (48 ≤ c.toNat ∧ c.toNat ≤ 57)) = false := by
    rw [Bool.eq_false_iff]
    intro h
    rw [List.all_eq_true] at h
    exact hd (of_decide_eq_true (h c hc))
  rw [if_neg hne, hall]
  rfl

theorem parseInt64_none_of_slash (s : String) (h : Char.ofNat 47 ∈ s.data) :
    parseInt64 s = none := by
  have hd : ¬ (48 ≤ (Char.ofNat 47).toNat ∧ (Char.ofNat 47).toNat ≤ 57) := by decide
  unfold parseInt64
  cases hs : s.data with
  | nil => rfl
  | cons c cs =>
    rw [hs] at h
    simp only
    by_cases h1 : c = Char.ofNat 45
    · have hcs : Char.ofNat 47 ∈ cs := by
        rcases List.mem_cons.mp h with h' | h'
        · rw [h1] at h'; exact absurd h' (by decide)
        · exact h'
      simp [h1, parseDigits_none_of_mem cs _ hcs hd]
    · by_cases h2 : c = Char.ofNat 43
      · have hcs : Char.ofNat 47 ∈ cs := by
          rcases List.mem_cons.mp h with h' | h'
          · rw [h2] at h'; exact absurd h' (by decide)
          · exact h'
        simp [h1, h2, parseDigits_none_of_mem cs _ hcs hd]
      · simp [h1, h2, parseDigits_none_of_mem (c :: cs) _ h hd]

/-- C27 (for every input of the claim): on a node address
`<host>:<port>/<device>` whose host holds no colon, `ParseAddress` returns the
error "Invalid node address", whatever the port and the device: the second
`strings.Split` is on the whole address, so the text after the colon is
`<port>/<device>`, which `strconv.Atoi` refuses. -/
theorem ParseAddress_rejects_node_address (host device : String) (port : Int)
    (hh : Char.ofNat 58 ∉ host.data) :
    ParseAddress (nodeAddress host port device) = .error "Invalid node address" := by
  have e : (nodeAddress host port device).data
      = host.data ++ Char.ofNat 58 :: ((formatInt port).data ++ Char.ofNat 47 :: device.data) := by
    simp [nodeAddress, String.data_append]
  unfold ParseAddress
  rw [e, splitOnChar_append _ _ _ hh]
  cases h1 : splitOnChar (Char.ofNat 47)
      (host.data ++ Char.ofNat 58 :: ((formatInt port).data ++ Char.ofNat 47 :: device.data)) with
  | nil => rfl
  | cons p1 r1 =>
    cases r1 with
    | nil => rfl
    | cons p2 r2 =>
      cases r2 with
      | cons p3 r3 => rfl
      | nil =>
        simp only
        cases h2 : splitOnChar (Char.ofNat 58)
            ((formatInt port).data ++ Char.ofNat 47 :: device.data) with
        | nil => rfl
        | cons q1 s1 =>
          cases s1 with
          | cons q2 s2 => rfl
          | nil =>
            have hq := splitOnChar_singleton _ _ _ h2
            simp only
            rw [parseInt64_none_of_slash (String.mk q1) (by rw [hq]; simp)]

/-- C27 (failing input): the address `10.0.0.1:6000/sda`. -/
theorem ParseAddress_rejects_node_address_witness :
    nodeAddress "10.0.0.1" 6000 "sda" = "10.0.0.1:6000/sda" ∧
    ParseAddress (nodeAddress "10.0.0.1" 6000 "sda") = .error "Invalid node address" :=
  ⟨by decide, ParseAddress_rejects_node_address "10.0.0.1" "sda" 6000 (by decide)⟩

/-! ## The partition of an object hash -/

theorem hexValue_lt (c : Char) (d : Nat) (h : hexValue c = some d) : d < 16 := by
  unfold hexValue at h
  split at h
  · injection h with h; omega
  · split at h
    · injection h with h; omega
    · split at h
      · injection h with h; omega
      · exact absurd h (by simp)

theorem parseHexAux_lt (cs : List Char) :
    ∀ acc, (∀ c ∈ cs, (hexValue c).isSome = true) →
      ∃ v, parseHexAux acc cs = some v ∧ v < (acc + 1) * 16 ^ cs.length := by
  induction cs with
  | nil => intro acc _; exact ⟨acc, rfl, by simp⟩
  | cons c cs ih =>
    intro acc h
    have hc := h c (by simp)
    cases hd : hexValue c with
    | none => rw [hd] at hc; exact absurd hc (by simp)
    | some d =>
      obtain ⟨v, hv, hlt⟩ := ih (16 * acc + d) (fun x hx => h x (by simp [hx]))
      refine ⟨v, by simp only [parseHexAux, hd, hv], ?_⟩
      have hd16 := hexValue_lt c d hd
      have : (16 * acc + d + 1) * 16 ^ cs.length ≤ (acc + 1) * 16 ^ (c :: cs).length := by
        rw [List.length_cons, pow_succ]
        have : 16 * acc + d + 1 ≤ (acc + 1) * 16 := by omega
        calc (16 * acc + d + 1) * 16 ^ cs.length
            ≤ ((acc + 1) * 16) * 16 ^ cs.length := Nat.mul_le_mul_right _ this
          _ = (acc + 1) * (16 ^ cs.length * 16) := by ring
      omega

/-- C23 (for every input of the claim): for every hash of 32 hexadecimal
characters and every bit count `1 ≤ b ≤ 32`, the first 8 characters denote a
number `v < 2^32` and the partition computed is 0, not the top `b` bits of
`v`: the shift is by `64 - b ≥ 32` bits. -/
theorem hashPartition_is_zero (hash : String) (b : Nat)
    (hlen : hash.data.length = 32) (hhex : ∀ c ∈ hash.data, (hexValue c).isSome = true)
    (hb : 1 ≤ b) (hb' : b ≤ 32) :
    ∃ v, parseUintHex (hash.data.take 8) = some v ∧ v < 2 ^ 32 ∧
      hashPartition hash b = .returned (some 0) := by
  have _ := hb
  have htl : (hash.data.take 8).length = 8 := by simp [hlen]
  obtain ⟨v, hv, hlt⟩ := parseHexAux_lt (hash.data.take 8) 0
    (fun c hc => hhex c (List.mem_of_mem_take hc))
  rw [htl] at hlt
  have hv32 : v < 2 ^ 32 := by
    have : (0 + 1) * 16 ^ 8 = 2 ^ 32 := by norm_num
    omega
  have hne : hash.data.take 8 ≠ [] := by
    intro h0; rw [h0] at htl; simp at htl
  have hparse : parseUintHex (hash.data.take 8) = some v := by
    unfold parseUintHex
    rw [if_neg hne, hv]
    have : v < 2 ^ 64 := lt_trans hv32 (by norm_num)
    show (if v < 2 ^ 64 then some v else none) = some v
    rw [if_pos this]
  refine ⟨v, hparse, hv32, ?_⟩
  unfold hashPartition
  rw [if_neg (by omega), hparse]
  have hpow : 2 ^ 32 ≤ 2 ^ (64 - b) := Nat.pow_le_pow_right (by norm_num) (by omega)
  have hz : v / 2 ^ (64 - b) = 0 := Nat.div_eq_of_lt (lt_of_lt_of_le hv32 hpow)
  simp [partitionOf, hz]

/-- C23 (failing input): the hash `ffffffff000000000000000000000000` and 8
partition bits; the top 8 bits of `0xffffffff` are 255, the partition
computed is 0. -/
theorem hashPartition_is_zero_witness :
    topBits 4294967295 8 = 255 ∧
    ∃ v, parseUintHex ("ffffffff000000000000000000000000".data.take 8) = some v ∧ v < 2 ^ 32 ∧
      hashPartition "ffffffff000000000000000000000000" 8 = .returned (some 0) :=
  ⟨by decide,
   hashPartition_is_zero "ffffffff000000000000000000000000" 8 (by decide) (by decide)
     (by decide) (by decide)⟩

/-! ## `doActions` -/

theorem dispatchLoop_no_stop (queue : Nat → Option Nat) (stack : List Action) :
    ∀ i handed, dispatchLoop queue none i stack handed
      = { ending := .indexPanic, handed := handed ++ stack.map (fun a => (queue a.Src, a)) } := by
  induction stack with
  | nil => intro i handed; simp [dispatchLoop]
  | cons a rest ih =>
    intro i handed
    simp only [dispatchLoop, ih, List.map_cons, List.append_assoc, List.singleton_append]
    simp

/-- C26 (failing input, every snapshot): while no stop signal arrives, the
dispatch loop hands every action of the snapshot once, last action first, to
the queue of its `Src` node, and then reads `actionList[len(actionList)-1]`
on the empty list, which is a run-time panic; on the empty snapshot it does so
in its first iteration. -/
theorem doActions_index_panic (nodes : List Nat) (actionList : List Action) :
    doActions nodes actionList none
      = { ending := .indexPanic
          handed := actionList.reverse.map
            (fun a => (actionQueue nodes actionList a.Src, a)) } ∧
    doActions nodes [] none = { ending := .indexPanic, handed := [] } ∧
    doActions [1, 2] [moveAction "a", moveAction "b"] none
      = { ending := .indexPanic
          handed := [(some 1, moveAction "b"), (some 1, moveAction "a")] } := by
  refine ⟨?_, rfl, by decide⟩
  unfold doActions
  rw [dispatchLoop_no_stop]
  simp

/-! ## `NewProxyDirectClient` and the object clients -/

theorem NewProxyDirectClient_ok (policyList : PolicyList) (env : ClientEnv)
    (certFile keyFile : String) (c : ProxyDirectClient)
    (h : NewProxyDirectClient policyList env certFile keyFile = .ok c) :
    (match policyList with
      | none => env.GetPolicies
      | some l => .ok (some l)) = .ok c.policyList ∧
    ∃ pfx sfx, registerClients env pfx sfx (policyList.getD []) ∅ = .ok c.objectClients := by
  unfold NewProxyDirectClient at h
  simp only at h
  split at h
  · exact absurd h (by simp)
  · split at h
    · exact absurd h (by simp)
    · rename_i cPolicyList hload
      split at h
      · exact absurd h (by simp)
      · rename_i pfx sfx _
        split at h
        · exact absurd h (by simp)
        · split at h
          · exact absurd h (by simp)
          · split at h
            · exact absurd h (by simp)
            · rename_i objectClients hreg
              injection h with h
              subst h
              exact ⟨hload, pfx, sfx, hreg⟩

theorem registerClients_lookup (env : ClientEnv) (pfx sfx : String) (l : List Policy) :
    ∀ acc r, registerClients env pfx sfx l acc = .ok r →
      (∀ index, acc.lookup index ≠ none → r.lookup index ≠ none) ∧
      ∀ p ∈ l, r.lookup p.Index ≠ none := by
  induction l with
  | nil =>
    intro acc r h
    simp only [registerClients] at h
    injection h with h
    subst h
    exact ⟨fun _ hi => hi, fun p hp => absurd hp (List.not_mem_nil p)⟩
  | cons q rest ih =>
    intro acc r h
    simp only [registerClients] at h
    split at h
    · exact absurd h (by simp)
    · rename_i ring _
      obtain ⟨h1, h2⟩ := ih _ r h
      refine ⟨fun index hi => h1 index ?_, fun p hp => ?_⟩
      · by_cases he : index = q.Index
        · rw [he, AList.lookup_insert]; simp
        · rw [AList.lookup_insert_ne he]; exact hi
      · rcases List.mem_cons.mp hp with hp | hp
        · rw [hp]
          exact h1 q.Index (by rw [AList.lookup_insert]; simp)
        · exact h2 p hp

/-- C28 (failing input, every configuration): when the argument `policyList`
is nil and `NewProxyDirectClient` succeeds, `c.policyList` is the list loaded
from the configuration and the registry `objectClients` is empty, so it holds
no dispatcher for any policy index; when a list is passed, the registry holds
a dispatcher for the index of every policy of `c.policyList`. -/
theorem NewProxyDirectClient_registry (policyList : PolicyList) (env : ClientEnv)
    (certFile keyFile : String) (c : ProxyDirectClient)
    (h : NewProxyDirectClient policyList env certFile keyFile = .ok c) :
    (policyList = none →
      env.GetPolicies = .ok c.policyList ∧ ∀ index, c.objectClients.lookup index = none) ∧
    (policyList ≠ none →
      c.policyList = policyList ∧
      ∀ index ∈ policyIndices c.policyList, c.objectClients.lookup index ≠ none) := by
  obtain ⟨h1, pfx, sfx, h2⟩ := NewProxyDirectClient_ok policyList env certFile keyFile c h
  constructor
  · intro hnil
    subst hnil
    refine ⟨h1, fun index => ?_⟩
    simp only [Option.getD_none, registerClients] at h2
    injection h2 with h2
    rw [← h2]
    rfl
  · intro hne
    cases policyList with
    | none => exact absurd rfl hne
    | some l =>
      simp only at h1
      injection h1 with h1
      refine ⟨h1.symm, fun index hi => ?_⟩
      rw [← h1] at hi
      simp only [policyIndices, Option.getD_some, List.mem_map] at hi
      obtain ⟨p, hp, rfl⟩ := hi
      exact (registerClients_lookup env pfx sfx l ∅ _ h2).2 p hp

/-- C28 (failing input): no list is passed and the configuration holds the
policy 0.  The client is built, its policy list holds the index 0, its
registry is empty, and `getObjectClient` for a container of policy 0 is nil. -/
theorem NewProxyDirectClient_registry_witness :
    NewProxyDirectClient none onePolicyEnv "" "" = .ok nilListClient ∧
    policyIndices nilListClient.policyList = [0] ∧
    (onePolicyEnv.GetPolicies = .ok nilListClient.policyList ∧
      ∀ index, nilListClient.objectClients.lookup index = none) ∧
    cachedInfo.StoragePolicyIndex = 0 ∧
    getObjectClient nilListClient headGone warmCache "a" "c" = .nilClient ∧
    (passedListClient.policyList = nilListClient.policyList ∧
      ∀ index ∈ policyIndices passedListClient.policyList,
        passedListClient.objectClients.lookup index ≠ none) :=
  ⟨rfl, rfl,
   (NewProxyDirectClient_registry none onePolicyEnv "" "" nilListClient rfl).1 rfl,
   rfl, by decide,
   (NewProxyDirectClient_registry nilListClient.policyList onePolicyEnv "" "" passedListClient
      rfl).2 (by simp [nilListClient])⟩

/-! ## `quarantineRepairman.runOnce` -/

theorem singularType_result (typ typ' : String) (policy : Int)
    (h : singularType typ = some (typ', policy)) :
    typ' = "account" ∨ typ' = "container" ∨ typ' = "object" := by
  unfold singularType at h
  split at h
  · injection h with h; injection h with h _; exact Or.inl h.symm
  · split at h
    · injection h with h; injection h with h _; exact Or.inr (Or.inl h.symm)
    · split at h
      · injection h with h; injection h with h _; exact Or.inr (Or.inr h.symm)
      · split at h
        · split at h
          · injection h with h; injection h with h _; exact Or.inr (Or.inr h.symm)
          · exact absurd h (by simp)
        · exact absurd h (by simp)

theorem runDevices_weird (env : RepairmanEnv) (ip : String) (port : Int) (typ : String)
    (h : singularType typ = none) (devices : List (String × List Entry)) :
    runDevices env ip port typ devices
      = devices.map (fun de => RepairCall.weirdType typ de.1) := by
  induction devices with
  | nil => rfl
  | cons de rest ih =>
    obtain ⟨device, entries⟩ := de
    simp only [runDevices, h, ih, List.map_cons]

/-- C30 (failing input, every report): for a type key that `runOnce` accepts
and the devices listed under it, in the order of the iteration, the entries of
the first device are processed with the policy of the key, and every other
device is skipped as a weird type: `typ` was overwritten with the singular
name, which the test at the head of the loop does not accept. -/
theorem runDevices_skips_later_devices (env : RepairmanEnv) (ip : String) (port : Int)
    (typ typ' device : String) (policy : Int) (entries : List Entry)
    (rest : List (String × List Entry))
    (h : singularType typ = some (typ', policy)) :
    runDevices env ip port typ ((device, entries) :: rest)
      = runEntries env typ' policy (findDeviceID (env.allDevices typ' policy) ip port device)
          device entries
        ++ rest.map (fun de => RepairCall.weirdType typ' de.1) := by
  have hweird : singularType typ' = none := by
    rcases singularType_result typ typ' policy h with h' | h' | h' <;> rw [h'] <;> decide
  simp only [runDevices, h, runDevices_weird env ip port typ' hweird rest]

/-- C30 (failing input): the report lists one entry on `sda` and one on `sdb`
under the key `objects-1`; the entry of `sda` is repaired with policy 1 and
cleared, the device `sdb` is skipped as a weird type. -/
theorem runDevices_skips_later_devices_witness :
    singularType "objects-1" = some ("object", 1) ∧
    runDevices easyRepairs "127.0.0.1" 6001 "objects-1"
        [("sda", [{ NameOnDevice := "h1", NameInURL := "/a/c/o1" }]),
         ("sdb", [{ NameOnDevice := "h2", NameInURL := "/a/c/o2" }])]
      = runEntries easyRepairs "object" 1
          (findDeviceID (easyRepairs.allDevices "object" 1) "127.0.0.1" 6001 "sda") "sda"
          [{ NameOnDevice := "h1", NameInURL := "/a/c/o1" }]
        ++ [("sdb", [({ NameOnDevice := "h2", NameInURL := "/a/c/o2" } : Entry)])].map
            (fun de => RepairCall.weirdType "object" de.1) ∧
    runReport easyRepairs "127.0.0.1" 6001 twoDeviceReport
      = [RepairCall.repairObject "object" 1 "/a/c/o1",
         RepairCall.clearQuarantine "sda" "object" 1 "h1",
         RepairCall.weirdType "object" "sdb"] :=
  ⟨by decide,
   runDevices_skips_later_devices easyRepairs "127.0.0.1" 6001 "objects-1" "object" "sda" 1
     [{ NameOnDevice := "h1", NameInURL := "/a/c/o1" }]
     [("sdb", [{ NameOnDevice := "h2", NameInURL := "/a/c/o2" }])] (by decide),
   by decide⟩

/-! ## The workers when the handoffs are exhausted -/

theorem putWorkerLoop_exhausted (attempts : List Attempt)
    (h : ∀ a ∈ attempts, retryStatus (attemptResponse a)) :
    ∀ resp, putWorkerLoop resp attempts
      = ((attempts.map attemptResponse).getLast?).or resp := by
  induction attempts with
  | nil => intro resp; simp [putWorkerLoop]
  | cons a t ih =>
    intro resp
    have ha := h a (List.mem_cons_self _ _)
    have ht := ih (fun x hx => h x (List.mem_cons_of_mem _ hx))
    have hlast : ∀ r : Response,
        ((t.map attemptResponse).getLast?).or (some r)
          = (((a :: t).map attemptResponse).getLast?).or resp ∨ attemptResponse a ≠ r := by
      intro r
      by_cases hr : attemptResponse a = r
      · left
        cases t with
        | nil => simp [hr]
        | cons b t =>
          simp only [List.map_cons, List.getLast?_cons_cons]
          rw [List.getLast?_eq_getLast _ (List.cons_ne_nil _ _)]
          simp
      · right; exact hr
    cases a with
    | buildError msg =>
      simp only [putWorkerLoop, ht]
      exact (hlast _).resolve_right (fun hne => hne rfl)
    | transportError msg =>
      simp only [putWorkerLoop, ht]
      exact (hlast _).resolve_right (fun hne => hne rfl)
    | answered r =>
      have hr : ¬ (200 ≤ r.StatusCode ∧ r.StatusCode < 500) := ha
      simp only [putWorkerLoop, hr, if_false, ht]
      exact (hlast _).resolve_right (fun hne => hne rfl)

theorem commitsWorker_false_of_retry (r : Response) (h : retryStatus r) :
    commitsWorker r = false := by
  unfold commitsWorker
  rw [Bool.eq_false_iff]
  intro hc
  simp only [Bool.and_eq_true, decide_eq_true_eq, ge_iff_le] at hc
  exact h hc

/-- C21 (counterexample): the primary of a worker answers 503 and there is no
handoff left.  The `quorumResponse` worker and the `putObject` worker both
contribute the backend's response with status 503, which is no stub with
status 500. -/
theorem workers_contribute_last_response_503 :
    retryStatus (attemptResponse (.answered (plainResponse 503))) ∧
    quorumWorker ([Attempt.answered (plainResponse 503)].map attemptResponse)
      = .returned (some (plainResponse 503)) ∧
    putWorker [.answered (plainResponse 503)] = plainResponse 503 ∧
    (plainResponse 503).StatusCode ≠ 500 ∧
    ∀ detail, plainResponse 503 ≠ ResponseStub 500 detail := by
  refine ⟨by decide, rfl, rfl, by decide, ?_⟩
  intro detail h
  have h500 : (503 : Int) = 500 := congrArg Response.StatusCode h
  exact absurd h500 (by decide)

/-- C21 (amended): a worker whose attempts all yield a status outside
`[200,500)` until the handoff iterator is exhausted contributes the result of
the last device it tried: the synthetic stub with status 500 when that
attempt failed with a builder or transport error, the backend's own response
otherwise; its status is outside `[200,500)`.  A `putObject` worker that
tries no device contributes the stub 500 "no more nodes to try". -/
theorem workers_contribute_last_result (pre : List Attempt) (last : Attempt)
    (h : ∀ a ∈ pre ++ [last], retryStatus (attemptResponse a)) :
    quorumWorker ((pre ++ [last]).map attemptResponse)
      = .returned (some (attemptResponse last)) ∧
    putWorker (pre ++ [last]) = attemptResponse last ∧
    retryStatus (attemptResponse last) ∧
    (∀ msg, last = .buildError msg ∨ last = .transportError msg →
      attemptResponse last = ResponseStub 500 msg) ∧
    (∀ r, last = .answered r → attemptResponse last = r) ∧
    putWorker [] = ResponseStub 500 "no more nodes to try" := by
  have hlast : retryStatus (attemptResponse last) := h last (by simp)
  have hgl : ((pre ++ [last]).map attemptResponse).getLast? = some (attemptResponse last) := by
    simp
  refine ⟨?_, ?_, hlast, ?_, ?_, rfl⟩
  · have hall : ∀ x ∈ (pre ++ [last]).map attemptResponse, commitsWorker x = false := by
      intro x hx
      obtain ⟨a, ha, rfl⟩ := List.mem_map.mp hx
      exact commitsWorker_false_of_retry _ (h a ha)
    have h1 := workerLoop_exhausted _ hall none none
    rw [hgl] at h1
    unfold quorumWorker
    cases hw : workerLoop none none ((pre ++ [last]).map attemptResponse) with
    | mk resp firstResp =>
      rw [hw] at h1
      simp only [Option.or_some] at h1
      subst h1
      have hne : (attemptResponse last).StatusCode ≠ 404 := by
        intro h404
        exact hlast (by rw [h404]; decide)
      simp only [hne, if_false]
  · unfold putWorker
    rw [putWorkerLoop_exhausted _ h none, hgl]
    rfl
  · rintro msg (hm | hm) <;> rw [hm] <;> rfl
  · intro r hr; rw [hr]; rfl

/-- C21 (amended), applied to a worker whose primary answers 507 and whose
handoff cannot be reached. -/
theorem workers_contribute_last_result_witness :
    quorumWorker (([Attempt.answered (plainResponse 507)]
        ++ [Attempt.transportError "connection refused"]).map attemptResponse)
      = .returned (some (attemptResponse (.transportError "connection refused"))) ∧
    putWorker ([Attempt.answered (plainResponse 507)]
        ++ [Attempt.transportError "connection refused"])
      = ResponseStub 500 "connection refused" :=
  ⟨(workers_contribute_last_result [.answered (plainResponse 507)]
      (.transportError "connection refused") (by
        intro a ha
        simp only [List.singleton_append, List.mem_cons, List.mem_singleton,
          List.not_mem_nil, or_false] at ha
        rcases ha with ha | ha <;> rw [ha] <;> decide)).1,
   (workers_contribute_last_result [.answered (plainResponse 507)]
      (.transportError "connection refused") (by
        intro a ha
        simp only [List.singleton_append, List.mem_cons, List.mem_singleton,
          List.not_mem_nil, or_false] at ha
        rcases ha with ha | ha <;> rw [ha] <;> decide)).2.1⟩

/-! ## `putObject`: the event loop -/

theorem putCopyStep_inv (replicaCount : Nat) (copyOk : Nat → Bool) (st : PutState)
    (h : PutInv replicaCount st) :
    (∀ run, putCopyStep replicaCount copyOk st = .inl run → PutInv replicaCount run.state) ∧
    (∀ st', putCopyStep replicaCount copyOk st = .inr st' → PutInv replicaCount st') := by
  unfold putCopyStep
  by_cases hg : st.written = false ∧ st.writers ≥ quorumOf replicaCount
      ∧ st.writers + st.responseCount = replicaCount
  · have hnil : st.copies = [] := h.unwritten hg.1
    have hnew : PutInv replicaCount
        { st with written := true, copies := st.copies ++ [(st.writers, st.responseCount)] } := by
      refine ⟨by simp [hnil], fun hw => absurd hw (by simp), ?_⟩
      intro c hc
      simp only [hnil, List.nil_append, List.mem_singleton] at hc
      subst hc
      exact ⟨hg.2.1, hg.2.2⟩
    rw [if_pos hg]
    cases copyOk st.copies.length
    · refine ⟨fun run hr => ?_, fun st' hs => ?_⟩
      · simp only [Bool.false_eq_true, if_false, Sum.inl.injEq] at hr
        rw [← hr]; exact hnew
      · simp at hs
    · refine ⟨fun run hr => ?_, fun st' hs => ?_⟩
      · simp at hr
      · simp only [if_true, Sum.inr.injEq] at hs
        rw [← hs]; exact hnew
  · rw [if_neg hg]
    refine ⟨fun run hr => ?_, fun st' hs => ?_⟩
    · simp at hr
    · simp only [Sum.inr.injEq] at hs
      rw [← hs]; exact h

theorem putEventLoop_inv (replicaCount : Nat) (copyOk : Nat → Bool) (events : List PutEvent) :
    ∀ st, PutInv replicaCount st →
      PutInv replicaCount (putEventLoop replicaCount copyOk st events).state := by
  induction events with
  | nil => intro st h; exact h
  | cons ev rest ih =>
    intro st h
    have step : ∀ st1 : PutState, PutInv replicaCount st1 →
        PutInv replicaCount
          (match putCopyStep replicaCount copyOk st1 with
            | .inl run => run
            | .inr st' => putEventLoop replicaCount copyOk st' rest).state := by
      intro st1 h1
      obtain ⟨hl, hr⟩ := putCopyStep_inv replicaCount copyOk st1 h1
      cases hs : putCopyStep replicaCount copyOk st1 with
      | inl run => exact hl run hs
      | inr st' => exact ih st' (hr st' hs)
    cases ev with
    | ready =>
      simp only [putEventLoop]
      exact step _ ⟨h.once, h.unwritten, h.guarded⟩
    | response resp =>
      cases resp with
      | none =>
        simp only [putEventLoop]
        exact step _ ⟨h.once, h.unwritten, h.guarded⟩
      | some r =>
        simp only [putEventLoop]
        split
        · split
          · exact ⟨h.once, h.unwritten, h.guarded⟩
          · split
            · exact ⟨h.once, h.unwritten, h.guarded⟩
            · exact step _ ⟨h.once, h.unwritten, h.guarded⟩
        · exact ⟨h.once, h.unwritten, h.guarded⟩

/-- C22: for every replica count `R`, every sequence of ready and response
events and every outcome of the copy, the event loop of `putObject` calls
`CopyQuorum` at most once, and each call is made in a state with at least
`ceil(R/2)` collected write-ends in which the write-ends and the received
responses add up to `R`. -/
theorem putObject_copies_once (replicaCount : Nat) (copyOk : Nat → Bool)
    (events : List PutEvent) :
    (putObjectEvents replicaCount copyOk events).state.copies.length ≤ 1 ∧
    ∀ c ∈ (putObjectEvents replicaCount copyOk events).state.copies,
      quorumOf replicaCount ≤ c.1 ∧ c.1 + c.2 = replicaCount := by
  have h := putEventLoop_inv replicaCount copyOk events
    { counts := fun _ => 0, writers := 0, responseCount := 0, written := false, copies := [] }
    ⟨by simp, fun _ => rfl, fun c hc => absurd hc (List.not_mem_nil c)⟩
  exact ⟨h.once, h.guarded⟩

/-- C22, applied to three replicas that all commit a write-end: the copy is
made once, with three write-ends and no response. -/
theorem putObject_copies_once_witness :
    (putObjectEvents 3 (fun _ => true) [.ready, .ready, .ready]).state.copies = [(3, 0)] ∧
    quorumOf 3 ≤ 3 ∧ 3 + 0 = 3 :=
  ⟨rfl, (putObject_copies_once 3 (fun _ => true) [.ready, .ready, .ready]).2 (3, 0)
    (by decide)⟩

/-- C29 (failing input): three replicas; one commits a write-end, one answers
500 and one answers 404.  After these three events no status class has
reached the quorum of 2, `responseCount` is 2 and there is one write-end: the
loop has not returned and has not started the copy; it waits in its `select`
while the replica that committed waits for the body. -/
theorem putObject_waits_after_split_vote :
    splitVoteEvents.length = 3 ∧ quorumOf 3 = 2 ∧
    (putObjectEvents 3 (fun _ => true) splitVoteEvents).outcome = .blocked ∧
    (putObjectEvents 3 (fun _ => true) splitVoteEvents).state.written = false ∧
    (putObjectEvents 3 (fun _ => true) splitVoteEvents).state.copies = [] ∧
    (putObjectEvents 3 (fun _ => true) splitVoteEvents).state.writers = 1 ∧
    (putObjectEvents 3 (fun _ => true) splitVoteEvents).state.responseCount = 2 := by
  exact ⟨rfl, rfl, rfl, rfl, rfl, rfl, rfl⟩

/-! ## `SetContainerInfo` -/

theorem isPrefixOf_append (p t : List Char) : List.isPrefixOf p (p ++ t) = true := by
  induction p with
  | nil => simp [List.isPrefixOf]
  | cons a p ih => simp [List.isPrefixOf, ih]

theorem drop_of_isPrefixOf (p l : List Char) (h : List.isPrefixOf p l = true) :
    l = p ++ l.drop p.length := by
  induction p generalizing l with
  | nil => simp
  | cons a p ih =>
    cases l with
    | nil => simp [List.isPrefixOf] at h
    | cons b l =>
      simp only [List.isPrefixOf, Bool.and_eq_true, beq_iff_eq] at h
      obtain ⟨hab, hp⟩ := h
      subst hab
      simp only [List.cons_append, List.length_cons, List.drop_succ_cons, List.cons.injEq,
        true_and]
      exact ih l hp

theorem isPrefixOf_append_of_length_le (p q t : List Char) (h : p.length ≤ q.length) :
    List.isPrefixOf p (q ++ t) = List.isPrefixOf p q := by
  induction p generalizing q with
  | nil => simp [List.isPrefixOf]
  | cons a p ih =>
    cases q with
    | nil => simp at h
    | cons b q =>
      show (a == b && List.isPrefixOf p (q ++ t)) = (a == b && List.isPrefixOf p q)
      rw [ih q (by simpa using h)]

theorem key_eq_iff_drop (pfx k s : String) (h : List.isPrefixOf pfx.data k.data = true) :
    String.mk (k.data.drop pfx.data.length) = s ↔ k = pfx ++ s := by
  have hk := drop_of_isPrefixOf pfx.data k.data h
  constructor
  · intro hs
    apply String.ext
    rw [String.data_append, ← hs]
    exact hk
  · intro hs
    apply String.ext
    rw [hs, String.data_append]
    simp

theorem key_ne_of_not_isPrefixOf (pfx k s : String)
    (h : ¬ List.isPrefixOf pfx.data k.data = true) : k ≠ pfx ++ s := by
  intro hk
  apply h
  rw [hk, String.data_append]
  exact isPrefixOf_append _ _

theorem sysmeta_not_meta (s : String) :
    ¬ List.isPrefixOf "X-Container-Meta-".data ("X-Container-Sysmeta-" ++ s).data = true := by
  rw [String.data_append, isPrefixOf_append_of_length_le _ _ _ (by decide)]
  decide

theorem foldl_setInfoHeader_Metadata (h : Header) (ks : List String) (s : String) :
    ∀ ci0 : ContainerInfo,
      (ks.foldl (setInfoHeader h) ci0).Metadata.lookup s
        = if "X-Container-Meta-" ++ s ∈ ks then some (HeaderGet h ("X-Container-Meta-" ++ s))
          else ci0.Metadata.lookup s := by
  induction ks with
  | nil => intro ci0; simp
  | cons k ks ih =>
    intro ci0
    simp only [List.foldl_cons, ih, List.mem_cons]
    by_cases hin : "X-Container-Meta-" ++ s ∈ ks
    · simp [hin]
    · simp only [hin, or_false, if_false]
      by_cases hp : List.isPrefixOf "X-Container-Meta-".data k.data = true
      · have hiff := key_eq_iff_drop "X-Container-Meta-" k s hp
        have hlen : "X-Container-Meta-".data.length = 17 := by decide
        rw [hlen] at hiff
        simp only [setInfoHeader, hp, if_true]
        by_cases hs : String.mk (k.data.drop 17) = s
        · have hk := hiff.mp hs
          rw [if_pos hk.symm, ← hs, AList.lookup_insert, hs, hk]
        · have hk : ¬ ("X-Container-Meta-" ++ s = k) := fun e => hs (hiff.mpr e.symm)
          rw [if_neg hk, AList.lookup_insert_ne (Ne.symm hs)]
      · have hk : ¬ ("X-Container-Meta-" ++ s = k) :=
          fun e => key_ne_of_not_isPrefixOf _ k s hp e.symm
        rw [if_neg hk]
        unfold setInfoHeader
        rw [if_neg hp]
        split
        · rfl
        · split
          · rfl
          · split
            · rfl
            · split <;> rfl

theorem foldl_setInfoHeader_SysMetadata (h : Header) (ks : List String) (s : String) :
    ∀ ci0 : ContainerInfo,
      (ks.foldl (setInfoHeader h) ci0).SysMetadata.lookup s
        = if "X-Container-Sysmeta-" ++ s ∈ ks then
            some (HeaderGet h ("X-Container-Sysmeta-" ++ s))
          else ci0.SysMetadata.lookup s := by
  induction ks with
  | nil => intro ci0; simp
  | cons k ks ih =>
    intro ci0
    simp only [List.foldl_cons, ih, List.mem_cons]
    by_cases hin : "X-Container-Sysmeta-" ++ s ∈ ks
    · simp [hin]
    · simp only [hin, or_false, if_false]
      by_cases hm : List.isPrefixOf "X-Container-Meta-".data k.data = true
      · have hk : ¬ ("X-Container-Sysmeta-" ++ s = k) := by
          intro e
          exact sysmeta_not_meta s (by rw [e]; exact hm)
        rw [if_neg hk]
        simp only [setInfoHeader, hm, if_true]
      · by_cases hp : List.isPrefixOf "X-Container-Sysmeta-".data k.data = true
        · have hiff := key_eq_iff_drop "X-Container-Sysmeta-" k s hp
          have hlen : "X-Container-Sysmeta-".data.length = 20 := by decide
          rw [hlen] at hiff
          unfold setInfoHeader
          rw [if_neg hm, if_pos hp]
          by_cases hs : String.mk (k.data.drop 20) = s
          · have hk := hiff.mp hs
            rw [if_pos hk.symm]
            show (AList.insert _ _ _).lookup s = _
            rw [← hs, AList.lookup_insert, hs, hk]
          · have hk : ¬ ("X-Container-Sysmeta-" ++ s = k) := fun e => hs (hiff.mpr e.symm)
            rw [if_neg hk]
            show (AList.insert _ _ _).lookup s = _
            rw [AList.lookup_insert_ne (Ne.symm hs)]
        · have hk : ¬ ("X-Container-Sysmeta-" ++ s = k) :=
            fun e => key_ne_of_not_isPrefixOf _ k s hp e.symm
          rw [if_neg hk]
          unfold setInfoHeader
          rw [if_neg hm, if_neg hp]
          split
          · rfl
          · split
            · rfl
            · split <;> rfl

theorem SetContainerInfo_cases (c : CacheState) (account container : String) (resp : Response) :
    ((parseInt64 (HeaderGet resp.Header "X-Container-Object-Count") = none ∨
        parseInt64 (HeaderGet resp.Header "X-Container-Bytes-Used") = none ∨
        parseInt64 (HeaderGet resp.Header "X-Backend-Storage-Policy-Index") = none) ∧
      ∃ e, SetContainerInfo c account container resp = .error e) ∨
    ∃ objectCount objectBytes policyIndex,
      parseInt64 (HeaderGet resp.Header "X-Container-Object-Count") = some objectCount ∧
      parseInt64 (HeaderGet resp.Header "X-Container-Bytes-Used") = some objectBytes ∧
      parseInt64 (HeaderGet resp.Header "X-Backend-Storage-Policy-Index") = some policyIndex ∧
      SetContainerInfo c account container resp
        = .ok (resp.Header.keys.foldl (setInfoHeader resp.Header)
                { ObjectCount := objectCount, ObjectBytes := objectBytes, ReadACL := "",
                  WriteACL := "", SyncKey := "", Metadata := ∅, SysMetadata := ∅,
                  StoragePolicyIndex := policyIndex },
              { lc := c.lc.map (fun lc => lc.insert (containerKey account container)
                  (.info (resp.Header.keys.foldl (setInfoHeader resp.Header)
                    { ObjectCount := objectCount, ObjectBytes := objectBytes, ReadACL := "",
                      WriteACL := "", SyncKey := "", Metadata := ∅, SysMetadata := ∅,
                      StoragePolicyIndex := policyIndex })))
                mc := c.mc.map (fun mc => mc.insert (containerKey account container)
                  (resp.Header.keys.foldl (setInfoHeader resp.Header)
                    { ObjectCount := objectCount, ObjectBytes := objectBytes, ReadACL := "",
                      WriteACL := "", SyncKey := "", Metadata := ∅, SysMetadata := ∅,
                      StoragePolicyIndex := policyIndex })) }) := by
  unfold SetContainerInfo
  cases h1 : parseInt64 (HeaderGet resp.Header "X-Container-Object-Count") with
  | none => exact Or.inl ⟨Or.inl rfl, _, rfl⟩
  | some objectCount =>
    cases h2 : parseInt64 (HeaderGet resp.Header "X-Container-Bytes-Used") with
    | none => exact Or.inl ⟨Or.inr (Or.inl rfl), _, rfl⟩
    | some objectBytes =>
      cases h3 : parseInt64 (HeaderGet resp.Header "X-Backend-Storage-Policy-Index") with
      | none => exact Or.inl ⟨Or.inr (Or.inr rfl), _, rfl⟩
      | some policyIndex => exact Or.inr ⟨_, _, _, rfl, rfl, rfl, rfl⟩

theorem foldl_setInfoHeader_numbers (h : Header) (ks : List String) :
    ∀ ci0 : ContainerInfo,
      (ks.foldl (setInfoHeader h) ci0).ObjectCount = ci0.ObjectCount ∧
      (ks.foldl (setInfoHeader h) ci0).ObjectBytes = ci0.ObjectBytes ∧
      (ks.foldl (setInfoHeader h) ci0).StoragePolicyIndex = ci0.StoragePolicyIndex := by
  induction ks with
  | nil => intro ci0; exact ⟨rfl, rfl, rfl⟩
  | cons k ks ih =>
    intro ci0
    simp only [List.foldl_cons]
    obtain ⟨h1, h2, h3⟩ := ih (setInfoHeader h ci0 k)
    rw [h1, h2, h3]
    unfold setInfoHeader
    split
    · exact ⟨rfl, rfl, rfl⟩
    · split
      · exact ⟨rfl, rfl, rfl⟩
      · split
        · exact ⟨rfl, rfl, rfl⟩
        · split
          · exact ⟨rfl, rfl, rfl⟩
          · split <;> exact ⟨rfl, rfl, rfl⟩

/-- C25: for every HEAD-container response and every cache state,
`SetContainerInfo` returns an error exactly when one of the headers
`X-Container-Object-Count`, `X-Container-Bytes-Used` and
`X-Backend-Storage-Policy-Index` is no decimal 64-bit integer, and then the
caches are as before; otherwise the info returned holds the three numbers,
its `Metadata` and `SysMetadata` hold, under `s`, the value of the header
`X-Container-Meta-s`, respectively `X-Container-Sysmeta-s`, and nothing else,
and the info is what each cache that is present holds under
`container/<account>/<container>` after the call. -/
theorem SetContainerInfo_spec (c : CacheState) (account container : String) (resp : Response) :
    ((∃ e, SetContainerInfo c account container resp = .error e) ↔
      (parseInt64 (HeaderGet resp.Header "X-Container-Object-Count") = none ∨
        parseInt64 (HeaderGet resp.Header "X-Container-Bytes-Used") = none ∨
        parseInt64 (HeaderGet resp.Header "X-Backend-Storage-Policy-Index") = none)) ∧
    ((∃ e, SetContainerInfo c account container resp = .error e) →
      cacheAfterSet c account container resp = c) ∧
    (∀ ci c', SetContainerInfo c account container resp = .ok (ci, c') →
      parseInt64 (HeaderGet resp.Header "X-Container-Object-Count") = some ci.ObjectCount ∧
      parseInt64 (HeaderGet resp.Header "X-Container-Bytes-Used") = some ci.ObjectBytes ∧
      parseInt64 (HeaderGet resp.Header "X-Backend-Storage-Policy-Index")
        = some ci.StoragePolicyIndex ∧
      (∀ s, ci.Metadata.lookup s = headerFamily resp.Header "X-Container-Meta-" s) ∧
      (∀ s, ci.SysMetadata.lookup s = headerFamily resp.Header "X-Container-Sysmeta-" s) ∧
      cacheAfterSet c account container resp = c' ∧
      (c.lc.isSome = true → localLookup c' (containerKey account container) = some (.info ci)) ∧
      (c.mc.isSome = true → sharedLookup c' (containerKey account container) = some ci)) := by
  rcases SetContainerInfo_cases c account container resp with ⟨hp, e, he⟩ | ⟨n1, n2, n3, h1, h2, h3, hok⟩
  · refine ⟨⟨fun _ => hp, fun _ => ⟨e, he⟩⟩, fun _ => ?_, fun ci c' h => ?_⟩
    · unfold cacheAfterSet; rw [he]
    · rw [he] at h; exact absurd h (by simp)
  · refine ⟨⟨fun ⟨e, he⟩ => ?_, fun hp => ?_⟩, fun ⟨e, he⟩ => ?_, fun ci c' h => ?_⟩
    · rw [hok] at he; exact absurd he (by simp)
    · rw [h1, h2, h3] at hp; simp at hp
    · rw [hok] at he; exact absurd he (by simp)
    · have hca : cacheAfterSet c account container resp = c' := by
        unfold cacheAfterSet; rw [h]
      rw [hok] at h
      injection h with h
      injection h with hci hc'
      obtain ⟨e1, e2, e3⟩ := foldl_setInfoHeader_numbers resp.Header resp.Header.keys
        { ObjectCount := n1, ObjectBytes := n2, ReadACL := "", WriteACL := "", SyncKey := "",
          Metadata := ∅, SysMetadata := ∅, StoragePolicyIndex := n3 }
      refine ⟨?_, ?_, ?_, ?_, ?_, hca, ?_, ?_⟩
      · rw [h1, ← hci, e1]
      · rw [h2, ← hci, e2]
      · rw [h3, ← hci, e3]
      · intro s
        rw [← hci, foldl_setInfoHeader_Metadata]
        unfold headerFamily
        split <;> rfl
      · intro s
        rw [← hci, foldl_setInfoHeader_SysMetadata]
        unfold headerFamily
        split <;> rfl
      · intro hl
        rw [← hc', ← hci]
        cases hlc : c.lc with
        | none => rw [hlc] at hl; exact absurd hl (by simp)
        | some lc => simp [localLookup, hlc]
      · intro hm
        rw [← hc', ← hci]
        cases hmc : c.mc with
        | none => rw [hmc] at hm; exact absurd hm (by simp)
        | some mc => simp [sharedLookup, hmc]

/-- C25, applied to a response with the numbers 2, 10 and 1 and to a response
whose object count is `two`, on a cache with both tiers. -/
theorem SetContainerInfo_spec_witness :
    cacheAfterSet warmCache "a" "c" brokenHeadResponse = warmCache ∧
    ∃ ci c', SetContainerInfo warmCache "a" "c" containerHeadResponse = .ok (ci, c') ∧
      ci.ObjectCount = 2 ∧ ci.StoragePolicyIndex = 1 ∧
      ci.Metadata.lookup "Color" = headerFamily containerHeadResponse.Header "X-Container-Meta-" "Color" ∧
      localLookup c' (containerKey "a" "c") = some (.info ci) ∧
      sharedLookup c' (containerKey "a" "c") = some ci := by
  refine ⟨(SetContainerInfo_spec warmCache "a" "c" brokenHeadResponse).2.1
    ((SetContainerInfo_spec warmCache "a" "c" brokenHeadResponse).1.mpr (Or.inl (by decide))), ?_⟩
  rcases SetContainerInfo_cases warmCache "a" "c" containerHeadResponse with
    ⟨hp, _⟩ | ⟨n1, n2, n3, h1, h2, h3, hok⟩
  · exact absurd hp (by decide)
  · obtain ⟨e1, _, e3, e4, _, _, e7, e8⟩ :=
      (SetContainerInfo_spec warmCache "a" "c" containerHeadResponse).2.2 _ _ hok
    refine ⟨_, _, hok, ?_, ?_, e4 "Color", e7 rfl, e8 rfl⟩
    · have : parseInt64 (HeaderGet containerHeadResponse.Header "X-Container-Object-Count")
          = some 2 := by decide
      rw [this] at e1
      injection e1 with e1
      exact e1.symm
    · have : parseInt64 (HeaderGet containerHeadResponse.Header "X-Backend-Storage-Policy-Index")
          = some 1 := by decide
      rw [this] at e3
      injection e3 with e3
      exact e3.symm

/-! ## `firstResponse`: the devices tried -/

theorem triedDevices_append (a b : List FREvent) :
    triedDevices (a ++ b) = triedDevices a ++ triedDevices b := by
  induction a with
  | nil => rfl
  | cons e a ih => cases e <;> simp [triedDevices, ih]

theorem launchedDevices_sublist (log : List FREvent) :
    List.Sublist (launchedDevices log) (triedDevices log) := by
  induction log with
  | nil => exact List.Sublist.slnil
  | cons e log ih =>
    cases e with
    | launched dev => exact ih.cons₂ dev
    | builderError dev => exact ih.cons dev
    | received r => exact ih
    | staggerTimeout => exact ih
    | gaveUp k => exact ih

theorem frFinish_tried (st : FRState) : triedDevices (frFinish st).log = triedDevices st.log :=
  rfl

theorem frReceive_tried (st : FRState) (j : Nat) :
    (∀ res, frReceive st j = .inl res → triedDevices res.log = triedDevices st.log) ∧
    (∀ st', frReceive st j = .inr st' →
      triedDevices st'.log = triedDevices st.log ∧ st'.more = st.more) := by
  unfold frReceive
  simp only
  split
  · refine ⟨fun res h => ?_, fun st' h => by simp at h⟩
    simp only [Sum.inl.injEq] at h
    rw [← h]
    simp [triedDevices_append, triedDevices]
  · refine ⟨fun res h => by simp at h, fun st' h => ?_⟩
    simp only [Sum.inr.injEq] at h
    rw [← h]
    simp [triedDevices_append, triedDevices]

theorem frFinalLoop_tried (sched : List (Option Nat)) :
    ∀ st : FRState, triedDevices (frFinalLoop st sched).log = triedDevices st.log := by
  induction sched with
  | nil =>
    intro st
    unfold frFinalLoop
    split
    · simp [frFinish, triedDevices_append, triedDevices]
    · rfl
  | cons ev sched ih =>
    intro st
    cases ev with
    | none =>
      unfold frFinalLoop
      split
      · simp [frFinish, triedDevices_append, triedDevices]
      · rfl
    | some j =>
      unfold frFinalLoop
      split
      · obtain ⟨h1, h2⟩ := frReceive_tried st j
        cases hr : frReceive st j with
        | inl res => exact h1 res hr
        | inr st' => simp only; rw [ih st']; exact (h2 st' hr).1
      · rfl

theorem take_succ_of_get? (full : List Device) (i : Nat) (d : Device)
    (h : full.get? i = some d) : full.take (i + 1) = full.take i ++ [d] := by
  rw [List.take_succ]
  simp only [List.get?_eq_getElem?] at h
  rw [h]; rfl

theorem drop_eq_cons (more0 : List Device) (j : Nat) (d : Device) (m : List Device)
    (h : more0.drop j = d :: m) : more0.get? j = some d ∧ more0.drop (j + 1) = m := by
  constructor
  · have := congrArg List.head? h
    simp only [List.head?_drop, List.head?_cons] at this
    simpa using this
  · have := congrArg List.tail h
    simp only [List.tail_drop, List.tail_cons] at this
    exact this

theorem frLaunchLoop_tried {Req : Type} (env : FREnv Req) (devs more0 : List Device) (n : Nat) :
    ∀ (requestCount : Nat) (st : FRState) (sched : List (Option Nat)),
      triedDevices st.log = (devs ++ more0).take requestCount →
      st.more = more0.drop (requestCount - devs.length) →
      TriedFirst (devs ++ more0) (requestCount + n)
        (frLaunchLoop env devs n requestCount st sched) := by
  induction n with
  | zero =>
    intro requestCount st sched h _
    unfold frLaunchLoop
    exact ⟨requestCount, by omega, by rw [frFinalLoop_tried]; exact h⟩
  | succ n ih =>
    intro requestCount st sched h hm
    unfold frLaunchLoop
    simp only
    by_cases hlt : requestCount < devs.length
    · simp only [hlt, if_true]
      cases hg : devs.get? requestCount with
      | none =>
        simp only [Option.map_none']
        exact ⟨requestCount, by omega, by rw [frFinalLoop_tried]; exact h⟩
      | some dev =>
        simp only [Option.map_some']
        have htake : (devs ++ more0).take (requestCount + 1)
            = (devs ++ more0).take requestCount ++ [dev] :=
          take_succ_of_get? _ _ _ (by rw [List.get?_append hlt]; exact hg)
        have hmore' : st.more = more0.drop (requestCount + 1 - devs.length) := by
          rw [hm]
          have e1 : requestCount - devs.length = 0 := by omega
          have e2 : requestCount + 1 - devs.length = 0 := by omega
          rw [e1, e2]
        generalize st.more = more' at hmore'
        have finish : ∀ (st' : FRState) (sched' : List (Option Nat)),
            triedDevices st'.log = (devs ++ more0).take (requestCount + 1) →
            st'.more = more0.drop (requestCount + 1 - devs.length) →
            TriedFirst (devs ++ more0) (requestCount + (n + 1))
              (frLaunchLoop env devs n (requestCount + 1) st' sched') := by
          intro st' sched' h1 h2
          obtain ⟨k, hk, hres⟩ := ih (requestCount + 1) st' sched' h1 h2
          exact ⟨k, by omega, hres⟩
        cases hreq : env.devToRequest dev with
        | error e =>
          simp only
          apply finish
          · simp [triedDevices_append, triedDevices, h, htake]
          · exact hmore'
        | ok req =>
          simp only
          have hlog1 : triedDevices (st.log ++ [FREvent.launched dev])
              = (devs ++ more0).take (requestCount + 1) := by
            simp [triedDevices_append, triedDevices, h, htake]
          cases sched with
          | nil =>
            apply finish
            · simp [triedDevices_append, triedDevices, h, htake]
            · exact hmore'
          | cons ev rest =>
            cases ev with
            | none =>
              apply finish
              · simp [triedDevices_append, triedDevices, h, htake]
              · exact hmore'
            | some j =>
              simp only
              obtain ⟨r1, r2⟩ := frReceive_tried { st with
                  more := more'
                  pending := st.pending ++ [env.clientDo req]
                  log := st.log ++ [FREvent.launched dev] } j
              cases hr : frReceive { st with
                  more := more'
                  pending := st.pending ++ [env.clientDo req]
                  log := st.log ++ [FREvent.launched dev] } j with
              | inl res =>
                exact ⟨requestCount + 1, by omega, by rw [r1 res hr]; exact hlog1⟩
              | inr st' =>
                obtain ⟨e1, e2⟩ := r2 st' hr
                apply finish
                · rw [e1]; exact hlog1
                · rw [e2]; exact hmore'
    · simp only [hlt, if_false]
      cases hmo : st.more with
      | nil =>
        simp only
        exact ⟨requestCount, by omega, by rw [frFinalLoop_tried]; exact h⟩
      | cons dev more' =>
        simp only
        rw [hmo] at hm
        obtain ⟨hget, hdrop⟩ := drop_eq_cons more0 _ dev more' hm.symm
        have htake : (devs ++ more0).take (requestCount + 1)
            = (devs ++ more0).take requestCount ++ [dev] :=
          take_succ_of_get? _ _ _ (by rw [List.get?_append_right (by omega)]; exact hget)
        have hmore' : more' = more0.drop (requestCount + 1 - devs.length) := by
          rw [← hdrop]
          congr 1
          omega
        have finish : ∀ (st' : FRState) (sched' : List (Option Nat)),
            triedDevices st'.log = (devs ++ more0).take (requestCount + 1) →
            st'.more = more0.drop (requestCount + 1 - devs.length) →
            TriedFirst (devs ++ more0) (requestCount + (n + 1))
              (frLaunchLoop env devs n (requestCount + 1) st' sched') := by
          intro st' sched' h1 h2
          obtain ⟨k, hk, hres⟩ := ih (requestCount + 1) st' sched' h1 h2
          exact ⟨k, by omega, hres⟩
        cases hreq : env.devToRequest dev with
        | error e =>
          simp only
          apply finish
          · simp [triedDevices_append, triedDevices, h, htake]
          · exact hmore'
        | ok req =>
          simp only
          have hlog1 : triedDevices (st.log ++ [FREvent.launched dev])
              = (devs ++ more0).take (requestCount + 1) := by
            simp [triedDevices_append, triedDevices, h, htake]
          cases sched with
          | nil =>
            apply finish
            · simp [triedDevices_append, triedDevices, h, htake]
            · exact hmore'
          | cons ev rest =>
            cases ev with
            | none =>
              apply finish
              · simp [triedDevices_append, triedDevices, h, htake]
              · exact hmore'
            | some j =>
              simp only
              obtain ⟨r1, r2⟩ := frReceive_tried { st with
                  more := more'
                  pending := st.pending ++ [env.clientDo req]
                  log := st.log ++ [FREvent.launched dev] } j
              cases hr : frReceive { st with
                  more := more'
                  pending := st.pending ++ [env.clientDo req]
                  log := st.log ++ [FREvent.launched dev] } j with
              | inl res =>
                exact ⟨requestCount + 1, by omega, by rw [r1 res hr]; exact hlog1⟩
              | inr st' =>
                obtain ⟨e1, e2⟩ := r2 st' hr
                apply finish
                · rw [e1]; exact hlog1
                · rw [e2]; exact hmore'

theorem swap_head_perm (t : List Device) :
    ∀ (j : Nat) (a y : Device), t.get? j = some y → List.Perm (y :: t.set j a) (a :: t) := by
  induction t with
  | nil => intro j a y h; simp at h
  | cons b t ih =>
    intro j a y h
    cases j with
    | zero =>
      simp only [List.get?_cons_zero, Option.some.injEq] at h
      subst h
      exact List.Perm.swap a b t
    | succ k =>
      simp only [List.get?_cons_succ] at h
      simp only [List.set_cons_succ]
      exact ((List.Perm.swap b y (t.set k a)).trans ((ih k a y h).cons b)).trans
        (List.Perm.swap a b t)

theorem swap_perm (l : List Device) :
    ∀ (i j : Nat) (x y : Device), l.get? i = some x → l.get? j = some y →
      List.Perm ((l.set i y).set j x) l := by
  induction l with
  | nil => intro i j x y h; simp at h
  | cons a t ih =>
    intro i j x y hi hj
    cases i with
    | zero =>
      simp only [List.get?_cons_zero, Option.some.injEq] at hi
      subst hi
      cases j with
      | zero =>
        simp only [List.get?_cons_zero, Option.some.injEq] at hj
        subst hj
        simp
      | succ k =>
        simp only [List.get?_cons_succ] at hj
        simp only [List.set_cons_zero, List.set_cons_succ]
        exact swap_head_perm t k a y hj
    | succ m =>
      simp only [List.get?_cons_succ] at hi
      cases j with
      | zero =>
        simp only [List.get?_cons_zero, Option.some.injEq] at hj
        subst hj
        simp only [List.set_cons_succ, List.set_cons_zero]
        exact swap_head_perm t m a x hi
      | succ k =>
        simp only [List.get?_cons_succ] at hj
        simp only [List.set_cons_succ]
        exact (ih m k x y hi hj).cons a

theorem frShuffle_perm (rnd : Nat → Nat) (n : Nat) :
    ∀ (i : Nat) (devs : List Device), i + n ≤ devs.length →
      ∃ devs', frShuffle rnd n i devs = some devs' ∧ List.Perm devs' devs ∧
        devs'.drop (i + n) = devs.drop (i + n) := by
  induction n with
  | zero => intro i devs _; exact ⟨devs, rfl, List.Perm.refl _, rfl⟩
  | succ n ih =>
    intro i devs h
    have hi : i < devs.length := by omega
    have hjle : rnd i % (i + 1) < i + 1 := Nat.mod_lt (rnd i) (by omega)
    have hj : rnd i % (i + 1) < devs.length := by omega
    obtain ⟨di, hdi⟩ : ∃ di, devs.get? i = some di := ⟨devs.get ⟨i, hi⟩, List.get?_eq_get hi⟩
    obtain ⟨dj, hdj⟩ : ∃ dj, devs.get? (rnd i % (i + 1)) = some dj :=
      ⟨devs.get ⟨_, hj⟩, List.get?_eq_get hj⟩
    obtain ⟨devs', h1, h2, h3⟩ := ih (i + 1) ((devs.set i dj).set (rnd i % (i + 1)) di)
      (by simp; omega)
    refine ⟨devs', ?_, h2.trans (swap_perm devs i _ di dj hdi hdj), ?_⟩
    · simp only [frShuffle, hdi, hdj]
      exact h1
    · have e : i + (n + 1) = i + 1 + n := by omega
      rw [e, h3, List.drop_set_of_lt _ _ (by omega), List.drop_set_of_lt _ _ (by omega)]

/-- C24 (counterexample): three primaries, the device limit 1 and one handoff.
Two requests are launched: the first against the primary 1, the second
against the primary 2, which is neither among the first `D = 1` primaries nor
drawn from the handoff iterator. -/
theorem firstResponse_launches_later_primary :
    primariesOf 3 1 = 1 ∧ primariesOf 3 1 ≤ testPrimaries.length ∧
    (firstResponse notFoundEnv 3 1 testPrimaries [testDevice 4] (fun _ => 0) []).map
        (fun res => launchedDevices res.log) = some [testDevice 1, testDevice 2] ∧
    testDevice 2 ∉ testPrimaries.take 1 ∧ testDevice 2 ∉ [testDevice 4] := by
  refine ⟨by decide, by decide, rfl, by decide, by decide⟩

/-- C24 (amended): for every ring, device limit `D` (0 meaning the replica
count) not exceeding the number of primaries, every outcome of the random
choices and every schedule, `firstResponse` returns, and the devices for which
it builds a request, in order, are the first `k ≤ 2·D` devices of: a
permutation of the first `D` primaries, then the remaining primaries in ring
order, then the devices of the handoff iterator in iterator order; the devices
it launches a request against are those among them for which the builder
succeeds. -/
theorem firstResponse_tries_in_order {Req : Type} (env : FREnv Req) (replicaCount : Nat)
    (deviceLimit : Int) (devs more : List Device) (rnd : Nat → Nat) (sched : List (Option Nat))
    (hD : primariesOf replicaCount deviceLimit ≤ devs.length) :
    ∃ res shuffled, firstResponse env replicaCount deviceLimit devs more rnd sched = some res ∧
      List.Perm shuffled (devs.take (primariesOf replicaCount deviceLimit)) ∧
      TriedFirst (shuffled ++ devs.drop (primariesOf replicaCount deviceLimit) ++ more)
        (2 * primariesOf replicaCount deviceLimit) res ∧
      List.Sublist (launchedDevices res.log) (triedDevices res.log) := by
  obtain ⟨devs', hs, hperm, hdrop⟩ :=
    frShuffle_perm rnd (primariesOf replicaCount deviceLimit) 0 devs (by omega)
  rw [Nat.zero_add] at hdrop
  have hsplit : devs' = devs'.take (primariesOf replicaCount deviceLimit)
      ++ devs.drop (primariesOf replicaCount deviceLimit) := by
    rw [← hdrop, List.take_append_drop]
  have hp : List.Perm (devs'.take (primariesOf replicaCount deviceLimit))
      (devs.take (primariesOf replicaCount deviceLimit)) := by
    have h1 : List.Perm (devs'.take (primariesOf replicaCount deviceLimit)
        ++ devs.drop (primariesOf replicaCount deviceLimit))
        (devs.take (primariesOf replicaCount deviceLimit)
          ++ devs.drop (primariesOf replicaCount deviceLimit)) := by
      rw [← hsplit, List.take_append_drop]; exact hperm
    exact (List.perm_append_right_iff _).mp h1
  have hrun : firstResponse env replicaCount deviceLimit devs more rnd sched
      = some (frLaunchLoop env devs' (primariesOf replicaCount deviceLimit * 2) 0
          { more := more, pending := [], counters := { notFounds := 0, internalErrors := 0 },
            log := [] } sched) := by
    show (match frShuffle rnd (primariesOf replicaCount deviceLimit) 0 devs with
      | none => none
      | some devs' => some (frLaunchLoop env devs' (primariesOf replicaCount deviceLimit * 2) 0
          { more := more, pending := [], counters := { notFounds := 0, internalErrors := 0 },
            log := [] } sched)) = _
    rw [hs]
  obtain ⟨k, hk, htr⟩ := frLaunchLoop_tried env devs' more
    (primariesOf replicaCount deviceLimit * 2) 0
    { more := more, pending := [], counters := { notFounds := 0, internalErrors := 0 },
      log := [] } sched rfl (by simp)
  refine ⟨_, devs'.take (primariesOf replicaCount deviceLimit), hrun, hp, ⟨k, by omega, ?_⟩,
    launchedDevices_sublist _⟩
  rw [htr, ← hsplit]

/-- C24 (amended), applied to three primaries, the device limit 1 and one
handoff. -/
theorem firstResponse_tries_in_order_witness :
    ∃ res shuffled,
      firstResponse notFoundEnv 3 1 testPrimaries [testDevice 4] (fun _ => 0) [] = some res ∧
      List.Perm shuffled (testPrimaries.take (primariesOf 3 1)) ∧
      TriedFirst (shuffled ++ testPrimaries.drop (primariesOf 3 1) ++ [testDevice 4])
        (2 * primariesOf 3 1) res ∧
      List.Sublist (launchedDevices res.log) (triedDevices res.log) :=
  firstResponse_tries_in_order notFoundEnv 3 1 testPrimaries [testDevice 4] (fun _ => 0) []
    (by decide)

end Hummingbird
